import Mathlib

/-! # Local kernels of nalu-wind: point location, scalar mass, TAMS momentum diffusion

A shallow embedding of

* `src/master_element/MasterElementUtils.C`
  (`isoparameteric_coordinates_for_point_3d`, `isoparameteric_coordinates_for_point_2d`),
* `src/ScalarMassElemSuppAlgDep.C` (constructor, `elem_resize`, `setup`, `elem_execute`),
* `src/edge_kernels/MomentumSSTTAMSDiffEdgeKernel.C` (`execute`).

Conventions of the embedding.

* A `double` is an element of a linearly ordered field `K` (exact arithmetic); every definition
  is computable, so it can be run on `ℚ`. The point-location solver is written over the bare
  operations `+ - * /` and a decidable `<`, with no law assumed, so that it can also be run
  on `DoubleNaN`, the rationals extended by a NaN for which every comparison is false.
* A `double*` / `std::vector<double>` is a function `Nat → K` from index to value; a store
  `a[i] = v` is `setAt a i v` and `a[i] += v` is `addAt a i v`.
* `for (int i = 0; i < n; ++i) body` is `forLoop n body`.
* Collaborators whose code is not part of the three files (the Lagrange basis, the small linear
  solves, the master element, the mesh, the eigen-decomposition, `pow`) are parameters.
-/

namespace Nalu

/-! ## Loops and arrays -/

/-- Counted loop `for (int i = 0; i < n; ++i) body`: the body sees the index and the state. -/
def forLoop {σ : Type} (n : Nat) (body : Nat → σ → σ) (s : σ) : σ :=
  match n with
  | 0 => s
  | m + 1 => body m (forLoop m body s)

/-- Store `a[i] = v`. -/
def setAt {K : Type} (a : Nat → K) (i : Nat) (v : K) : Nat → K :=
  fun k => if k = i then v else a k

/-- Accumulating store `a[i] += v`. -/
def addAt {K : Type} [Add K] (a : Nat → K) (i : Nat) (v : K) : Nat → K :=
  fun k => if k = i then a k + v else a k

/-- Accumulating store into a two-index view, `a(i, j) += v`. -/
def addAt2 {K : Type} [Add K] (a : Nat → Nat → K) (i j : Nat) (v : K) : Nat → Nat → K :=
  fun p q => if p = i ∧ q = j then a p q + v else a p q

/-! ## Point-location solver (`MasterElementUtils.C`) -/

section PointLocation

variable {K : Type} [Zero K] [Add K] [Sub K] [Neg K] [Mul K] [Div K] [LT K]
  [DecidableRel (fun a b : K => a < b)]

/-- Modelled from the spec: the dot product of the Tensor/Linear-Algebra Utilities (`ddot` is
declared in `FORTRAN_Proto.h`, outside the three files): the sum of `x[j] * y[j]`, `j < n`. -/
def ddot (x y : Nat → K) (n : Nat) : K :=
  forLoop n (fun j acc => acc + x j * y j) 0

/-- Modelled from the spec: squared vector norm of the Tensor/Linear-Algebra Utilities
(`vecnorm_sq3` is declared in `TensorOps.h`, outside the three files). -/
def vecnorm_sq3 (x : K × K × K) : K :=
  x.1 * x.1 + x.2.1 * x.2.1 + x.2.2 * x.2.2

/-- Modelled from the spec: squared vector norm of the Tensor/Linear-Algebra Utilities
(`vecnorm_sq2` is declared in `TensorOps.h`, outside the three files). -/
def vecnorm_sq2 (x : K × K) : K :=
  x.1 * x.1 + x.2 * x.2

/-- Modelled from the spec: the Shape-Function Provider (`LagrangeBasis`, declared in
`LagrangeBasis.h`, outside the three files): interpolation weights and derivative weights at a
parametric coordinate, a pure function of that coordinate. `V` is the type of the coordinate. -/
structure LagrangeBasis (K V : Type) where
  /-- Value of `basis.num_nodes()`. -/
  num_nodes : Nat
  /-- Value of `basis.point_interpolation_weights(guess.data())`, indexed by node. -/
  point_interpolation_weights : V → Nat → K
  /-- Value of `basis.point_derivative_weights(guess.data())`, indexed `(node, direction)`. -/
  point_derivative_weights : V → Nat → Nat → K

/-- State of the Newton `do { } while` loop: the source variables `iter` and `guess`, and the ghost
counter `evals` of loop-body executions (not a source variable; it only observes the run). -/
structure NewtonState (V : Type) where
  /-- Source variable `iter`. -/
  iter : Int
  /-- Source variable `guess`. -/
  guess : V
  /-- Ghost: how many times the loop body has been entered. -/
  evals : Nat

/-- The `do { delta = body(guess); if (|delta|^2 > deltaLimit) { iter = maxIter; break; }
guess += delta; } while (|delta|^2 > tol && (++iter < maxIter));` control flow, written the same
way in both solvers (`MasterElementUtils.C` lines 45-86 and 111-142). `body` computes `delta`
from the current guess. -/
def newton_do_while {V : Type} (body : V → V) (add : V → V → V) (normsq : V → K)
    (maxIter : Int) (tol deltaLimit : K) (s : NewtonState V) : NewtonState V :=
  let delta := body s.guess
  if normsq delta > deltaLimit then
    -- iter = maxIter; break;
    { iter := maxIter, guess := s.guess, evals := s.evals + 1 }
  else
    let guess := add s.guess delta
    if normsq delta > tol then
      -- `++iter < maxIter` is evaluated only when the tolerance test passed
      if s.iter + 1 < maxIter then
        newton_do_while body add normsq maxIter tol deltaLimit
          { iter := s.iter + 1, guess := guess, evals := s.evals + 1 }
      else
        { iter := s.iter + 1, guess := guess, evals := s.evals + 1 }
    else
      { iter := s.iter, guess := guess, evals := s.evals + 1 }
termination_by (maxIter - s.iter).toNat
decreasing_by simp_wf; omega

/-- The array `jact` assembled at `guess` by the 3-d solver, lines 57-71. -/
def jact_3d (basis : LagrangeBasis K (K × K × K)) (elemNodalCoords : Nat → K)
    (guess : K × K × K) : Nat → K :=
  let nNodes := basis.num_nodes
  -- transpose of the jacobian of the forward mapping
  let deriv := basis.point_derivative_weights guess
  forLoop nNodes (fun j jact =>
    let jact := addAt jact 0 (deriv j 0 * elemNodalCoords (j + 0 * nNodes))
    let jact := addAt jact 1 (deriv j 1 * elemNodalCoords (j + 0 * nNodes))
    let jact := addAt jact 2 (deriv j 2 * elemNodalCoords (j + 0 * nNodes))
    let jact := addAt jact 3 (deriv j 0 * elemNodalCoords (j + 1 * nNodes))
    let jact := addAt jact 4 (deriv j 1 * elemNodalCoords (j + 1 * nNodes))
    let jact := addAt jact 5 (deriv j 2 * elemNodalCoords (j + 1 * nNodes))
    let jact := addAt jact 6 (deriv j 0 * elemNodalCoords (j + 2 * nNodes))
    let jact := addAt jact 7 (deriv j 1 * elemNodalCoords (j + 2 * nNodes))
    let jact := addAt jact 8 (deriv j 2 * elemNodalCoords (j + 2 * nNodes))
    jact) (fun _ => 0)

/-- Loop body of the 3-d solver, lines 46-74: the correction `delta` at `guess`. -/
def delta_3d (basis : LagrangeBasis K (K × K × K))
    (solve33 : (Nat → K) → K × K × K → K × K × K)
    (elemNodalCoords pointCoord : Nat → K) (guess : K × K × K) : K × K × K :=
  let nNodes := basis.num_nodes
  -- interpolate coordinate at guess
  let weights := basis.point_interpolation_weights guess
  let error_vec : K × K × K :=
    (pointCoord 0 - ddot weights (fun j => elemNodalCoords (j + 0 * nNodes)) nNodes,
     pointCoord 1 - ddot weights (fun j => elemNodalCoords (j + 1 * nNodes)) nNodes,
     pointCoord 2 - ddot weights (fun j => elemNodalCoords (j + 2 * nNodes)) nNodes)
  -- update guess along gradient of mapping from physical-to-reference coordinates
  let jact := jact_3d basis elemNodalCoords guess
  -- apply its inverse on the error vector
  solve33 jact error_vec

/-- Update `guess[d] += delta[d]`, `d < 3`. -/
def add3 (g d : K × K × K) : K × K × K :=
  (g.1 + d.1, g.2.1 + d.2.1, g.2.2 + d.2.2)

/-- Update `guess[d] += delta[d]`, `d < 2`. -/
def add2 (g d : K × K) : K × K :=
  (g.1 + d.1, g.2 + d.2)

/-- Final loop state of `isoparameteric_coordinates_for_point_3d` (`iter = 0`,
`guess = initialGuess` on entry). -/
def run_3d (basis : LagrangeBasis K (K × K × K))
    (solve33 : (Nat → K) → K × K × K → K × K × K)
    (elemNodalCoords pointCoord : Nat → K) (initialGuess : K × K × K)
    (maxIter : Int) (tol deltaLimit : K) : NewtonState (K × K × K) :=
  newton_do_while (delta_3d basis solve33 elemNodalCoords pointCoord) add3 vecnorm_sq3
    maxIter tol deltaLimit { iter := 0, guess := initialGuess, evals := 0 }

/-- The function `isoparameteric_coordinates_for_point_3d`: the returned flag `iter < maxIter`
and the coordinates written to `isoParCoord`. -/
def isoparameteric_coordinates_for_point_3d (basis : LagrangeBasis K (K × K × K))
    (solve33 : (Nat → K) → K × K × K → K × K × K)
    (elemNodalCoords pointCoord : Nat → K) (initialGuess : K × K × K)
    (maxIter : Int) (tol deltaLimit : K) : Bool × (K × K × K) :=
  let s := run_3d basis solve33 elemNodalCoords pointCoord initialGuess maxIter tol deltaLimit
  (decide (s.iter < maxIter), s.guess)

/-- The array `jact` assembled at `guess` by the 2-d solver, lines 122-129. -/
def jact_2d (basis : LagrangeBasis K (K × K)) (elemNodalCoords : Nat → K)
    (guess : K × K) : Nat → K :=
  let nNodes := basis.num_nodes
  -- transpose of the jacobian of the forward mapping
  let deriv := basis.point_derivative_weights guess
  forLoop nNodes (fun j jact =>
    let jact := addAt jact 0 (deriv j 0 * elemNodalCoords (j + 0 * nNodes))
    let jact := addAt jact 1 (deriv j 1 * elemNodalCoords (j + 0 * nNodes))
    let jact := addAt jact 2 (deriv j 0 * elemNodalCoords (j + 1 * nNodes))
    let jact := addAt jact 3 (deriv j 1 * elemNodalCoords (j + 1 * nNodes))
    jact) (fun _ => 0)

/-- Loop body of the 2-d solver, lines 112-132: the correction `delta` at `guess`. -/
def delta_2d (basis : LagrangeBasis K (K × K))
    (solve22 : (Nat → K) → K × K → K × K)
    (elemNodalCoords pointCoord : Nat → K) (guess : K × K) : K × K :=
  let nNodes := basis.num_nodes
  -- interpolate coordinate at guess
  let weights := basis.point_interpolation_weights guess
  let error_vec : K × K :=
    (pointCoord 0 - ddot weights (fun j => elemNodalCoords (j + 0 * nNodes)) nNodes,
     pointCoord 1 - ddot weights (fun j => elemNodalCoords (j + 1 * nNodes)) nNodes)
  -- update guess along gradient of mapping from physical-to-reference coordinates
  let jact := jact_2d basis elemNodalCoords guess
  -- apply its inverse on the error vector
  solve22 jact error_vec

/-- Final loop state of `isoparameteric_coordinates_for_point_2d`. -/
def run_2d (basis : LagrangeBasis K (K × K))
    (solve22 : (Nat → K) → K × K → K × K)
    (elemNodalCoords pointCoord : Nat → K) (initialGuess : K × K)
    (maxIter : Int) (tol deltaLimit : K) : NewtonState (K × K) :=
  newton_do_while (delta_2d basis solve22 elemNodalCoords pointCoord) add2 vecnorm_sq2
    maxIter tol deltaLimit { iter := 0, guess := initialGuess, evals := 0 }

/-- The function `isoparameteric_coordinates_for_point_2d`: the returned flag `iter < maxIter`
and the coordinates written to `isoParCoord`. -/
def isoparameteric_coordinates_for_point_2d (basis : LagrangeBasis K (K × K))
    (solve22 : (Nat → K) → K × K → K × K)
    (elemNodalCoords pointCoord : Nat → K) (initialGuess : K × K)
    (maxIter : Int) (tol deltaLimit : K) : Bool × (K × K) :=
  let s := run_2d basis solve22 elemNodalCoords pointCoord initialGuess maxIter tol deltaLimit
  (decide (s.iter < maxIter), s.guess)

/-- The guess after `k` undisturbed Newton updates: `g_0 = initialGuess`,
`g_(k+1) = g_k + body g_k`. This is the sequence the statements about "iteration k" refer to. -/
def guessSeq {V : Type} (body : V → V) (add : V → V → V) (g0 : V) : Nat → V
  | 0 => g0
  | k + 1 => add (guessSeq body add g0 k) (body (guessSeq body add g0 k))

/-- The correction `d_k` computed at iteration `k` (counted from 1): the body evaluated at the
guess left by the `k - 1` earlier iterations. -/
def correction {V : Type} (body : V → V) (add : V → V → V) (g0 : V) (k : Nat) : V :=
  body (guessSeq body add g0 (k - 1))

/-- The determinant of a row-major 3 × 3 array, used to say that a Jacobian is invertible. -/
def det33 (A : Nat → K) : K :=
  A 0 * (A 4 * A 8 - A 5 * A 7) - A 1 * (A 3 * A 8 - A 5 * A 6) + A 2 * (A 3 * A 7 - A 4 * A 6)

/-- The product of a row-major 3 × 3 array with a vector. -/
def matVec33 (A : Nat → K) (x : K × K × K) : K × K × K :=
  (A 0 * x.1 + A 1 * x.2.1 + A 2 * x.2.2,
   A 3 * x.1 + A 4 * x.2.1 + A 5 * x.2.2,
   A 6 * x.1 + A 7 * x.2.1 + A 8 * x.2.2)

/-- The determinant of a row-major 2 × 2 array. -/
def det22 (A : Nat → K) : K :=
  A 0 * A 3 - A 1 * A 2

/-- The product of a row-major 2 × 2 array with a vector. -/
def matVec22 (A : Nat → K) (x : K × K) : K × K :=
  (A 0 * x.1 + A 1 * x.2, A 2 * x.1 + A 3 * x.2)

/-- The forward interpolation of the nodal coordinates at the reference coordinate `r`:
`p_i = sum_j w_j(r) * elemNodalCoords[j + i * nNodes]`. -/
def forward_map {V : Type} (basis : LagrangeBasis K V) (elemNodalCoords : Nat → K) (r : V) :
    Nat → K :=
  fun i => ddot (basis.point_interpolation_weights r)
    (fun j => elemNodalCoords (j + i * basis.num_nodes)) basis.num_nodes

end PointLocation

/-! ### Affine elements -/

section PointLocationAffine

variable {K : Type} [LinearOrderedField K]

/-- The reference coordinate `q` of a 3-d element moved by `h` along the direction `d`. -/
def shift3 (d : Nat) (q : K × K × K) (h : K) : K × K × K :=
  if d = 0 then (q.1 + h, q.2.1, q.2.2)
  else if d = 1 then (q.1, q.2.1 + h, q.2.2) else (q.1, q.2.1, q.2.2 + h)

/-- The reference coordinate `q` of a 2-d element moved by `h` along the direction `d`. -/
def shift2 (d : Nat) (q : K × K) (h : K) : K × K :=
  if d = 0 then (q.1 + h, q.2) else (q.1, q.2 + h)

/-- The number `D` is the derivative of `f` at `q` along the moves `h ↦ shift q h`: for every
`ε > 0` there is a `δ > 0` with `|f (shift q h) - f q - D * h| ≤ ε * |h|` whenever `|h| < δ`. -/
def IsDerivativeAlong {V : Type} (shift : V → K → V) (f : V → K) (q : V) (D : K) : Prop :=
  ∀ ε : K, 0 < ε → ∃ δ : K, 0 < δ ∧
    ∀ h : K, |h| < δ → |f (shift q h) - f q - D * h| ≤ ε * |h|

/-- The forward mapping of a 3-d element is affine with Jacobian `J` (row-major) and offset `x0`,
and the derivative weights of the basis are the partial derivatives of its interpolation
weights: the interpolated position at every `q` is `x0 + J q`, and at every `q`
`point_derivative_weights q j d` is the derivative of `point_interpolation_weights · j` along
the reference direction `d`, for every node `j` and `d < 3`. -/
def IsAffineElement3d (basis : LagrangeBasis K (K × K × K)) (elemNodalCoords : Nat → K)
    (J : Nat → K) (x0 : K × K × K) : Prop :=
  (∀ q : K × K × K, forward_map basis elemNodalCoords q 0
      = x0.1 + (J 0 * q.1 + J 1 * q.2.1 + J 2 * q.2.2)) ∧
  (∀ q : K × K × K, forward_map basis elemNodalCoords q 1
      = x0.2.1 + (J 3 * q.1 + J 4 * q.2.1 + J 5 * q.2.2)) ∧
  (∀ q : K × K × K, forward_map basis elemNodalCoords q 2
      = x0.2.2 + (J 6 * q.1 + J 7 * q.2.1 + J 8 * q.2.2)) ∧
  (∀ (q : K × K × K) (j d : Nat), j < basis.num_nodes → d < 3 →
    IsDerivativeAlong (shift3 d) (fun p => basis.point_interpolation_weights p j) q
      (basis.point_derivative_weights q j d))

/-- The forward mapping of a 2-d element is affine with Jacobian `J` (row-major) and offset `x0`,
and the derivative weights of the basis are the partial derivatives of its interpolation
weights, for every node `j` and direction `d < 2`. -/
def IsAffineElement2d (basis : LagrangeBasis K (K × K)) (elemNodalCoords : Nat → K)
    (J : Nat → K) (x0 : K × K) : Prop :=
  (∀ q : K × K, forward_map basis elemNodalCoords q 0 = x0.1 + (J 0 * q.1 + J 1 * q.2)) ∧
  (∀ q : K × K, forward_map basis elemNodalCoords q 1 = x0.2 + (J 2 * q.1 + J 3 * q.2)) ∧
  (∀ (q : K × K) (j d : Nat), j < basis.num_nodes → d < 2 →
    IsDerivativeAlong (shift2 d) (fun p => basis.point_interpolation_weights p j) q
      (basis.point_derivative_weights q j d))

end PointLocationAffine

section PointLocationConcrete

variable {K : Type} [Zero K] [Add K] [Sub K] [Neg K] [Mul K] [Div K] [LT K]
  [DecidableRel (fun a b : K => a < b)]

/-! ### Concrete elements on which the statements are exercised -/

/-- An exact 3 × 3 solve by Cramer's rule. -/
def cramer33 (A : Nat → K) (b : K × K × K) : K × K × K :=
  (((A 4 * A 8 - A 5 * A 7) * b.1 - (A 1 * A 8 - A 2 * A 7) * b.2.1
      + (A 1 * A 5 - A 2 * A 4) * b.2.2) / det33 A,
   (-(A 3 * A 8 - A 5 * A 6) * b.1 + (A 0 * A 8 - A 2 * A 6) * b.2.1
      - (A 0 * A 5 - A 2 * A 3) * b.2.2) / det33 A,
   ((A 3 * A 7 - A 4 * A 6) * b.1 - (A 0 * A 7 - A 1 * A 6) * b.2.1
      + (A 0 * A 4 - A 1 * A 3) * b.2.2) / det33 A)

/-- An exact 2 × 2 solve by Cramer's rule. -/
def cramer22 (A : Nat → K) (b : K × K) : K × K :=
  ((A 3 * b.1 - A 1 * b.2) / det22 A, (A 0 * b.2 - A 2 * b.1) / det22 A)

/-- The linear basis of the four-node tetrahedron. -/
def tet4Basis : LagrangeBasis ℚ (ℚ × ℚ × ℚ) where
  num_nodes := 4
  point_interpolation_weights := fun g j =>
    if j = 0 then 1 - g.1 - g.2.1 - g.2.2
    else if j = 1 then g.1 else if j = 2 then g.2.1 else if j = 3 then g.2.2 else 0
  point_derivative_weights := fun _ j d =>
    if j = 0 then -1 else if j = d + 1 then 1 else 0

/-- Nodal coordinates of a tetrahedron with nodes (1,0,0), (3,0,0), (1,1,0), (1,0,1),
stored component by component. -/
def tet4Coords : Nat → ℚ := fun m =>
  if m = 0 then 1 else if m = 1 then 3 else if m = 2 then 1 else if m = 3 then 1
  else if m = 6 then 1 else if m = 11 then 1 else 0

/-- The Jacobian of the forward mapping of `tet4Coords`, row-major. -/
def tet4Jacobian : Nat → ℚ := fun m =>
  if m = 0 then 2 else if m = 4 then 1 else if m = 8 then 1 else 0

/-- Nodal coordinates of a tetrahedron with nodes (1,0,0), (3,1,0), (1,1,0), (1,0,1), stored
component by component; its Jacobian is not symmetric. -/
def tet4SkewCoords : Nat → ℚ := fun m =>
  if m = 0 then 1 else if m = 1 then 3 else if m = 2 then 1 else if m = 3 then 1
  else if m = 5 then 1 else if m = 6 then 1 else if m = 11 then 1 else 0

/-- The Jacobian of the forward mapping of `tet4SkewCoords`, row-major. -/
def tet4SkewJacobian : Nat → ℚ := fun m =>
  if m = 0 then 2 else if m = 3 then 1 else if m = 4 then 1 else if m = 8 then 1 else 0

/-- The linear basis of the three-node triangle. -/
def tri3Basis : LagrangeBasis ℚ (ℚ × ℚ) where
  num_nodes := 3
  point_interpolation_weights := fun g j =>
    if j = 0 then 1 - g.1 - g.2 else if j = 1 then g.1 else if j = 2 then g.2 else 0
  point_derivative_weights := fun _ j d =>
    if j = 0 then -1 else if j = d + 1 then 1 else 0

/-- Nodal coordinates of a triangle with nodes (1,0), (3,1), (1,2), stored component by
component; its Jacobian is not symmetric. -/
def tri3Coords : Nat → ℚ := fun m =>
  if m = 0 then 1 else if m = 1 then 3 else if m = 2 then 1
  else if m = 4 then 1 else if m = 5 then 2 else 0

/-- The Jacobian of the forward mapping of `tri3Coords`, row-major. -/
def tri3Jacobian : Nat → ℚ := fun m =>
  if m = 0 then 2 else if m = 2 then 1 else if m = 3 then 2 else 0

/-! ### Doubles with NaN -/

/-- A `double` that can be NaN: a number, kept exact as a rational, or `nan`. Arithmetic
propagates NaN, `0 / 0` is NaN and every ordered comparison with NaN is false, as for IEEE-754
doubles. There are no infinities: a quotient by zero is `nan` whatever the numerator, and the
only quotient by zero that is evaluated on this type below is `0 / 0`. -/
inductive DoubleNaN where
  | nan
  | num (x : ℚ)

/-- Sum of two doubles. -/
def DoubleNaN.add : DoubleNaN → DoubleNaN → DoubleNaN
  | num x, num y => num (x + y)
  | _, _ => nan

/-- Difference of two doubles. -/
def DoubleNaN.sub : DoubleNaN → DoubleNaN → DoubleNaN
  | num x, num y => num (x - y)
  | _, _ => nan

/-- Product of two doubles. -/
def DoubleNaN.mul : DoubleNaN → DoubleNaN → DoubleNaN
  | num x, num y => num (x * y)
  | _, _ => nan

/-- Quotient of two doubles. -/
def DoubleNaN.div : DoubleNaN → DoubleNaN → DoubleNaN
  | num x, num y => if y = 0 then nan else num (x / y)
  | _, _ => nan

/-- Negation of a double. -/
def DoubleNaN.neg : DoubleNaN → DoubleNaN
  | num x => num (-x)
  | nan => nan

/-- The comparison `a < b` of two doubles: false when either is NaN. -/
def DoubleNaN.lt : DoubleNaN → DoubleNaN → Prop
  | num x, num y => x < y
  | _, _ => False

/-- The comparison `a <= b` of two doubles: false when either is NaN. -/
def DoubleNaN.le : DoubleNaN → DoubleNaN → Prop
  | num x, num y => x ≤ y
  | _, _ => False

instance : Zero DoubleNaN := ⟨DoubleNaN.num 0⟩

instance : Add DoubleNaN := ⟨DoubleNaN.add⟩

instance : Sub DoubleNaN := ⟨DoubleNaN.sub⟩

instance : Mul DoubleNaN := ⟨DoubleNaN.mul⟩

instance : Div DoubleNaN := ⟨DoubleNaN.div⟩

instance : Neg DoubleNaN := ⟨DoubleNaN.neg⟩

instance : LT DoubleNaN := ⟨DoubleNaN.lt⟩

instance : LE DoubleNaN := ⟨DoubleNaN.le⟩

instance DoubleNaN.decLt : DecidableRel (fun a b : DoubleNaN => a < b) := fun a b =>
  match a, b with
  | DoubleNaN.num x, DoubleNaN.num y => inferInstanceAs (Decidable (x < y))
  | DoubleNaN.num _, DoubleNaN.nan => isFalse (fun h => h)
  | DoubleNaN.nan, _ => isFalse (fun h => h)

/-- The linear basis of the four-node tetrahedron, evaluated in `DoubleNaN` arithmetic. -/
def tet4BasisNaN : LagrangeBasis DoubleNaN (DoubleNaN × DoubleNaN × DoubleNaN) where
  num_nodes := 4
  point_interpolation_weights := fun g j =>
    if j = 0 then DoubleNaN.num 1 - g.1 - g.2.1 - g.2.2
    else if j = 1 then g.1 else if j = 2 then g.2.1 else if j = 3 then g.2.2
    else DoubleNaN.num 0
  point_derivative_weights := fun _ j d =>
    if j = 0 then DoubleNaN.num (-1) else if j = d + 1 then DoubleNaN.num 1
    else DoubleNaN.num 0

/-- The linear basis of the three-node triangle, evaluated in `DoubleNaN` arithmetic. -/
def tri3BasisNaN : LagrangeBasis DoubleNaN (DoubleNaN × DoubleNaN) where
  num_nodes := 3
  point_interpolation_weights := fun g j =>
    if j = 0 then DoubleNaN.num 1 - g.1 - g.2
    else if j = 1 then g.1 else if j = 2 then g.2 else DoubleNaN.num 0
  point_derivative_weights := fun _ j d =>
    if j = 0 then DoubleNaN.num (-1) else if j = d + 1 then DoubleNaN.num 1
    else DoubleNaN.num 0

end PointLocationConcrete

/-! ## Scalar mass kernel (`ScalarMassElemSuppAlgDep.C`) -/

section ScalarMass

variable {K : Type} [LinearOrderedField K]

/-- Mesh entities (`stk::mesh::Entity`, `stk::mesh::FastMeshIndex`) are identified by a number. -/
abbrev Entity := Nat

/-- The time states `stk::mesh::StateNM1`, `StateN`, `StateNP1` of a field. -/
inductive FieldState where
  | StateNM1
  | StateN
  | StateNP1
  deriving DecidableEq, Repr

/-- Modelled from the spec: a time-state field (`ScalarFieldType`, declared in `FieldTypeDef.h`,
outside the three files): for each temporal snapshot, a mapping from node to value. -/
structure ScalarFieldType (K : Type) where
  /-- Node data of `field_of_state(state)`, read through `stk::mesh::field_data`. -/
  field_of_state : FieldState → Entity → K

/-- Modelled from the spec: the connectivity queries of the mesh (`stk::mesh::BulkData`, outside
the three files): the node list of an element. -/
structure BulkData where
  /-- Value of `begin_nodes(element)[ni]`. -/
  begin_nodes : Entity → Nat → Entity
  /-- Value of `num_nodes(element)`. -/
  num_nodes : Entity → Nat

/-- Modelled from the spec: the part of `Realm` (declared in `Realm.h`, outside the three files)
read by the kernel: state count, dimension, registered fields and the time-integration
coefficients of the current step. -/
structure Realm (K : Type) where
  /-- Value of `bulk_data()`. -/
  bulk_data : BulkData
  /-- Value of `number_of_states()`. -/
  number_of_states : Int
  /-- Member `spatialDimension_`. -/
  spatialDimension_ : Nat
  /-- The field `meta_data.get_field(NODE_RANK, "density")`. -/
  density : ScalarFieldType K
  /-- Node data of the field `meta_data.get_field(NODE_RANK, get_coordinates_name())`. -/
  coordinates : Entity → Nat → K
  /-- Value of `get_time_step()`. -/
  get_time_step : K
  /-- Value of `get_gamma1()`. -/
  get_gamma1 : K
  /-- Value of `get_gamma2()`. -/
  get_gamma2 : K
  /-- Value of `get_gamma3()`. -/
  get_gamma3 : K

/-- Modelled from the spec: the master element (`MasterElement`, declared in
`master_element/MasterElement.h`, outside the three files): topology counts, the map from
integration point to its nearest node, the two shape-function tables and the geometry routine,
which returns the sub-control-volume volumes together with an error code. -/
structure MasterElement (K : Type) where
  /-- Member `nodesPerElement_`. -/
  nodesPerElement_ : Nat
  /-- Value of `num_integration_points()`. -/
  num_integration_points : Nat
  /-- Value of `ipNodeMap()[ip]`. -/
  ipNodeMap : Nat → Nat
  /-- Table written by `shape_fcn`, entry `ip * nodesPerElement + ic`. -/
  shape_fcn : Nat → K
  /-- Table written by `shifted_shape_fcn`, entry `ip * nodesPerElement + ic`. -/
  shifted_shape_fcn : Nat → K
  /-- What `determinant(nelem, coords, volume, error)` writes to `volume` and to `*error`. -/
  determinant : Nat → (Nat → K) → (Nat → K) × K

/-- Data members of `ScalarMassElemSuppAlgDep`. A field pointer is the node data it points to;
a `std::vector<double>` scratch array is its contents. -/
structure ScalarMassElemSuppAlgDep (K : Type) where
  bulkData_ : BulkData
  scalarQNm1_ : Entity → K
  scalarQN_ : Entity → K
  scalarQNp1_ : Entity → K
  densityNm1_ : Entity → K
  densityN_ : Entity → K
  densityNp1_ : Entity → K
  coordinates_ : Entity → Nat → K
  dt_ : K
  gamma1_ : K
  gamma2_ : K
  gamma3_ : K
  nDim_ : Nat
  lumpedMass_ : Bool
  ws_shape_function_ : Nat → K
  ws_qNm1_ : Nat → K
  ws_qN_ : Nat → K
  ws_qNp1_ : Nat → K
  ws_rhoNp1_ : Nat → K
  ws_rhoN_ : Nat → K
  ws_rhoNm1_ : Nat → K
  ws_coordinates_ : Nat → K
  ws_scv_volume_ : Nat → K

/-- The constructor `ScalarMassElemSuppAlgDep::ScalarMassElemSuppAlgDep(realm, scalarQ,
lumpedMass)`, lines 35-65. The scratch vectors start empty (read as zero). -/
def ScalarMassElemSuppAlgDep.ctor (realm : Realm K) (scalarQ : ScalarFieldType K)
    (lumpedMass : Bool) : ScalarMassElemSuppAlgDep K :=
  -- save off fields; shove state N into Nm1 if this is BE
  let density := realm.density
  { bulkData_ := realm.bulk_data
    scalarQNm1_ :=
      if realm.number_of_states = 2 then scalarQ.field_of_state FieldState.StateN
      else scalarQ.field_of_state FieldState.StateNM1
    scalarQN_ := scalarQ.field_of_state FieldState.StateN
    scalarQNp1_ := scalarQ.field_of_state FieldState.StateNP1
    densityNm1_ :=
      if realm.number_of_states = 2 then density.field_of_state FieldState.StateN
      else density.field_of_state FieldState.StateNM1
    densityN_ := density.field_of_state FieldState.StateN
    densityNp1_ := density.field_of_state FieldState.StateNP1
    coordinates_ := realm.coordinates
    dt_ := 0
    gamma1_ := 0
    gamma2_ := 0
    gamma3_ := 0
    nDim_ := realm.spatialDimension_
    lumpedMass_ := lumpedMass
    ws_shape_function_ := fun _ => 0
    ws_qNm1_ := fun _ => 0
    ws_qN_ := fun _ => 0
    ws_qNp1_ := fun _ => 0
    ws_rhoNp1_ := fun _ => 0
    ws_rhoN_ := fun _ => 0
    ws_rhoNm1_ := fun _ => 0
    ws_coordinates_ := fun _ => 0
    ws_scv_volume_ := fun _ => 0 }

/-- The method `elem_resize(meSCS, meSCV)`, lines 70-94. The `resize` calls change sizes only;
the shape-function table is filled from the shifted or the standard functions. -/
def ScalarMassElemSuppAlgDep.elem_resize (self : ScalarMassElemSuppAlgDep K)
    (meSCV : MasterElement K) : ScalarMassElemSuppAlgDep K :=
  -- compute shape function
  if self.lumpedMass_ then
    { self with ws_shape_function_ := meSCV.shifted_shape_fcn }
  else
    { self with ws_shape_function_ := meSCV.shape_fcn }

/-- The method `setup()`, lines 99-106. -/
def ScalarMassElemSuppAlgDep.setup (self : ScalarMassElemSuppAlgDep K) (realm : Realm K) :
    ScalarMassElemSuppAlgDep K :=
  { self with
    dt_ := realm.get_time_step
    gamma1_ := realm.get_gamma1
    gamma2_ := realm.get_gamma2
    gamma3_ := realm.get_gamma3 }

/-- The gather loop of `elem_execute`, lines 131-151, over the element's nodes. -/
def ScalarMassElemSuppAlgDep.gather (self : ScalarMassElemSuppAlgDep K)
    (node_rels : Nat → Entity) (num_nodes : Nat) : ScalarMassElemSuppAlgDep K :=
  forLoop num_nodes (fun ni self =>
    let node := node_rels ni
    -- pointers to real data
    let coords := self.coordinates_ node
    -- gather scalars
    let self := { self with ws_qNm1_ := setAt self.ws_qNm1_ ni (self.scalarQNm1_ node) }
    let self := { self with ws_qN_ := setAt self.ws_qN_ ni (self.scalarQN_ node) }
    let self := { self with ws_qNp1_ := setAt self.ws_qNp1_ ni (self.scalarQNp1_ node) }
    let self := { self with ws_rhoNm1_ := setAt self.ws_rhoNm1_ ni (self.densityNm1_ node) }
    let self := { self with ws_rhoN_ := setAt self.ws_rhoN_ ni (self.densityN_ node) }
    let self := { self with ws_rhoNp1_ := setAt self.ws_rhoNp1_ ni (self.densityNp1_ node) }
    -- gather vectors
    let niNdim := ni * self.nDim_
    forLoop self.nDim_ (fun i self =>
      { self with ws_coordinates_ := setAt self.ws_coordinates_ (niNdim + i) (coords i) })
      self) self

/-- The six values interpolated to one integration point, lines 163-168. -/
structure ScvValues (K : Type) where
  qNm1Scv : K
  qNScv : K
  qNp1Scv : K
  rhoNm1Scv : K
  rhoNScv : K
  rhoNp1Scv : K

/-- The interpolation loop of `elem_execute`, lines 163-184, at integration point `ip`. -/
def ScalarMassElemSuppAlgDep.interpolate (self : ScalarMassElemSuppAlgDep K)
    (nodesPerElement ip : Nat) : ScvValues K :=
  let offSet := ip * nodesPerElement
  forLoop nodesPerElement (fun ic v =>
    -- save off shape function
    let r := self.ws_shape_function_ (offSet + ic)
    { qNm1Scv := v.qNm1Scv + r * self.ws_qNm1_ ic
      qNScv := v.qNScv + r * self.ws_qN_ ic
      qNp1Scv := v.qNp1Scv + r * self.ws_qNp1_ ic
      rhoNm1Scv := v.rhoNm1Scv + r * self.ws_rhoNm1_ ic
      rhoNScv := v.rhoNScv + r * self.ws_rhoN_ ic
      rhoNp1Scv := v.rhoNp1Scv + r * self.ws_rhoNp1_ ic })
    { qNm1Scv := 0, qNScv := 0, qNp1Scv := 0, rhoNm1Scv := 0, rhoNScv := 0, rhoNp1Scv := 0 }

/-- What `elem_execute` leaves behind: whether `ThrowAssert` fired, the kernel (its scratch
arrays are written by the call) and the caller-owned buffers `lhs` and `rhs`. -/
structure ElemExecResult (K : Type) where
  /-- True when the call ended in the assertion failure. -/
  thrown : Bool
  /-- The kernel after the call. -/
  kernel : ScalarMassElemSuppAlgDep K
  /-- Contents of `lhs` after the call. -/
  lhs : Nat → K
  /-- Contents of `rhs` after the call. -/
  rhs : Nat → K

/-- The body of the integration-point loop of `elem_execute`, lines 158-198, acting on the pair
`(lhs, rhs)`; `self` is the kernel after the gather and the geometry call. -/
def ScalarMassElemSuppAlgDep.assemble_ip (self : ScalarMassElemSuppAlgDep K)
    (meSCV : MasterElement K) (ip : Nat) (out : (Nat → K) × (Nat → K)) :
    (Nat → K) × (Nat → K) :=
  let ipNodeMap := meSCV.ipNodeMap
  let nodesPerElement := meSCV.nodesPerElement_
  let lhs := out.1
  let rhs := out.2
  -- nearest node to ip
  let nearestNode := ipNodeMap ip
  -- zero out; scalar, and interpolate
  let v := self.interpolate nodesPerElement ip
  let offSet := ip * nodesPerElement
  -- assemble rhs
  let scV := self.ws_scv_volume_ ip
  let rhs := addAt rhs nearestNode
    (-(self.gamma1_ * v.rhoNp1Scv * v.qNp1Scv + self.gamma2_ * v.rhoNScv * v.qNScv
        + self.gamma3_ * v.rhoNm1Scv * v.qNm1Scv) * scV / self.dt_)
  -- manage LHS
  let lhs := forLoop nodesPerElement (fun ic lhs =>
    -- save off shape function
    let r := self.ws_shape_function_ (offSet + ic)
    let lhsfac := r * self.gamma1_ * v.rhoNp1Scv * scV / self.dt_
    let rNNiC := nearestNode * nodesPerElement + ic
    addAt lhs rNNiC lhsfac) lhs
  (lhs, rhs)

/-- Modelled from the spec: the macro `ThrowAssert` (defined in
`stk_util/util/ReportHandler.hpp`, outside the three files): an invariant violation is fatal.
The value says whether the call throws, which it does exactly when the asserted condition is
false. -/
def ThrowAssert (condition : Bool) : Bool :=
  !condition

/-- The method `elem_execute(lhs, rhs, element, meSCS, meSCV)`, lines 111-200. When the
assertion throws, the call ends there. -/
def ScalarMassElemSuppAlgDep.elem_execute (self : ScalarMassElemSuppAlgDep K)
    (lhs rhs : Nat → K) (element : Entity) (meSCV : MasterElement K) : ElemExecResult K :=
  -- pointer to ME methods
  let numScvIp := meSCV.num_integration_points
  let nodesPerElement := meSCV.nodesPerElement_
  -- gather
  let node_rels := self.bulkData_.begin_nodes element
  let num_nodes := self.bulkData_.num_nodes element
  -- sanity check on num nodes
  if ThrowAssert (decide (num_nodes = nodesPerElement)) = true then
    { thrown := true, kernel := self, lhs := lhs, rhs := rhs }
  else
    let self := self.gather node_rels num_nodes
    -- compute geometry
    let geom := meSCV.determinant 1 self.ws_coordinates_
    let self := { self with ws_scv_volume_ := geom.1 }
    -- the local `scv_error` receives the error code; nothing reads it afterwards
    let _scv_error := geom.2
    let out := forLoop numScvIp (self.assemble_ip meSCV) (lhs, rhs)
    { thrown := false, kernel := self, lhs := out.1, rhs := out.2 }

/-- The shape-function-weighted sum `sum_ic N[ip][ic] * value[ic]` of nodal values at the
integration point `ip`, with `N[ip][ic]` stored at `ip * nodesPerElement + ic`. -/
def shapeSum (N : Nat → K) (nodesPerElement ip : Nat) (value : Nat → K) : K :=
  ∑ ic ∈ Finset.range nodesPerElement, N (ip * nodesPerElement + ic) * value ic

/-- The nodal values of `field` gathered for `element`: entry `ic` is the value at the
element's node `ic`. -/
def ScalarMassElemSuppAlgDep.gathered (self : ScalarMassElemSuppAlgDep K) (element : Entity)
    (field : Entity → K) : Nat → K :=
  fun ic => field (self.bulkData_.begin_nodes element ic)

/-- The sub-control-volume volumes `V(ip)` returned by the determinant routine for the
coordinates gathered from `element`. -/
def ScalarMassElemSuppAlgDep.scvVolume (self : ScalarMassElemSuppAlgDep K) (element : Entity)
    (meSCV : MasterElement K) : Nat → K :=
  (meSCV.determinant 1
    (self.gather (self.bulkData_.begin_nodes element)
      (self.bulkData_.num_nodes element)).ws_coordinates_).1

/-- The integration points whose nearest node is `n`. -/
def ipsOfNode (meSCV : MasterElement K) (n : Nat) : Finset Nat :=
  (Finset.range meSCV.num_integration_points).filter (fun ip => meSCV.ipNodeMap ip = n)

/-- The mass term of integration point `ip`:
`(gamma1*rhoNp1(ip)*qNp1(ip) + gamma2*rhoN(ip)*qN(ip) + gamma3*rhoNm1(ip)*qNm1(ip)) * V(ip) / dt`,
each `rho(ip)`, `q(ip)` being the shape-function-weighted sum of the gathered nodal values of
that time state. -/
def ScalarMassElemSuppAlgDep.massTerm (self : ScalarMassElemSuppAlgDep K) (element : Entity)
    (meSCV : MasterElement K) (ip : Nat) : K :=
  (self.gamma1_
      * shapeSum self.ws_shape_function_ meSCV.nodesPerElement_ ip
          (self.gathered element self.densityNp1_)
      * shapeSum self.ws_shape_function_ meSCV.nodesPerElement_ ip
          (self.gathered element self.scalarQNp1_)
    + self.gamma2_
      * shapeSum self.ws_shape_function_ meSCV.nodesPerElement_ ip
          (self.gathered element self.densityN_)
      * shapeSum self.ws_shape_function_ meSCV.nodesPerElement_ ip
          (self.gathered element self.scalarQN_)
    + self.gamma3_
      * shapeSum self.ws_shape_function_ meSCV.nodesPerElement_ ip
          (self.gathered element self.densityNm1_)
      * shapeSum self.ws_shape_function_ meSCV.nodesPerElement_ ip
          (self.gathered element self.scalarQNm1_))
    * self.scvVolume element meSCV ip / self.dt_

/-- The Jacobian term of integration point `ip` and column `ic`:
`N[ip][ic] * gamma1 * rhoNp1(ip) * V(ip) / dt`. -/
def ScalarMassElemSuppAlgDep.jacTerm (self : ScalarMassElemSuppAlgDep K) (element : Entity)
    (meSCV : MasterElement K) (ip ic : Nat) : K :=
  self.ws_shape_function_ (ip * meSCV.nodesPerElement_ + ic) * self.gamma1_
    * shapeSum self.ws_shape_function_ meSCV.nodesPerElement_ ip
        (self.gathered element self.densityNp1_)
    * self.scvVolume element meSCV ip / self.dt_

/-- The kernel whose `n+1` scalar field is `scalarQNp1_ + delta`, every other member unchanged:
the perturbation of the `n+1` scalar against which the Jacobian is compared. -/
def perturbScalarNp1 (self : ScalarMassElemSuppAlgDep K) (delta : Entity → K) :
    ScalarMassElemSuppAlgDep K :=
  { self with scalarQNp1_ := (fun node => self.scalarQNp1_ node + delta node) }

/-! ### A concrete element on which the statements are exercised -/

/-- A density or scalar field given by its three snapshots. -/
def stateField (fNm1 fN fNp1 : Entity → ℚ) : ScalarFieldType ℚ where
  field_of_state := fun st =>
    match st with
    | FieldState.StateNM1 => fNm1
    | FieldState.StateN => fN
    | FieldState.StateNP1 => fNp1

/-- A one-dimensional mesh of two-node elements: element `e` has nodes `e` and `e + 1`, node `k`
sits at `x = s * k`; the time step is `1 / 2`. -/
def lineRealm (states : Int) (g1 g2 g3 s : ℚ) (density : ScalarFieldType ℚ) : Realm ℚ where
  bulk_data := { begin_nodes := fun e ni => e + ni, num_nodes := fun _ => 2 }
  number_of_states := states
  spatialDimension_ := 1
  density := density
  coordinates := fun node _ => s * node
  get_time_step := 1 / 2
  get_gamma1 := g1
  get_gamma2 := g2
  get_gamma3 := g3

/-- The two-node line master element with one sub-control volume per node, each of half the
element length; its geometry routine reports the error code `err`. -/
def lineElement (err : ℚ) : MasterElement ℚ where
  nodesPerElement_ := 2
  num_integration_points := 2
  ipNodeMap := fun ip => ip
  shape_fcn := fun m =>
    if m = 0 then 3 / 4 else if m = 1 then 1 / 4 else if m = 2 then 1 / 4
    else if m = 3 then 3 / 4 else 0
  shifted_shape_fcn := fun m => if m = 0 then 1 else if m = 3 then 1 else 0
  determinant := fun _ coords => (fun _ => (coords 1 - coords 0) / 2, err)

/-- A kernel on `lineRealm` after construction, `elem_resize` and `setup`. -/
def lineKernel (states : Int) (g1 g2 g3 s : ℚ) (density scalarQ : ScalarFieldType ℚ)
    (lumped : Bool) : ScalarMassElemSuppAlgDep ℚ :=
  ((ScalarMassElemSuppAlgDep.ctor (lineRealm states g1 g2 g3 s density) scalarQ lumped).elem_resize
    (lineElement 0)).setup (lineRealm states g1 g2 g3 s density)

end ScalarMass

/-! ## TAMS momentum diffusion edge kernel (`MomentumSSTTAMSDiffEdgeKernel.C`) -/

section EdgeKernel

variable {K : Type} [LinearOrderedField K]

/-- Store into a two-index array, `a[i][j] = v`. -/
def setAt2 (a : Nat → Nat → K) (i j : Nat) (v : K) : Nat → Nat → K :=
  fun p q => if p = i ∧ q = j then v else a p q

/-- Decreasing store `a[i] -= v`. -/
def subAt (a : Nat → K) (i : Nat) (v : K) : Nat → K :=
  fun k => if k = i then a k - v else a k

/-- Decreasing store into a two-index view, `a(i, j) -= v`. -/
def subAt2 (a : Nat → Nat → K) (i j : Nat) (v : K) : Nat → Nat → K :=
  fun p q => if p = i ∧ q = j then a p q - v else a p q

/-- Data members of `MomentumSSTTAMSDiffEdgeKernel` read by `execute`. An NGP field is the
function `(entity, component) ↦ value` behind its `get`. -/
structure MomentumSSTTAMSDiffEdgeKernel (K : Type) where
  includeDivU_ : K
  betaStar_ : K
  CMdeg_ : K
  nDim_ : Nat
  relaxFacU_ : K
  edgeAreaVec_ : Entity → Nat → K
  coordinates_ : Entity → Nat → K
  velocity_ : Entity → Nat → K
  tvisc_ : Entity → Nat → K
  density_ : Entity → Nat → K
  tke_ : Entity → Nat → K
  sdr_ : Entity → Nat → K
  alpha_ : Entity → Nat → K
  nodalMij_ : Entity → Nat → K
  dudx_ : Entity → Nat → K
  avgVelocity_ : Entity → Nat → K
  avgDudx_ : Entity → Nat → K

/-- Routines called by `execute` whose code is outside the three files, taken as parameters:
`EigenDecomposition::sym_diagonalize` (returns what it writes to `Q` and `D`),
`stk::math::pow` and `tams_utils::get_M43_constant`. -/
structure EdgeCollaborators (K : Type) where
  sym_diagonalize : (Nat → Nat → K) → (Nat → Nat → K) × (Nat → Nat → K)
  pow : K → K → K
  get_M43_constant : (Nat → Nat → K) → K → K

/-- Contents of the stack arrays of `execute` before their first store: they are declared
without an initialiser, so any contents are possible. -/
structure Uninit (K : Type) where
  av : Nat → K
  Mij : Nat → Nat → K
  M43 : Nat → Nat → K
  avgdUidxj : Nat → Nat → K
  fluctdUidxj : Nat → Nat → K

/-- The local buffers `smdata.rhs` and `smdata.lhs` of `EdgeKernelTraits::ShmemDataType`. -/
structure ShmemData (K : Type) where
  rhs : Nat → K
  lhs : Nat → Nat → K

/-- Local values of `execute` at the point where the assembly loop starts (line 203). -/
structure EdgeLocals (K : Type) where
  av : Nat → K
  Q : Nat → Nat → K
  D : Nat → Nat → K
  M43 : Nat → Nat → K
  CM43 : K
  muIp : K
  rhoIp : K
  tkeIp : K
  sdrIp : K
  alphaIp : K
  asq : K
  axdx : K
  inv_axdx : K
  avgdUidxj : Nat → Nat → K
  fluctdUidxj : Nat → Nat → K
  avgDivU : K
  epsilon13Ip : K

/-- Lines 81-201 of `execute`: everything computed before the assembly loop. -/
def MomentumSSTTAMSDiffEdgeKernel.locals (self : MomentumSSTTAMSDiffEdgeKernel K)
    (ext : EdgeCollaborators K) (junk : Uninit K) (edge nodeL nodeR : Entity) : EdgeLocals K :=
  let ndim := self.nDim_
  -- Scratch work arrays
  let av := forLoop self.nDim_ (fun d av => setAt av d (self.edgeAreaVec_ edge d)) junk.av
  -- Mij, eigenvectors and eigenvalues
  let Mij := forLoop ndim (fun i Mij =>
    forLoop ndim (fun j Mij =>
      setAt2 Mij i j
        (0.5 * (self.nodalMij_ nodeL (i * ndim + j) + self.nodalMij_ nodeR (i * ndim + j))))
      Mij) junk.Mij
  let QD := ext.sym_diagonalize Mij
  let Q := QD.1
  let D := QD.2
  -- At this point we have Q, the eigenvectors and D the eigenvalues of Mij,
  -- so to create M43, we use Q D^(4/3) Q^T
  let M43 := forLoop ndim (fun i M43 =>
    forLoop ndim (fun j M43 => setAt2 M43 i j 0.0) M43) junk.M43
  let fourThirds : K := 4. / 3.
  let M43 := forLoop ndim (fun k M43 =>
    let D43 := ext.pow (D k k) fourThirds
    forLoop ndim (fun i M43 =>
      forLoop ndim (fun j M43 => addAt2 M43 i j (Q i k * Q j k * D43)) M43) M43) M43
  -- Compute CM43
  let CM43 := ext.get_M43_constant D self.CMdeg_
  let muIp := 0.5 * (self.tvisc_ nodeL 0 + self.tvisc_ nodeR 0)
  let rhoIp := 0.5 * (self.density_ nodeL 0 + self.density_ nodeR 0)
  let tkeIp := 0.5 * (max (self.tke_ nodeL 0) 1.0e-12 + max (self.tke_ nodeR 0) 1.0e-12)
  let sdrIp := 0.5 * (max (self.sdr_ nodeL 0) 1.0e-12 + max (self.sdr_ nodeR 0) 1.0e-12)
  let alphaIp := 0.5 * (self.alpha_ nodeL 0 + self.alpha_ nodeR 0)
  let sums := forLoop ndim (fun d (sums : K × K) =>
    let axdx := sums.1
    let asq := sums.2
    let dxj := self.coordinates_ nodeR d - self.coordinates_ nodeL d
    let asq := asq + av d * av d
    let axdx := axdx + av d * dxj
    (axdx, asq)) (0.0, 0.0)
  let axdx := sums.1
  let asq := sums.2
  let inv_axdx := 1.0 / axdx
  -- Compute average divU
  let grads := forLoop ndim (fun i (grads : (Nat → Nat → K) × (Nat → Nat → K)) =>
    -- difference between R and L nodes for component i
    let avgUidiff := self.avgVelocity_ nodeR i - self.avgVelocity_ nodeL i
    let fluctUidiff := (self.velocity_ nodeR i - self.velocity_ nodeL i) - avgUidiff
    let offSetI := ndim * i
    -- start sum for NOC contribution
    let noc := forLoop ndim (fun l (noc : K × K) =>
      let GlavgUidxl := noc.1
      let GlfluctUidxl := noc.2
      let offSetIL := offSetI + l
      let dxl := self.coordinates_ nodeR l - self.coordinates_ nodeL l
      let GlavgUi := 0.5 * (self.avgDudx_ nodeL offSetIL + self.avgDudx_ nodeR offSetIL)
      let GlfluctUi := 0.5 * (self.dudx_ nodeL offSetIL + self.dudx_ nodeR offSetIL) - GlavgUi
      (GlavgUidxl + GlavgUi * dxl, GlfluctUidxl + GlfluctUi * dxl)) (0.0, 0.0)
    let GlavgUidxl := noc.1
    let GlfluctUidxl := noc.2
    -- form full tensor dui/dxj with NOC
    forLoop ndim (fun j (grads : (Nat → Nat → K) × (Nat → Nat → K)) =>
      let avgdUidxj := grads.1
      let fluctdUidxj := grads.2
      let offSetIJ := offSetI + j
      let GjavgUi := 0.5 * (self.avgDudx_ nodeL offSetIJ + self.avgDudx_ nodeR offSetIJ)
      let GjfluctUi := 0.5 * (self.dudx_ nodeL offSetIJ + self.dudx_ nodeR offSetIJ) - GjavgUi
      let avgdUidxj := setAt2 avgdUidxj i j
        (GjavgUi + (avgUidiff - GlavgUidxl) * av j * inv_axdx)
      let fluctdUidxj := setAt2 fluctdUidxj i j
        (GjfluctUi + (fluctUidiff - GlfluctUidxl) * av j * inv_axdx)
      (avgdUidxj, fluctdUidxj)) grads) (junk.avgdUidxj, junk.fluctdUidxj)
  let avgdUidxj := grads.1
  let fluctdUidxj := grads.2
  let avgDivU := forLoop ndim (fun i avgDivU => avgDivU + avgdUidxj i i) 0.0
  let epsilon13Ip := ext.pow (self.betaStar_ * tkeIp * sdrIp) (1.0 / 3.0)
  { av := av, Q := Q, D := D, M43 := M43, CM43 := CM43, muIp := muIp, rhoIp := rhoIp,
    tkeIp := tkeIp, sdrIp := sdrIp, alphaIp := alphaIp, asq := asq, axdx := axdx,
    inv_axdx := inv_axdx, avgdUidxj := avgdUidxj, fluctdUidxj := fluctdUidxj,
    avgDivU := avgDivU, epsilon13Ip := epsilon13Ip }

/-- The local `avgDivUstress` of row `i`, line 211. -/
def avgDivUstress (self : MomentumSSTTAMSDiffEdgeKernel K) (c : EdgeLocals K) (i : Nat) : K :=
  2.0 / 3.0 * c.alphaIp * c.muIp * c.avgDivU * c.av i * self.includeDivU_

/-- The inner `k` loop of lines 225-230: the pair `(rhsfacDiff_i, lhsfacDiff_i)`. -/
def facDiff_i (ndim : Nat) (c : EdgeLocals K) (i j : Nat) : K × K :=
  forLoop ndim (fun k (fac : K × K) =>
    let rhsfacDiff_i := fac.1
    let lhsfacDiff_i := fac.2
    let lhsfacDiff_i := lhsfacDiff_i +
      -c.rhoIp * c.CM43 * c.epsilon13Ip * c.M43 j k * c.av k * c.av j * c.inv_axdx
    let rhsfacDiff_i := rhsfacDiff_i +
      -c.rhoIp * c.CM43 * c.epsilon13Ip * c.M43 j k * c.fluctdUidxj i k * c.av j
    (rhsfacDiff_i, lhsfacDiff_i)) (0.0, 0.0)

/-- The inner `k` loop of lines 245-250: the pair `(rhsfacDiff_j, lhsfacDiff_j)`. -/
def facDiff_j (ndim : Nat) (c : EdgeLocals K) (i j : Nat) : K × K :=
  forLoop ndim (fun k (fac : K × K) =>
    let rhsfacDiff_j := fac.1
    let lhsfacDiff_j := fac.2
    let lhsfacDiff_j := lhsfacDiff_j +
      -c.rhoIp * c.CM43 * c.epsilon13Ip * c.M43 i k * c.av k * c.av j * c.inv_axdx
    let rhsfacDiff_j := rhsfacDiff_j +
      -c.rhoIp * c.CM43 * c.epsilon13Ip * c.M43 i k * c.fluctdUidxj j k * c.av j
    (rhsfacDiff_j, lhsfacDiff_j)) (0.0, 0.0)

/-- The local `rhsSGRCfacDiff_i`, line 236. -/
def rhsSGRCfacDiff_i (c : EdgeLocals K) (i j : Nat) : K :=
  -c.alphaIp * c.muIp * c.avgdUidxj i j * c.av j

/-- The local `rhsSGRCfacDiff_j`, line 253. -/
def rhsSGRCfacDiff_j (c : EdgeLocals K) (i j : Nat) : K :=
  -c.alphaIp * c.muIp * c.avgdUidxj j i * c.av j

/-- The body of the `j` loop of the assembly, lines 220-266, acting on `smdata` and on the
accumulator `lhs_riC_i`. -/
def assemble_j (self : MomentumSSTTAMSDiffEdgeKernel K) (c : EdgeLocals K) (i j : Nat)
    (st : ShmemData K × K) : ShmemData K × K :=
  let ndim := self.nDim_
  let smdata := st.1
  let lhs_riC_i := st.2
  let rowL := i
  let rowR := i + ndim
  -- -mut^jk*dui/dxk*A_j; fixed i over j loop; see below..
  let fac_i := facDiff_i ndim c i j
  let rhsfacDiff_i := fac_i.1
  let lhsfacDiff_i := fac_i.2
  -- Accumulate lhs
  let lhs_riC_i := lhs_riC_i + lhsfacDiff_i
  -- SGRS (average) term, scaled by alpha
  let rhsSGRCfacDiff_i := rhsSGRCfacDiff_i c i j
  let smdata := { smdata with rhs := subAt smdata.rhs rowL (rhsfacDiff_i + rhsSGRCfacDiff_i) }
  let smdata := { smdata with rhs := addAt smdata.rhs rowR (rhsfacDiff_i + rhsSGRCfacDiff_i) }
  -- -mut^ik*duj/dxk*A_j
  let fac_j := facDiff_j ndim c i j
  let rhsfacDiff_j := fac_j.1
  let lhsfacDiff_j := fac_j.2
  -- SGRS (average) term, scaled by alpha
  let rhsSGRCfacDiff_j := rhsSGRCfacDiff_j c i j
  let smdata := { smdata with rhs := subAt smdata.rhs rowL (rhsfacDiff_j + rhsSGRCfacDiff_j) }
  let smdata := { smdata with rhs := addAt smdata.rhs rowR (rhsfacDiff_j + rhsSGRCfacDiff_j) }
  let colL := j
  let colR := j + ndim
  let smdata := { smdata with
    lhs := subAt2 smdata.lhs rowL colL (lhsfacDiff_j / self.relaxFacU_) }
  let smdata := { smdata with lhs := addAt2 smdata.lhs rowL colR lhsfacDiff_j }
  let smdata := { smdata with lhs := addAt2 smdata.lhs rowR colL lhsfacDiff_j }
  let smdata := { smdata with
    lhs := subAt2 smdata.lhs rowR colR (lhsfacDiff_j / self.relaxFacU_) }
  (smdata, lhs_riC_i)

/-- The body of the `i` loop of the assembly, lines 203-272. -/
def assemble_i (self : MomentumSSTTAMSDiffEdgeKernel K) (c : EdgeLocals K) (i : Nat)
    (smdata : ShmemData K) : ShmemData K :=
  let ndim := self.nDim_
  -- Left and right row/col indices
  let rowL := i
  let rowR := i + ndim
  let avgDivUstress := avgDivUstress self c i
  let smdata := { smdata with rhs := subAt smdata.rhs rowL avgDivUstress }
  let smdata := { smdata with rhs := addAt smdata.rhs rowR avgDivUstress }
  let st := forLoop ndim (assemble_j self c i) (smdata, 0.0)
  let smdata := st.1
  let lhs_riC_i := st.2
  let smdata := { smdata with
    lhs := subAt2 smdata.lhs rowL rowL (lhs_riC_i / self.relaxFacU_) }
  let smdata := { smdata with lhs := addAt2 smdata.lhs rowL rowR lhs_riC_i }
  let smdata := { smdata with lhs := addAt2 smdata.lhs rowR rowL lhs_riC_i }
  let smdata := { smdata with
    lhs := subAt2 smdata.lhs rowR rowR (lhs_riC_i / self.relaxFacU_) }
  smdata

/-- The method `MomentumSSTTAMSDiffEdgeKernel::execute(smdata, edge, nodeL, nodeR)`,
lines 74-273: the contents of `smdata` after the call. -/
def MomentumSSTTAMSDiffEdgeKernel.execute (self : MomentumSSTTAMSDiffEdgeKernel K)
    (ext : EdgeCollaborators K) (junk : Uninit K) (smdata : ShmemData K)
    (edge nodeL nodeR : Entity) : ShmemData K :=
  let c := self.locals ext junk edge nodeL nodeR
  forLoop self.nDim_ (assemble_i self c) smdata

/-- The sub-grid diffusion part of the residual of row `i`: the sum over `j` of
`rhsfacDiff_i + rhsfacDiff_j`. -/
def diffTerm (ndim : Nat) (c : EdgeLocals K) (i : Nat) : K :=
  ∑ j ∈ Finset.range ndim, ((facDiff_i ndim c i j).1 + (facDiff_j ndim c i j).1)

/-- The SGRS part of the residual of row `i`: the sum over `j` of
`rhsSGRCfacDiff_i + rhsSGRCfacDiff_j`. -/
def sgrsTerm (ndim : Nat) (c : EdgeLocals K) (i : Nat) : K :=
  ∑ j ∈ Finset.range ndim, (rhsSGRCfacDiff_i c i j + rhsSGRCfacDiff_j c i j)

/-- The value of the accumulator `lhs_riC_i` when the `j` loop of row `i` has ended: the sum
over `j` of `lhsfacDiff_i`. -/
def lhs_riC_i (ndim : Nat) (c : EdgeLocals K) (i : Nat) : K :=
  ∑ j ∈ Finset.range ndim, (facDiff_i ndim c i j).2

/-- The amount the assembly adds to the off-diagonal-block entries `lhs(i, j + ndim)` and
`lhs(i + ndim, j)`: `lhsfacDiff_j`, and `lhs_riC_i` on top when `j = i`. -/
def offBlock (ndim : Nat) (c : EdgeLocals K) (i j : Nat) : K :=
  (facDiff_j ndim c i j).2 + (if j = i then lhs_riC_i ndim c i else 0)

/-- The four stores of one Jacobian scatter, `lhs(rowL,colL) -= x / r`, `lhs(rowL,colR) += x`,
`lhs(rowR,colL) += x`, `lhs(rowR,colR) -= x / r`, as the amount added to entry `(p, q)`. -/
def quadInc (rowL colL rowR colR : Nat) (x r : K) (p q : Nat) : K :=
  -(if p = rowL ∧ q = colL then x / r else 0) + (if p = rowL ∧ q = colR then x else 0)
    + (if p = rowR ∧ q = colL then x else 0) - (if p = rowR ∧ q = colR then x / r else 0)

/-- The locals `dxj` and `dxl`: the coordinate difference of the two nodes in direction `d`. -/
def edge_dx (self : MomentumSSTTAMSDiffEdgeKernel K) (nodeL nodeR : Entity) (d : Nat) : K :=
  self.coordinates_ nodeR d - self.coordinates_ nodeL d

/-- The local `avgUidiff` of component `i`, line 158. -/
def avgUidiff (self : MomentumSSTTAMSDiffEdgeKernel K) (nodeL nodeR : Entity) (i : Nat) : K :=
  self.avgVelocity_ nodeR i - self.avgVelocity_ nodeL i

/-- The local `fluctUidiff` of component `i`, line 160. -/
def fluctUidiff (self : MomentumSSTTAMSDiffEdgeKernel K) (nodeL nodeR : Entity) (i : Nat) : K :=
  (self.velocity_ nodeR i - self.velocity_ nodeL i) - avgUidiff self nodeL nodeR i

/-- The locals `GjavgUi` and `GlavgUi`: the mean of the two nodal averaged gradients, entry
`(i, j)`. -/
def GjavgUi (self : MomentumSSTTAMSDiffEdgeKernel K) (nodeL nodeR : Entity) (i j : Nat) : K :=
  0.5 * (self.avgDudx_ nodeL (self.nDim_ * i + j) + self.avgDudx_ nodeR (self.nDim_ * i + j))

/-- The locals `GjfluctUi` and `GlfluctUi`: the mean of the two nodal gradients minus the mean
of the averaged ones, entry `(i, j)`. -/
def GjfluctUi (self : MomentumSSTTAMSDiffEdgeKernel K) (nodeL nodeR : Entity) (i j : Nat) : K :=
  0.5 * (self.dudx_ nodeL (self.nDim_ * i + j) + self.dudx_ nodeR (self.nDim_ * i + j))
    - GjavgUi self nodeL nodeR i j

/-- The `l` loop of lines 166-179: the pair `(GlavgUidxl, GlfluctUidxl)` of component `i`. -/
def nocSums (self : MomentumSSTTAMSDiffEdgeKernel K) (nodeL nodeR : Entity) (i : Nat) : K × K :=
  forLoop self.nDim_ (fun l (noc : K × K) =>
    (noc.1 + GjavgUi self nodeL nodeR i l * edge_dx self nodeL nodeR l,
     noc.2 + GjfluctUi self nodeL nodeR i l * edge_dx self nodeL nodeR l)) (0.0, 0.0)

/-- The local array `Mij` when `sym_diagonalize` is called, lines 97-100: the mean of the two
nodal metric tensors in the entries below `ndim`. -/
def averagedMij (self : MomentumSSTTAMSDiffEdgeKernel K) (junk : Uninit K)
    (nodeL nodeR : Entity) : Nat → Nat → K :=
  forLoop self.nDim_ (fun i Mij =>
    forLoop self.nDim_ (fun j Mij =>
      setAt2 Mij i j
        (0.5 * (self.nodalMij_ nodeL (i * self.nDim_ + j)
          + self.nodalMij_ nodeR (i * self.nDim_ + j))))
      Mij) junk.Mij

/-- The perturbation of the `2 * ndim` nodal velocity unknowns of an edge as one vector: entry
`c < ndim` belongs to the left node, entry `c = j + ndim` to the right node. -/
def velocityDelta (delta : Entity → Nat → K) (nodeL nodeR : Entity) (ndim c : Nat) : K :=
  if c < ndim then delta nodeL c else delta nodeR (c - ndim)

/-- The kernel with the nodal velocity field `u` replaced by `u + delta`, every other input
unchanged. -/
def perturbVelocity (self : MomentumSSTTAMSDiffEdgeKernel K) (delta : Entity → Nat → K) :
    MomentumSSTTAMSDiffEdgeKernel K :=
  { self with velocity_ := (fun node d => self.velocity_ node d + delta node d) }

/-! ### A concrete edge on which the statements are exercised -/

/-- A two-dimensional kernel on the edge from node 0 at (0,0) to node 1 at (1,0), with isotropic
unit metric tensor and `betaStar * tke * sdr = 1`. -/
def edgeKernel2d : MomentumSSTTAMSDiffEdgeKernel ℚ where
  includeDivU_ := 1
  betaStar_ := 1
  CMdeg_ := 1
  nDim_ := 2
  relaxFacU_ := 1 / 2
  edgeAreaVec_ := fun _ d => if d = 0 then 1 else 2
  coordinates_ := fun node d => if d = 0 then node else 0
  velocity_ := fun node d => if d = 0 then 3 * node else 1 + node
  tvisc_ := fun _ _ => 2
  density_ := fun _ _ => 1
  tke_ := fun _ _ => 1
  sdr_ := fun _ _ => 1
  alpha_ := fun _ _ => 1 / 2
  nodalMij_ := fun _ m => if m = 0 then 1 else if m = 3 then 1 else 0
  dudx_ := fun node m => node + m
  avgVelocity_ := fun node d => if d = 0 then 2 * node else 2
  avgDudx_ := fun _ m => m

/-- Collaborators for `edgeKernel2d`: the decomposition of a diagonal tensor (`Q` the identity,
`D` the tensor itself), a `pow` that is exact at the base 1, the only base `edgeKernel2d`
raises, and the constant `CM43 = 1`. -/
def edgeCollab : EdgeCollaborators ℚ where
  sym_diagonalize := fun M => (fun i j => if i = j then 1 else 0, M)
  pow := fun x _ => x
  get_M43_constant := fun _ _ => 1

/-- Collaborators that differ from `edgeCollab` only in the off-diagonal entries of the returned
`D`, which are set to 7. -/
def edgeCollabOffDiag : EdgeCollaborators ℚ where
  sym_diagonalize := fun M =>
    (fun i j => if i = j then 1 else 0, fun p q => if p = q then M p q else 7)
  pow := fun x _ => x
  get_M43_constant := fun _ _ => 1

/-- Stack contents before the first store, all zero. -/
def zeroStack : Uninit ℚ where
  av := fun _ => 0
  Mij := fun _ _ => 0
  M43 := fun _ _ => 0
  avgdUidxj := fun _ _ => 0
  fluctdUidxj := fun _ _ => 0

end EdgeKernel

end Nalu

/-! # Theorems -/

namespace Nalu

/-! ## Loops and arrays -/

section LoopLemmas

@[simp] theorem forLoop_zero {σ : Type} (body : Nat → σ → σ) (s : σ) :
    forLoop 0 body s = s := rfl

theorem forLoop_succ {σ : Type} (n : Nat) (body : Nat → σ → σ) (s : σ) :
    forLoop (n + 1) body s = body n (forLoop n body s) := rfl

end LoopLemmas

/-! ## Point-location solver -/

section PointLocationProofs

variable {K : Type} [LinearOrderedField K] {V : Type}

theorem guessSeq_succ (body : V → V) (add : V → V → V) (g0 : V) (k : Nat) :
    guessSeq body add g0 (k + 1)
      = add (guessSeq body add g0 k) (correction body add g0 (k + 1)) := rfl

/-- The flag `iter < maxIter` of the loop started at iteration `i + 1`, after `i` iterations
that all passed the divergence test and failed the tolerance test. -/
theorem newton_iter_lt_iff (body : V → V) (add : V → V → V) (normsq : V → K)
    (maxIter : Int) (tol deltaLimit : K) (g0 : V) (n : Nat) :
    ∀ (i e : Nat), (maxIter - i).toNat ≤ n → (i = 0 ∨ (i : Int) < maxIter) →
      (∀ m, 1 ≤ m → m ≤ i → tol < normsq (correction body add g0 m) ∧
        normsq (correction body add g0 m) ≤ deltaLimit) →
      ((newton_do_while body add normsq maxIter tol deltaLimit
          { iter := i, guess := guessSeq body add g0 i, evals := e }).iter < maxIter ↔
        ∃ k : Nat, 1 ≤ k ∧ (k : Int) ≤ maxIter ∧ normsq (correction body add g0 k) ≤ tol ∧
          (∀ m, 1 ≤ m → m < k → tol < normsq (correction body add g0 m)) ∧
          (∀ m, 1 ≤ m → m ≤ k → normsq (correction body add g0 m) ≤ deltaLimit)) := by
  induction n with
  | zero =>
    intro i e hn hi hprev
    have hmax : maxIter ≤ i := by omega
    have hi0 : i = 0 := by omega
    subst hi0
    have hnone : ¬ ∃ k : Nat, 1 ≤ k ∧ (k : Int) ≤ maxIter ∧
        normsq (correction body add g0 k) ≤ tol ∧
        (∀ m, 1 ≤ m → m < k → tol < normsq (correction body add g0 m)) ∧
        (∀ m, 1 ≤ m → m ≤ k → normsq (correction body add g0 m) ≤ deltaLimit) := by
      rintro ⟨k, hk1, hk2, -⟩
      omega
    rw [newton_do_while]
    simp only [hnone, iff_false, not_lt]
    split_ifs with h1 h2 h3
    · exact le_refl _
    · simp only [Nat.cast_zero] at h3; omega
    · simp only [Nat.cast_zero]; omega
    · simp only [Nat.cast_zero]; omega
  | succ n ih =>
    intro i e hn hi hprev
    have hd : body (guessSeq body add g0 i) = correction body add g0 (i + 1) := rfl
    rw [newton_do_while]
    simp only [hd]
    by_cases h1 : normsq (correction body add g0 (i + 1)) > deltaLimit
    · -- divergence guard at iteration i + 1
      simp only [h1, if_true, lt_self_iff_false, false_iff]
      rintro ⟨k, hk1, -, hktol, -, hklim⟩
      by_cases hki : k ≤ i
      · exact absurd hktol (not_le.mpr (hprev k hk1 hki).1)
      · exact absurd (hklim (i + 1) (by omega) (by omega)) (not_le.mpr h1)
    · simp only [h1, if_false]
      have h1le : normsq (correction body add g0 (i + 1)) ≤ deltaLimit := not_lt.mp h1
      by_cases h2 : normsq (correction body add g0 (i + 1)) > tol
      · simp only [h2, if_true]
        have hprev1 : ∀ m, 1 ≤ m → m ≤ i + 1 →
            tol < normsq (correction body add g0 m) ∧
              normsq (correction body add g0 m) ≤ deltaLimit := by
          intro m hm1 hm2
          by_cases hmi : m ≤ i
          · exact hprev m hm1 hmi
          · have : m = i + 1 := by omega
            subst this
            exact ⟨h2, h1le⟩
        by_cases h3 : (i : Int) + 1 < maxIter
        · simp only [h3, if_true]
          have key := ih (i + 1) (e + 1) (by push_cast; omega) (Or.inr (by push_cast; omega))
            hprev1
          rw [guessSeq_succ] at key
          simpa using key
        · simp only [h3, if_false, false_iff]
          rintro ⟨k, hk1, hkmax, hktol, -, -⟩
          exact absurd hktol (not_le.mpr (hprev1 k hk1 (by omega)).1)
      · simp only [h2, if_false]
        have h2le : normsq (correction body add g0 (i + 1)) ≤ tol := not_lt.mp h2
        constructor
        · intro hlt
          refine ⟨i + 1, by omega, by push_cast; omega, h2le, ?_, ?_⟩
          · intro m hm1 hm2
            exact (hprev m hm1 (by omega)).1
          · intro m hm1 hm2
            by_cases hmi : m ≤ i
            · exact (hprev m hm1 hmi).2
            · have : m = i + 1 := by omega
              subst this
              exact h1le
        · rintro ⟨k, hk1, hkmax, -⟩
          rcases hi with hi | hi
          · subst hi; simp only [Nat.cast_zero]; omega
          · exact hi

/-- The returned flag of the loop started from `iter = 0`: true exactly on a tolerance exit. -/
theorem newton_flag_iff (body : V → V) (add : V → V → V) (normsq : V → K)
    (maxIter : Int) (tol deltaLimit : K) (g0 : V) :
    (decide ((newton_do_while body add normsq maxIter tol deltaLimit
        { iter := 0, guess := g0, evals := 0 }).iter < maxIter) = true ↔
      ∃ k : Nat, 1 ≤ k ∧ (k : Int) ≤ maxIter ∧ normsq (correction body add g0 k) ≤ tol ∧
        (∀ m, 1 ≤ m → m < k → tol < normsq (correction body add g0 m)) ∧
        (∀ m, 1 ≤ m → m ≤ k → normsq (correction body add g0 m) ≤ deltaLimit)) := by
  rw [decide_eq_true_iff]
  have key := newton_iter_lt_iff body add normsq maxIter tol deltaLimit g0
    (maxIter - ((0 : Nat) : Int)).toNat 0 0 (le_refl _) (Or.inl rfl)
    (by intro m h1 h2; omega)
  simpa [guessSeq] using key

/-- Over exact arithmetic (an ordered field, where a failed test `> tol` means `≤ tol`): for the
3-d and the 2-d point-location solver the returned flag is true if and only if there is an
iteration `k` with `1 ≤ k ≤ maxIter` whose correction `d_k` has `|d_k|^2 ≤ tol`, while
`|d_m|^2 > tol` for every earlier iteration `m < k` and `|d_m|^2 ≤ deltaLimit` for every
`m ≤ k`. -/
theorem converged_iff_tolerance_exit
    (basis3 : LagrangeBasis K (K × K × K)) (solve33 : (Nat → K) → K × K × K → K × K × K)
    (coords3 point3 : Nat → K) (guess3 : K × K × K)
    (basis2 : LagrangeBasis K (K × K)) (solve22 : (Nat → K) → K × K → K × K)
    (coords2 point2 : Nat → K) (guess2 : K × K)
    (maxIter : Int) (tol deltaLimit : K) :
    ((isoparameteric_coordinates_for_point_3d basis3 solve33 coords3 point3 guess3
        maxIter tol deltaLimit).1 = true ↔
      ∃ k : Nat, 1 ≤ k ∧ (k : Int) ≤ maxIter ∧
        vecnorm_sq3 (correction (delta_3d basis3 solve33 coords3 point3) add3 guess3 k) ≤ tol ∧
        (∀ m, 1 ≤ m → m < k →
          tol < vecnorm_sq3 (correction (delta_3d basis3 solve33 coords3 point3) add3 guess3 m)) ∧
        (∀ m, 1 ≤ m → m ≤ k →
          vecnorm_sq3 (correction (delta_3d basis3 solve33 coords3 point3) add3 guess3 m)
            ≤ deltaLimit)) ∧
    ((isoparameteric_coordinates_for_point_2d basis2 solve22 coords2 point2 guess2
        maxIter tol deltaLimit).1 = true ↔
      ∃ k : Nat, 1 ≤ k ∧ (k : Int) ≤ maxIter ∧
        vecnorm_sq2 (correction (delta_2d basis2 solve22 coords2 point2) add2 guess2 k) ≤ tol ∧
        (∀ m, 1 ≤ m → m < k →
          tol < vecnorm_sq2 (correction (delta_2d basis2 solve22 coords2 point2) add2 guess2 m)) ∧
        (∀ m, 1 ≤ m → m ≤ k →
          vecnorm_sq2 (correction (delta_2d basis2 solve22 coords2 point2) add2 guess2 m)
            ≤ deltaLimit)) :=
  ⟨newton_flag_iff _ _ _ _ _ _ _, newton_flag_iff _ _ _ _ _ _ _⟩

/-- The loop started at iteration `i + 1` on the undisturbed guess sequence, when iteration `k`
is reached and its correction trips the divergence guard. -/
theorem newton_diverges_at (body : V → V) (add : V → V → V) (normsq : V → K)
    (maxIter : Int) (tol deltaLimit : K) (g0 : V) (k : Nat)
    (hreach : k = 1 ∨ (k : Int) ≤ maxIter)
    (hprev : ∀ m, 1 ≤ m → m < k → tol < normsq (correction body add g0 m) ∧
      normsq (correction body add g0 m) ≤ deltaLimit)
    (hdiv : deltaLimit < normsq (correction body add g0 k)) (j : Nat) :
    ∀ (i e : Nat), i + j + 1 = k →
      newton_do_while body add normsq maxIter tol deltaLimit
          { iter := i, guess := guessSeq body add g0 i, evals := e }
        = { iter := maxIter, guess := guessSeq body add g0 (k - 1), evals := e + j + 1 } := by
  induction j with
  | zero =>
    intro i e hk
    have hki : k = i + 1 := by omega
    subst hki
    have hd : body (guessSeq body add g0 i) = correction body add g0 (i + 1) := rfl
    rw [newton_do_while]
    simp only [hd, gt_iff_lt, hdiv, if_true, Nat.add_sub_cancel, Nat.add_zero]
  | succ j ih =>
    intro i e hk
    have hd : body (guessSeq body add g0 i) = correction body add g0 (i + 1) := rfl
    obtain ⟨h2, h1⟩ := hprev (i + 1) (by omega) (by omega)
    have h3 : (i : Int) + 1 < maxIter := by
      rcases hreach with h | h
      · omega
      · omega
    rw [newton_do_while]
    simp only [hd, gt_iff_lt, not_lt.mpr h1, if_false, h2, if_true, h3]
    have key := ih (i + 1) (e + 1) (by omega)
    rw [guessSeq_succ] at key
    have he : e + 1 + j + 1 = e + (j + 1) + 1 := by omega
    rw [he] at key
    simpa using key

/-- Claim C2: in both point-location solvers, if iteration `k` is reached (every earlier
correction had squared norm above `tol` and at most `deltaLimit`, and `k = 1` or `k ≤ maxIter`)
and its correction has squared norm above `deltaLimit`, then the loop body is evaluated exactly
`k` times, the flag is false and `isoParCoord` is the guess before iteration `k`, the correction
not being added. When the first correction trips the guard, one iteration is evaluated,
whatever `maxIter`, and `isoParCoord` is the initial guess. -/
theorem divergence_guard_stops :
    (∀ (basis : LagrangeBasis K (K × K × K)) (solve33 : (Nat → K) → K × K × K → K × K × K)
      (coords point : Nat → K) (g0 : K × K × K) (maxIter : Int) (tol deltaLimit : K) (k : Nat),
      1 ≤ k → (k = 1 ∨ (k : Int) ≤ maxIter) →
      (∀ m, 1 ≤ m → m < k →
        tol < vecnorm_sq3 (correction (delta_3d basis solve33 coords point) add3 g0 m) ∧
        vecnorm_sq3 (correction (delta_3d basis solve33 coords point) add3 g0 m) ≤ deltaLimit) →
      deltaLimit < vecnorm_sq3 (correction (delta_3d basis solve33 coords point) add3 g0 k) →
      isoparameteric_coordinates_for_point_3d basis solve33 coords point g0 maxIter tol deltaLimit
          = (false, guessSeq (delta_3d basis solve33 coords point) add3 g0 (k - 1)) ∧
        (run_3d basis solve33 coords point g0 maxIter tol deltaLimit).evals = k) ∧
    (∀ (basis : LagrangeBasis K (K × K)) (solve22 : (Nat → K) → K × K → K × K)
      (coords point : Nat → K) (g0 : K × K) (maxIter : Int) (tol deltaLimit : K) (k : Nat),
      1 ≤ k → (k = 1 ∨ (k : Int) ≤ maxIter) →
      (∀ m, 1 ≤ m → m < k →
        tol < vecnorm_sq2 (correction (delta_2d basis solve22 coords point) add2 g0 m) ∧
        vecnorm_sq2 (correction (delta_2d basis solve22 coords point) add2 g0 m) ≤ deltaLimit) →
      deltaLimit < vecnorm_sq2 (correction (delta_2d basis solve22 coords point) add2 g0 k) →
      isoparameteric_coordinates_for_point_2d basis solve22 coords point g0 maxIter tol deltaLimit
          = (false, guessSeq (delta_2d basis solve22 coords point) add2 g0 (k - 1)) ∧
        (run_2d basis solve22 coords point g0 maxIter tol deltaLimit).evals = k) ∧
    (∀ (basis : LagrangeBasis K (K × K × K)) (solve33 : (Nat → K) → K × K × K → K × K × K)
      (coords point : Nat → K) (g0 : K × K × K) (maxIter : Int) (tol deltaLimit : K),
      deltaLimit < vecnorm_sq3 (delta_3d basis solve33 coords point g0) →
      isoparameteric_coordinates_for_point_3d basis solve33 coords point g0 maxIter tol deltaLimit
          = (false, g0) ∧
        (run_3d basis solve33 coords point g0 maxIter tol deltaLimit).evals = 1) ∧
    (∀ (basis : LagrangeBasis K (K × K)) (solve22 : (Nat → K) → K × K → K × K)
      (coords point : Nat → K) (g0 : K × K) (maxIter : Int) (tol deltaLimit : K),
      deltaLimit < vecnorm_sq2 (delta_2d basis solve22 coords point g0) →
      isoparameteric_coordinates_for_point_2d basis solve22 coords point g0 maxIter tol deltaLimit
          = (false, g0) ∧
        (run_2d basis solve22 coords point g0 maxIter tol deltaLimit).evals = 1) := by
  refine ⟨?_, ?_, ?_, ?_⟩
  · intro basis solve33 coords point g0 maxIter tol deltaLimit k hk hreach hprev hdiv
    have key := newton_diverges_at (delta_3d basis solve33 coords point) add3 vecnorm_sq3
      maxIter tol deltaLimit g0 k hreach hprev hdiv (k - 1) 0 0 (by omega)
    have hk' : 0 + (k - 1) + 1 = k := by omega
    simp only [Nat.cast_zero, guessSeq, hk'] at key
    simp [isoparameteric_coordinates_for_point_3d, run_3d, key]
  · intro basis solve22 coords point g0 maxIter tol deltaLimit k hk hreach hprev hdiv
    have key := newton_diverges_at (delta_2d basis solve22 coords point) add2 vecnorm_sq2
      maxIter tol deltaLimit g0 k hreach hprev hdiv (k - 1) 0 0 (by omega)
    have hk' : 0 + (k - 1) + 1 = k := by omega
    simp only [Nat.cast_zero, guessSeq, hk'] at key
    simp [isoparameteric_coordinates_for_point_2d, run_2d, key]
  · intro basis solve33 coords point g0 maxIter tol deltaLimit hdiv
    have key := newton_diverges_at (delta_3d basis solve33 coords point) add3 vecnorm_sq3
      maxIter tol deltaLimit g0 1 (Or.inl rfl) (by intro m h1 h2; omega) hdiv 0 0 0 rfl
    simp only [Nat.cast_zero, guessSeq] at key
    simp [isoparameteric_coordinates_for_point_3d, run_3d, key, guessSeq]
  · intro basis solve22 coords point g0 maxIter tol deltaLimit hdiv
    have key := newton_diverges_at (delta_2d basis solve22 coords point) add2 vecnorm_sq2
      maxIter tol deltaLimit g0 1 (Or.inl rfl) (by intro m h1 h2; omega) hdiv 0 0 0 rfl
    simp only [Nat.cast_zero, guessSeq] at key
    simp [isoparameteric_coordinates_for_point_2d, run_2d, key, guessSeq]

/-- Claim C2 exercised on a tetrahedron with an overshooting solve: the first correction passes
both tests, the second trips the guard, so two iterations run and the first update is kept. -/
theorem divergence_guard_stops_witness :
    isoparameteric_coordinates_for_point_3d tet4Basis
        (fun _ b => ((3 : ℚ) * b.1, 3 * b.2.1, 3 * b.2.2)) tet4Coords
        (fun i => if i = 0 then 2 else 0) (0, 0, 0) 5 1 100 = (false, ((3 : ℚ), 0, 0)) ∧
      (run_3d tet4Basis (fun _ b => ((3 : ℚ) * b.1, 3 * b.2.1, 3 * b.2.2)) tet4Coords
        (fun i => if i = 0 then 2 else 0) (0, 0, 0) 5 1 100).evals = 2 := by
  have h := (@divergence_guard_stops ℚ _).1 tet4Basis
    (fun _ b => ((3 : ℚ) * b.1, 3 * b.2.1, 3 * b.2.2)) tet4Coords
    (fun i => if i = 0 then 2 else 0) (0, 0, 0) 5 1 100 2 (by norm_num) (by norm_num)
    (by
      intro m h1 h2
      have hm : m = 1 := by omega
      subst hm
      norm_num [correction, guessSeq, vecnorm_sq3, delta_3d, forLoop, ddot, tet4Basis,
        tet4Coords])
    (by
      norm_num [correction, guessSeq, vecnorm_sq3, delta_3d, forLoop, ddot, tet4Basis,
        tet4Coords, add3])
  have hg : guessSeq (delta_3d tet4Basis (fun _ b => ((3 : ℚ) * b.1, 3 * b.2.1, 3 * b.2.2))
      tet4Coords (fun i => if i = 0 then 2 else 0)) add3 (0, 0, 0) (2 - 1)
      = ((3 : ℚ), 0, 0) := by
    norm_num [guessSeq, delta_3d, forLoop, ddot, tet4Basis, tet4Coords, add3]
  rw [hg] at h
  exact h

/-- A row-major 3 × 3 array with non-zero determinant acts injectively. -/
theorem matVec33_injective (A : Nat → K) (hdet : det33 A ≠ 0) (x y : K × K × K)
    (h : matVec33 A x = matVec33 A y) : x = y := by
  obtain ⟨x0, x1, x2⟩ := x
  obtain ⟨y0, y1, y2⟩ := y
  simp only [matVec33, Prod.mk.injEq] at h
  obtain ⟨e0, e1, e2⟩ := h
  have h0 : det33 A * (x0 - y0) = 0 := by
    simp only [det33]
    linear_combination (A 4 * A 8 - A 5 * A 7) * e0 - (A 1 * A 8 - A 2 * A 7) * e1
      + (A 1 * A 5 - A 2 * A 4) * e2
  have h1 : det33 A * (x1 - y1) = 0 := by
    simp only [det33]
    linear_combination -(A 3 * A 8 - A 5 * A 6) * e0 + (A 0 * A 8 - A 2 * A 6) * e1
      - (A 0 * A 5 - A 2 * A 3) * e2
  have h2 : det33 A * (x2 - y2) = 0 := by
    simp only [det33]
    linear_combination (A 3 * A 7 - A 4 * A 6) * e0 - (A 0 * A 7 - A 1 * A 6) * e1
      + (A 0 * A 4 - A 1 * A 3) * e2
  have d0 := (mul_eq_zero.mp h0).resolve_left hdet
  have d1 := (mul_eq_zero.mp h1).resolve_left hdet
  have d2 := (mul_eq_zero.mp h2).resolve_left hdet
  simp only [Prod.mk.injEq]
  exact ⟨sub_eq_zero.mp d0, sub_eq_zero.mp d1, sub_eq_zero.mp d2⟩

/-- A row-major 2 × 2 array with non-zero determinant acts injectively. -/
theorem matVec22_injective (A : Nat → K) (hdet : det22 A ≠ 0) (x y : K × K)
    (h : matVec22 A x = matVec22 A y) : x = y := by
  obtain ⟨x0, x1⟩ := x
  obtain ⟨y0, y1⟩ := y
  simp only [matVec22, Prod.mk.injEq] at h
  obtain ⟨e0, e1⟩ := h
  have h0 : det22 A * (x0 - y0) = 0 := by
    simp only [det22]
    linear_combination A 3 * e0 - A 1 * e1
  have h1 : det22 A * (x1 - y1) = 0 := by
    simp only [det22]
    linear_combination A 0 * e1 - A 2 * e0
  have d0 := (mul_eq_zero.mp h0).resolve_left hdet
  have d1 := (mul_eq_zero.mp h1).resolve_left hdet
  simp only [Prod.mk.injEq]
  exact ⟨sub_eq_zero.mp d0, sub_eq_zero.mp d1⟩

/-! ### Assembly of the Jacobian -/
theorem ddot_eq_sum (x y : Nat → K) (n : Nat) :
    ddot x y n = ∑ j ∈ Finset.range n, x j * y j := by
  unfold ddot
  induction n with
  | zero => rfl
  | succ n ih => rw [forLoop_succ, ih, Finset.sum_range_succ]

/-- The loop of lines 59-71: entry `m = 3 * i + d` of `jact` is the sum over the nodes of
`deriv(j, d) * elemNodalCoords[j + i * nNodes]`. -/
theorem jact_3d_loop (deriv : Nat → Nat → K) (X : Nat → K) (N n : Nat) :
    ∀ m, m < 9 →
      forLoop n (fun j jact =>
        addAt (addAt (addAt (addAt (addAt (addAt (addAt (addAt (addAt jact
          0 (deriv j 0 * X (j + 0 * N)))
          1 (deriv j 1 * X (j + 0 * N)))
          2 (deriv j 2 * X (j + 0 * N)))
          3 (deriv j 0 * X (j + 1 * N)))
          4 (deriv j 1 * X (j + 1 * N)))
          5 (deriv j 2 * X (j + 1 * N)))
          6 (deriv j 0 * X (j + 2 * N)))
          7 (deriv j 1 * X (j + 2 * N)))
          8 (deriv j 2 * X (j + 2 * N))) (fun _ => 0) m
        = ∑ j ∈ Finset.range n, deriv j (m % 3) * X (j + (m / 3) * N) := by
  induction n with
  | zero =>
    intro m _
    rfl
  | succ n ih =>
    intro m hm
    rw [forLoop_succ, Finset.sum_range_succ, ← ih m hm]
    interval_cases m <;> simp [addAt]

theorem jact_3d_entry (basis : LagrangeBasis K (K × K × K)) (coords : Nat → K)
    (q : K × K × K) (m : Nat) (hm : m < 9) :
    jact_3d basis coords q m
      = ∑ j ∈ Finset.range basis.num_nodes,
          basis.point_derivative_weights q j (m % 3) * coords (j + (m / 3) * basis.num_nodes) :=
  jact_3d_loop (basis.point_derivative_weights q) coords basis.num_nodes basis.num_nodes m hm

/-- The loop of lines 124-129: entry `m = 2 * i + d` of `jact` is the sum over the nodes of
`deriv(j, d) * elemNodalCoords[j + i * nNodes]`. -/
theorem jact_2d_loop (deriv : Nat → Nat → K) (X : Nat → K) (N n : Nat) :
    ∀ m, m < 4 →
      forLoop n (fun j jact =>
        addAt (addAt (addAt (addAt jact
          0 (deriv j 0 * X (j + 0 * N)))
          1 (deriv j 1 * X (j + 0 * N)))
          2 (deriv j 0 * X (j + 1 * N)))
          3 (deriv j 1 * X (j + 1 * N))) (fun _ => 0) m
        = ∑ j ∈ Finset.range n, deriv j (m % 2) * X (j + (m / 2) * N) := by
  induction n with
  | zero =>
    intro m _
    rfl
  | succ n ih =>
    intro m hm
    rw [forLoop_succ, Finset.sum_range_succ, ← ih m hm]
    interval_cases m <;> simp [addAt]

theorem jact_2d_entry (basis : LagrangeBasis K (K × K)) (coords : Nat → K)
    (q : K × K) (m : Nat) (hm : m < 4) :
    jact_2d basis coords q m
      = ∑ j ∈ Finset.range basis.num_nodes,
          basis.point_derivative_weights q j (m % 2) * coords (j + (m / 2) * basis.num_nodes) :=
  jact_2d_loop (basis.point_derivative_weights q) coords basis.num_nodes basis.num_nodes m hm

/-- A function that changes by exactly `D * h` has the derivative `D`. -/
theorem isDerivativeAlong_of_exact (shift : V → K → V) (f : V → K) (q : V) (D : K)
    (h0 : ∀ h, f (shift q h) - f q - D * h = 0) : IsDerivativeAlong shift f q D := by
  intro ε hε
  refine ⟨1, one_pos, ?_⟩
  intro h _
  rw [h0 h, abs_zero]
  exact mul_nonneg (le_of_lt hε) (abs_nonneg h)

/-- A derivative along a family of moves is unique. -/
theorem isDerivativeAlong_unique (shift : V → K → V) (f : V → K) (q : V) (D1 D2 : K)
    (h1 : IsDerivativeAlong shift f q D1) (h2 : IsDerivativeAlong shift f q D2) : D1 = D2 := by
  by_contra hne
  have hpos : 0 < |D1 - D2| := abs_pos.mpr (sub_ne_zero.mpr hne)
  obtain ⟨δ1, hδ1, hb1⟩ := h1 (|D1 - D2| / 4) (by positivity)
  obtain ⟨δ2, hδ2, hb2⟩ := h2 (|D1 - D2| / 4) (by positivity)
  have hmin : 0 < min δ1 δ2 := lt_min hδ1 hδ2
  have hh : 0 < min δ1 δ2 / 2 := by positivity
  have habs : |min δ1 δ2 / 2| = min δ1 δ2 / 2 := abs_of_pos hh
  have hlt1 : |min δ1 δ2 / 2| < δ1 := by
    rw [habs]
    have := min_le_left δ1 δ2
    linarith
  have hlt2 : |min δ1 δ2 / 2| < δ2 := by
    rw [habs]
    have := min_le_right δ1 δ2
    linarith
  have e1 := hb1 _ hlt1
  have e2 := hb2 _ hlt2
  rw [habs] at e1 e2
  have a1 := abs_le.mp e1
  have a2 := abs_le.mp e2
  have hprod : |(D1 - D2) * (min δ1 δ2 / 2)| ≤ |D1 - D2| / 4 * (min δ1 δ2 / 2) * 2 := by
    rw [abs_le]
    constructor <;> linarith [a1.1, a1.2, a2.1, a2.2]
  rw [abs_mul, habs] at hprod
  have hgt : 0 < |D1 - D2| * (min δ1 δ2 / 2) := mul_pos hpos hh
  linarith

/-- The derivative of a finite linear combination is the combination of the derivatives. -/
theorem isDerivativeAlong_sum (shift : V → K → V) (q : V) (f : Nat → V → K) (D c : Nat → K)
    (n : Nat) (hf : ∀ j, j < n → IsDerivativeAlong shift (f j) q (D j)) :
    IsDerivativeAlong shift (fun p => ∑ j ∈ Finset.range n, f j p * c j) q
      (∑ j ∈ Finset.range n, D j * c j) := by
  induction n with
  | zero =>
    apply isDerivativeAlong_of_exact
    intro h
    simp
  | succ n ih =>
    have hF := ih (fun j hj => hf j (Nat.lt_succ_of_lt hj))
    have hn := hf n (Nat.lt_succ_self n)
    intro ε hε
    have hc1 : 0 < |c n| + 1 := by positivity
    obtain ⟨δ1, hδ1, hb1⟩ := hF (ε / 2) (by positivity)
    obtain ⟨δ2, hδ2, hb2⟩ := hn (ε / (2 * (|c n| + 1))) (by positivity)
    refine ⟨min δ1 δ2, lt_min hδ1 hδ2, ?_⟩
    intro h hh
    have e1 := hb1 h (lt_of_lt_of_le hh (min_le_left _ _))
    have e2 := hb2 h (lt_of_lt_of_le hh (min_le_right _ _))
    have hsplit : (∑ j ∈ Finset.range (n + 1), f j (shift q h) * c j)
          - (∑ j ∈ Finset.range (n + 1), f j q * c j)
          - (∑ j ∈ Finset.range (n + 1), D j * c j) * h
        = ((∑ j ∈ Finset.range n, f j (shift q h) * c j)
            - (∑ j ∈ Finset.range n, f j q * c j)
            - (∑ j ∈ Finset.range n, D j * c j) * h)
          + c n * (f n (shift q h) - f n q - D n * h) := by
      rw [Finset.sum_range_succ, Finset.sum_range_succ, Finset.sum_range_succ]
      ring
    have hscale : |c n| * (ε / (2 * (|c n| + 1)) * |h|) ≤ ε / 2 * |h| := by
      have hq : ε / (2 * (|c n| + 1)) * (|c n| + 1) = ε / 2 := by
        field_simp
        ring
      have hnn : 0 ≤ ε / (2 * (|c n| + 1)) := by positivity
      have hle : |c n| * (ε / (2 * (|c n| + 1))) ≤ ε / 2 := by
        rw [← hq]
        nlinarith [abs_nonneg (c n)]
      calc |c n| * (ε / (2 * (|c n| + 1)) * |h|)
          = |c n| * (ε / (2 * (|c n| + 1))) * |h| := by ring
        _ ≤ ε / 2 * |h| := mul_le_mul_of_nonneg_right hle (abs_nonneg h)
    show |(∑ j ∈ Finset.range (n + 1), f j (shift q h) * c j)
          - (∑ j ∈ Finset.range (n + 1), f j q * c j)
          - (∑ j ∈ Finset.range (n + 1), D j * c j) * h| ≤ ε * |h|
    rw [hsplit]
    calc |((∑ j ∈ Finset.range n, f j (shift q h) * c j)
            - (∑ j ∈ Finset.range n, f j q * c j)
            - (∑ j ∈ Finset.range n, D j * c j) * h)
          + c n * (f n (shift q h) - f n q - D n * h)|
        ≤ |(∑ j ∈ Finset.range n, f j (shift q h) * c j)
            - (∑ j ∈ Finset.range n, f j q * c j)
            - (∑ j ∈ Finset.range n, D j * c j) * h|
          + |c n * (f n (shift q h) - f n q - D n * h)| := abs_add _ _
      _ ≤ ε / 2 * |h| + |c n| * (ε / (2 * (|c n| + 1)) * |h|) := by
        rw [abs_mul]
        exact add_le_add e1 (mul_le_mul_of_nonneg_left e2 (abs_nonneg _))
      _ ≤ ε / 2 * |h| + ε / 2 * |h| := add_le_add (le_refl _) hscale
      _ = ε * |h| := by ring

/-- An affine function of the 3-d reference coordinate has its coefficients as derivatives
along the three reference directions. -/
theorem affine3_derivative (f : K × K × K → K) (a b0 b1 b2 : K)
    (hf : ∀ p : K × K × K, f p = a + (b0 * p.1 + b1 * p.2.1 + b2 * p.2.2)) (q : K × K × K) :
    IsDerivativeAlong (shift3 0) f q b0 ∧ IsDerivativeAlong (shift3 1) f q b1 ∧
      IsDerivativeAlong (shift3 2) f q b2 := by
  refine ⟨?_, ?_, ?_⟩ <;>
    · apply isDerivativeAlong_of_exact
      intro h
      rw [hf, hf]
      simp only [shift3]
      norm_num
      ring

/-- An affine function of the 2-d reference coordinate has its coefficients as derivatives
along the two reference directions. -/
theorem affine2_derivative (f : K × K → K) (a b0 b1 : K)
    (hf : ∀ p : K × K, f p = a + (b0 * p.1 + b1 * p.2)) (q : K × K) :
    IsDerivativeAlong (shift2 0) f q b0 ∧ IsDerivativeAlong (shift2 1) f q b1 := by
  refine ⟨?_, ?_⟩ <;>
    · apply isDerivativeAlong_of_exact
      intro h
      rw [hf, hf]
      simp only [shift2]
      norm_num
      ring

/-- When the derivative weights are the derivatives of the interpolation weights, component `i`
of the forward interpolation has, along `shift`, the derivative that the source's loop
accumulates: the sum over the nodes of `deriv(j, d) * elemNodalCoords[j + i * nNodes]`. -/
theorem forward_component_derivative {V : Type} (basis : LagrangeBasis K V) (coords : Nat → K)
    (shift : V → K → V) (i d : Nat) (q : V)
    (hder : ∀ j, j < basis.num_nodes →
      IsDerivativeAlong shift (fun p => basis.point_interpolation_weights p j) q
        (basis.point_derivative_weights q j d)) :
    IsDerivativeAlong shift (fun p => forward_map basis coords p i) q
      (∑ j ∈ Finset.range basis.num_nodes,
        basis.point_derivative_weights q j d * coords (j + i * basis.num_nodes)) := by
  have hfun : (fun p => forward_map basis coords p i)
      = fun p => ∑ j ∈ Finset.range basis.num_nodes,
          basis.point_interpolation_weights p j * coords (j + i * basis.num_nodes) := by
    funext p
    exact ddot_eq_sum _ _ _
  rw [hfun]
  exact isDerivativeAlong_sum shift q (fun j p => basis.point_interpolation_weights p j)
    (fun j => basis.point_derivative_weights q j d)
    (fun j => coords (j + i * basis.num_nodes)) basis.num_nodes hder

/-- On an affine 3-d element whose derivative weights are the derivatives of the interpolation
weights, the array `jact` assembled by lines 57-71 at any `q` is the Jacobian `J`, row-major. -/
theorem jact_3d_of_affine (basis : LagrangeBasis K (K × K × K)) (coords J : Nat → K)
    (x0 : K × K × K) (haff : IsAffineElement3d basis coords J x0) (q : K × K × K) (m : Nat)
    (hm : m < 9) : jact_3d basis coords q m = J m := by
  obtain ⟨ha0, ha1, ha2, hder⟩ := haff
  have h0 := affine3_derivative (fun p => forward_map basis coords p 0) _ _ _ _ ha0 q
  have h1 := affine3_derivative (fun p => forward_map basis coords p 1) _ _ _ _ ha1 q
  have h2 := affine3_derivative (fun p => forward_map basis coords p 2) _ _ _ _ ha2 q
  have hc : ∀ i d, d < 3 →
      IsDerivativeAlong (shift3 d) (fun p => forward_map basis coords p i) q
        (∑ j ∈ Finset.range basis.num_nodes,
          basis.point_derivative_weights q j d * coords (j + i * basis.num_nodes)) :=
    fun i d hd => forward_component_derivative basis coords (shift3 d) i d q
      (fun j hj => hder q j d hj hd)
  rw [jact_3d_entry basis coords q m hm]
  interval_cases m
  · exact isDerivativeAlong_unique _ _ q _ _ (hc 0 0 (by norm_num)) h0.1
  · exact isDerivativeAlong_unique _ _ q _ _ (hc 0 1 (by norm_num)) h0.2.1
  · exact isDerivativeAlong_unique _ _ q _ _ (hc 0 2 (by norm_num)) h0.2.2
  · exact isDerivativeAlong_unique _ _ q _ _ (hc 1 0 (by norm_num)) h1.1
  · exact isDerivativeAlong_unique _ _ q _ _ (hc 1 1 (by norm_num)) h1.2.1
  · exact isDerivativeAlong_unique _ _ q _ _ (hc 1 2 (by norm_num)) h1.2.2
  · exact isDerivativeAlong_unique _ _ q _ _ (hc 2 0 (by norm_num)) h2.1
  · exact isDerivativeAlong_unique _ _ q _ _ (hc 2 1 (by norm_num)) h2.2.1
  · exact isDerivativeAlong_unique _ _ q _ _ (hc 2 2 (by norm_num)) h2.2.2

/-- On an affine 2-d element whose derivative weights are the derivatives of the interpolation
weights, the array `jact` assembled by lines 122-129 at any `q` is the Jacobian `J`,
row-major. -/
theorem jact_2d_of_affine (basis : LagrangeBasis K (K × K)) (coords J : Nat → K)
    (x0 : K × K) (haff : IsAffineElement2d basis coords J x0) (q : K × K) (m : Nat)
    (hm : m < 4) : jact_2d basis coords q m = J m := by
  obtain ⟨ha0, ha1, hder⟩ := haff
  have h0 := affine2_derivative (fun p => forward_map basis coords p 0) _ _ _ ha0 q
  have h1 := affine2_derivative (fun p => forward_map basis coords p 1) _ _ _ ha1 q
  have hc : ∀ i d, d < 2 →
      IsDerivativeAlong (shift2 d) (fun p => forward_map basis coords p i) q
        (∑ j ∈ Finset.range basis.num_nodes,
          basis.point_derivative_weights q j d * coords (j + i * basis.num_nodes)) :=
    fun i d hd => forward_component_derivative basis coords (shift2 d) i d q
      (fun j hj => hder q j d hj hd)
  rw [jact_2d_entry basis coords q m hm]
  interval_cases m
  · exact isDerivativeAlong_unique _ _ q _ _ (hc 0 0 (by norm_num)) h0.1
  · exact isDerivativeAlong_unique _ _ q _ _ (hc 0 1 (by norm_num)) h0.2
  · exact isDerivativeAlong_unique _ _ q _ _ (hc 1 0 (by norm_num)) h1.1
  · exact isDerivativeAlong_unique _ _ q _ _ (hc 1 1 (by norm_num)) h1.2

/-- On an affine 3-d element with an exact solve, the correction at `q` towards the image of
`r` is `r - q`. -/
theorem delta_3d_affine (basis : LagrangeBasis K (K × K × K))
    (solve33 : (Nat → K) → K × K × K → K × K × K) (coords : Nat → K)
    (J : Nat → K) (x0 r : K × K × K) (haff : IsAffineElement3d basis coords J x0)
    (hdet : det33 J ≠ 0)
    (hsolve : ∀ (A : Nat → K) (b : K × K × K), det33 A ≠ 0 → matVec33 A (solve33 A b) = b)
    (q : K × K × K) :
    delta_3d basis solve33 coords (forward_map basis coords r) q
      = (r.1 - q.1, r.2.1 - q.2.1, r.2.2 - q.2.2) := by
  have hJ := jact_3d_of_affine basis coords J x0 haff
  obtain ⟨ha0, ha1, ha2, -⟩ := haff
  have hA : det33 (jact_3d basis coords q) = det33 J := by
    simp only [det33, hJ q _ (by norm_num : (0 : Nat) < 9), hJ q _ (by norm_num : (1 : Nat) < 9),
      hJ q _ (by norm_num : (2 : Nat) < 9), hJ q _ (by norm_num : (3 : Nat) < 9),
      hJ q _ (by norm_num : (4 : Nat) < 9), hJ q _ (by norm_num : (5 : Nat) < 9),
      hJ q _ (by norm_num : (6 : Nat) < 9), hJ q _ (by norm_num : (7 : Nat) < 9),
      hJ q _ (by norm_num : (8 : Nat) < 9)]
  have hdetA : det33 (jact_3d basis coords q) ≠ 0 := by rw [hA]; exact hdet
  apply matVec33_injective (jact_3d basis coords q) hdetA
  have hs := hsolve (jact_3d basis coords q)
    (forward_map basis coords r 0 - forward_map basis coords q 0,
     forward_map basis coords r 1 - forward_map basis coords q 1,
     forward_map basis coords r 2 - forward_map basis coords q 2) hdetA
  have hd : delta_3d basis solve33 coords (forward_map basis coords r) q
      = solve33 (jact_3d basis coords q)
          (forward_map basis coords r 0 - forward_map basis coords q 0,
           forward_map basis coords r 1 - forward_map basis coords q 1,
           forward_map basis coords r 2 - forward_map basis coords q 2) := rfl
  rw [hd, hs]
  simp only [matVec33, hJ q _ (by norm_num : (0 : Nat) < 9), hJ q _ (by norm_num : (1 : Nat) < 9),
      hJ q _ (by norm_num : (2 : Nat) < 9), hJ q _ (by norm_num : (3 : Nat) < 9),
      hJ q _ (by norm_num : (4 : Nat) < 9), hJ q _ (by norm_num : (5 : Nat) < 9),
      hJ q _ (by norm_num : (6 : Nat) < 9), hJ q _ (by norm_num : (7 : Nat) < 9),
      hJ q _ (by norm_num : (8 : Nat) < 9), ha0, ha1, ha2, Prod.mk.injEq]
  refine ⟨by ring, by ring, by ring⟩

/-- On an affine 2-d element with an exact solve, the correction at `q` towards the image of
`r` is `r - q`. -/
theorem delta_2d_affine (basis : LagrangeBasis K (K × K))
    (solve22 : (Nat → K) → K × K → K × K) (coords : Nat → K)
    (J : Nat → K) (x0 r : K × K) (haff : IsAffineElement2d basis coords J x0)
    (hdet : det22 J ≠ 0)
    (hsolve : ∀ (A : Nat → K) (b : K × K), det22 A ≠ 0 → matVec22 A (solve22 A b) = b)
    (q : K × K) :
    delta_2d basis solve22 coords (forward_map basis coords r) q = (r.1 - q.1, r.2 - q.2) := by
  have hJ := jact_2d_of_affine basis coords J x0 haff
  obtain ⟨ha0, ha1, -⟩ := haff
  have hA : det22 (jact_2d basis coords q) = det22 J := by
    simp only [det22, hJ q _ (by norm_num : (0 : Nat) < 4), hJ q _ (by norm_num : (1 : Nat) < 4),
      hJ q _ (by norm_num : (2 : Nat) < 4), hJ q _ (by norm_num : (3 : Nat) < 4)]
  have hdetA : det22 (jact_2d basis coords q) ≠ 0 := by rw [hA]; exact hdet
  apply matVec22_injective (jact_2d basis coords q) hdetA
  have hs := hsolve (jact_2d basis coords q)
    (forward_map basis coords r 0 - forward_map basis coords q 0,
     forward_map basis coords r 1 - forward_map basis coords q 1) hdetA
  have hd : delta_2d basis solve22 coords (forward_map basis coords r) q
      = solve22 (jact_2d basis coords q)
          (forward_map basis coords r 0 - forward_map basis coords q 0,
           forward_map basis coords r 1 - forward_map basis coords q 1) := rfl
  rw [hd, hs]
  simp only [matVec22, hJ q _ (by norm_num : (0 : Nat) < 4), hJ q _ (by norm_num : (1 : Nat) < 4),
      hJ q _ (by norm_num : (2 : Nat) < 4), hJ q _ (by norm_num : (3 : Nat) < 4), ha0, ha1,
      Prod.mk.injEq]
  refine ⟨by ring, by ring⟩

/-- A loop whose first update lands on a fixed point `r` of the update, with a second correction
within both thresholds, exits through the tolerance test with `guess = r`. -/
theorem newton_two_steps (body : V → V) (add : V → V → V) (normsq : V → K)
    (maxIter : Int) (tol deltaLimit : K) (g0 r : V)
    (h1 : add g0 (body g0) = r) (h2 : add r (body r) = r)
    (hn1 : normsq (body g0) ≤ deltaLimit) (hn2 : normsq (body r) ≤ tol)
    (hn3 : normsq (body r) ≤ deltaLimit) (hmax : 2 ≤ maxIter) :
    (newton_do_while body add normsq maxIter tol deltaLimit
        { iter := 0, guess := g0, evals := 0 }).iter < maxIter ∧
      (newton_do_while body add normsq maxIter tol deltaLimit
        { iter := 0, guess := g0, evals := 0 }).guess = r := by
  rw [newton_do_while]
  simp only [gt_iff_lt, not_lt.mpr hn1, if_false, h1]
  by_cases ht : tol < normsq (body g0)
  · have h3 : (0 : Int) + 1 < maxIter := by omega
    simp only [ht, if_true, h3]
    rw [newton_do_while]
    simp only [gt_iff_lt, not_lt.mpr hn3, if_false, not_lt.mpr hn2, h2]
    exact ⟨by omega, trivial⟩
  · simp only [ht, if_false]
    exact ⟨by omega, trivial⟩

/-- Claim C3: point-location round trip over exact arithmetic. For an element whose forward
mapping is affine with invertible Jacobian, whose derivative weights are the partial derivatives
of the interpolation weights, and a solve that is exact on invertible arrays, for every
reference coordinate `r` and initial guess `g` with `|r - g|^2 ≤ deltaLimit`, `tol ≥ 0` and
`maxIter ≥ 2`, inverting the forward interpolation of `r` returns true and writes
`isoParCoord = r`, in 3-d and in 2-d. -/
theorem point_location_round_trip :
    (∀ (basis : LagrangeBasis K (K × K × K)) (solve33 : (Nat → K) → K × K × K → K × K × K)
      (coords J : Nat → K) (x0 r g : K × K × K) (maxIter : Int) (tol deltaLimit : K),
      IsAffineElement3d basis coords J x0 → det33 J ≠ 0 →
      (∀ (A : Nat → K) (b : K × K × K), det33 A ≠ 0 → matVec33 A (solve33 A b) = b) →
      0 ≤ tol → 2 ≤ maxIter →
      vecnorm_sq3 (r.1 - g.1, r.2.1 - g.2.1, r.2.2 - g.2.2) ≤ deltaLimit →
      isoparameteric_coordinates_for_point_3d basis solve33 coords (forward_map basis coords r)
        g maxIter tol deltaLimit = (true, r)) ∧
    (∀ (basis : LagrangeBasis K (K × K)) (solve22 : (Nat → K) → K × K → K × K)
      (coords J : Nat → K) (x0 r g : K × K) (maxIter : Int) (tol deltaLimit : K),
      IsAffineElement2d basis coords J x0 → det22 J ≠ 0 →
      (∀ (A : Nat → K) (b : K × K), det22 A ≠ 0 → matVec22 A (solve22 A b) = b) →
      0 ≤ tol → 2 ≤ maxIter →
      vecnorm_sq2 (r.1 - g.1, r.2 - g.2) ≤ deltaLimit →
      isoparameteric_coordinates_for_point_2d basis solve22 coords (forward_map basis coords r)
        g maxIter tol deltaLimit = (true, r)) := by
  constructor
  · intro basis solve33 coords J x0 r g maxIter tol deltaLimit haff hdet hsolve htol hmax hlim
    have hd := delta_3d_affine basis solve33 coords J x0 r haff hdet hsolve
    have hlim0 : (0 : K) ≤ deltaLimit :=
      le_trans (add_nonneg (add_nonneg (mul_self_nonneg _) (mul_self_nonneg _))
        (mul_self_nonneg _)) hlim
    have key := newton_two_steps (delta_3d basis solve33 coords (forward_map basis coords r))
      add3 vecnorm_sq3 maxIter tol deltaLimit g r
      (by rw [hd]; simp [add3])
      (by rw [hd]; simp [add3])
      (by rw [hd]; exact hlim)
      (by rw [hd]; simpa [vecnorm_sq3] using htol)
      (by rw [hd]; simpa [vecnorm_sq3] using hlim0) hmax
    simp only [isoparameteric_coordinates_for_point_3d, run_3d, Prod.mk.injEq,
      decide_eq_true_eq]
    exact key
  · intro basis solve22 coords J x0 r g maxIter tol deltaLimit haff hdet hsolve htol hmax hlim
    have hd := delta_2d_affine basis solve22 coords J x0 r haff hdet hsolve
    have hlim0 : (0 : K) ≤ deltaLimit :=
      le_trans (add_nonneg (mul_self_nonneg _) (mul_self_nonneg _)) hlim
    have key := newton_two_steps (delta_2d basis solve22 coords (forward_map basis coords r))
      add2 vecnorm_sq2 maxIter tol deltaLimit g r
      (by rw [hd]; simp [add2])
      (by rw [hd]; simp [add2])
      (by rw [hd]; exact hlim)
      (by rw [hd]; simpa [vecnorm_sq2] using htol)
      (by rw [hd]; simpa [vecnorm_sq2] using hlim0) hmax
    simp only [isoparameteric_coordinates_for_point_2d, run_2d, Prod.mk.injEq,
      decide_eq_true_eq]
    exact key

/-- Cramer's rule solves exactly when the determinant is not zero. -/
theorem cramer33_exact (A : Nat → K) (b : K × K × K) (hdet : det33 A ≠ 0) :
    matVec33 A (cramer33 A b) = b := by
  obtain ⟨b0, b1, b2⟩ := b
  simp only [matVec33, cramer33, Prod.mk.injEq]
  refine ⟨?_, ?_, ?_⟩
  · field_simp
    simp only [det33]
    ring
  · field_simp
    simp only [det33]
    ring
  · field_simp
    simp only [det33]
    ring

/-- Cramer's rule solves a 2 × 2 system exactly when the determinant is not zero. -/
theorem cramer22_exact (A : Nat → K) (b : K × K) (hdet : det22 A ≠ 0) :
    matVec22 A (cramer22 A b) = b := by
  obtain ⟨b0, b1⟩ := b
  simp only [matVec22, cramer22, Prod.mk.injEq]
  refine ⟨?_, ?_⟩
  · field_simp
    simp only [det22]
    ring
  · field_simp
    simp only [det22]
    ring

/-- The derivative weights of `tet4Basis` are the partial derivatives of its interpolation
weights. -/
theorem tet4Basis_derivatives (q : ℚ × ℚ × ℚ) (j d : Nat) (hj : j < tet4Basis.num_nodes)
    (hd : d < 3) :
    IsDerivativeAlong (shift3 d) (fun p => tet4Basis.point_interpolation_weights p j) q
      (tet4Basis.point_derivative_weights q j d) := by
  apply isDerivativeAlong_of_exact
  intro h
  have hj4 : j < 4 := hj
  interval_cases j <;> interval_cases d <;> simp [tet4Basis, shift3]

/-- The derivative weights of `tri3Basis` are the partial derivatives of its interpolation
weights. -/
theorem tri3Basis_derivatives (q : ℚ × ℚ) (j d : Nat) (hj : j < tri3Basis.num_nodes)
    (hd : d < 2) :
    IsDerivativeAlong (shift2 d) (fun p => tri3Basis.point_interpolation_weights p j) q
      (tri3Basis.point_derivative_weights q j d) := by
  apply isDerivativeAlong_of_exact
  intro h
  have hj3 : j < 3 := hj
  interval_cases j <;> interval_cases d <;> simp [tri3Basis, shift2]

/-- The tetrahedron `tet4Coords` is an affine element with Jacobian `tet4Jacobian`. -/
theorem tet4_affine : IsAffineElement3d tet4Basis tet4Coords tet4Jacobian (1, 0, 0) := by
  refine ⟨?_, ?_, ?_, ?_⟩
  · intro q
    simp [forward_map, ddot, forLoop, tet4Basis, tet4Coords, tet4Jacobian]
    ring
  · intro q
    simp [forward_map, ddot, forLoop, tet4Basis, tet4Coords, tet4Jacobian]
  · intro q
    simp [forward_map, ddot, forLoop, tet4Basis, tet4Coords, tet4Jacobian]
  · exact tet4Basis_derivatives

/-- The tetrahedron `tet4SkewCoords` is an affine element with the non-symmetric Jacobian
`tet4SkewJacobian`. -/
theorem tet4Skew_affine :
    IsAffineElement3d tet4Basis tet4SkewCoords tet4SkewJacobian (1, 0, 0) := by
  refine ⟨?_, ?_, ?_, tet4Basis_derivatives⟩
  · intro q
    simp [forward_map, ddot, forLoop, tet4Basis, tet4SkewCoords, tet4SkewJacobian]
    ring
  · intro q
    simp [forward_map, ddot, forLoop, tet4Basis, tet4SkewCoords, tet4SkewJacobian]
  · intro q
    simp [forward_map, ddot, forLoop, tet4Basis, tet4SkewCoords, tet4SkewJacobian]

/-- The triangle `tri3Coords` is an affine element with the non-symmetric Jacobian
`tri3Jacobian`. -/
theorem tri3_affine : IsAffineElement2d tri3Basis tri3Coords tri3Jacobian (1, 0) := by
  refine ⟨?_, ?_, tri3Basis_derivatives⟩
  · intro q
    simp [forward_map, ddot, forLoop, tri3Basis, tri3Coords, tri3Jacobian]
    ring
  · intro q
    simp [forward_map, ddot, forLoop, tri3Basis, tri3Coords, tri3Jacobian]
    ring

/-- Claim C3 exercised with Cramer's rule as the solve, on the tetrahedron `tet4SkewCoords` and
on the triangle `tri3Coords`, both with a non-symmetric Jacobian. -/
theorem point_location_round_trip_witness :
    isoparameteric_coordinates_for_point_3d tet4Basis cramer33 tet4SkewCoords
        (forward_map tet4Basis tet4SkewCoords ((1 : ℚ) / 4, (1 : ℚ) / 4, (1 : ℚ) / 4))
        (0, 0, 0) 5 ((1 : ℚ) / 100) 1
      = (true, ((1 : ℚ) / 4, (1 : ℚ) / 4, (1 : ℚ) / 4)) ∧
    isoparameteric_coordinates_for_point_2d tri3Basis cramer22 tri3Coords
        (forward_map tri3Basis tri3Coords ((1 : ℚ) / 4, (1 : ℚ) / 2))
        (0, 0) 5 ((1 : ℚ) / 100) 1
      = (true, ((1 : ℚ) / 4, (1 : ℚ) / 2)) :=
  ⟨(@point_location_round_trip ℚ _).1 tet4Basis cramer33 tet4SkewCoords tet4SkewJacobian
      (1, 0, 0) ((1 : ℚ) / 4, (1 : ℚ) / 4, (1 : ℚ) / 4) (0, 0, 0) 5 ((1 : ℚ) / 100) 1
      tet4Skew_affine (by norm_num [det33, tet4SkewJacobian])
      (fun A b h => cramer33_exact A b h) (by norm_num) (by norm_num)
      (by norm_num [vecnorm_sq3]),
    (@point_location_round_trip ℚ _).2 tri3Basis cramer22 tri3Coords tri3Jacobian
      (1, 0) ((1 : ℚ) / 4, (1 : ℚ) / 2) (0, 0) 5 ((1 : ℚ) / 100) 1
      tri3_affine (by norm_num [det22, tri3Jacobian])
      (fun A b h => cramer22_exact A b h) (by norm_num) (by norm_num)
      (by norm_num [vecnorm_sq2])⟩

end PointLocationProofs

/-! ## Scalar mass kernel -/

section ScalarMassArrays

variable {K : Type}

theorem setAt_below (f old : Nat → K) (n : Nat) :
    setAt (fun ic => if ic < n then f ic else old ic) n (f n)
      = fun ic => if ic < n + 1 then f ic else old ic := by
  funext ic
  simp only [setAt]
  by_cases h : ic = n
  · subst h; simp
  · by_cases h2 : ic < n
    · have h3 : ic < n + 1 := by omega
      simp [h, h2, h3]
    · have h3 : ¬ ic < n + 1 := by omega
      simp [h, h2, h3]

/-- The coordinate loop of the gather writes `ws_coordinates_` only. -/
theorem coordLoop_eq (self : ScalarMassElemSuppAlgDep K) (m niNdim : Nat) (coords : Nat → K) :
    ∃ c : Nat → K,
      forLoop m (fun i (t : ScalarMassElemSuppAlgDep K) =>
          { t with ws_coordinates_ := setAt t.ws_coordinates_ (niNdim + i) (coords i) }) self
        = { self with ws_coordinates_ := c } := by
  induction m with
  | zero => exact ⟨self.ws_coordinates_, rfl⟩
  | succ m ih =>
    obtain ⟨c, hc⟩ := ih
    refine ⟨setAt c (niNdim + m) (coords m), ?_⟩
    rw [forLoop_succ, hc]

/-- The gather leaves in each scratch array the field values of the element's nodes and
changes no other member than the scratch arrays it stores to. -/
theorem gather_eq (self : ScalarMassElemSuppAlgDep K) (node_rels : Nat → Entity) (n : Nat) :
    ∃ c : Nat → K,
      self.gather node_rels n =
        { self with
          ws_qNm1_ := fun ic => if ic < n then self.scalarQNm1_ (node_rels ic) else self.ws_qNm1_ ic
          ws_qN_ := fun ic => if ic < n then self.scalarQN_ (node_rels ic) else self.ws_qN_ ic
          ws_qNp1_ := fun ic => if ic < n then self.scalarQNp1_ (node_rels ic) else self.ws_qNp1_ ic
          ws_rhoNm1_ := fun ic =>
            if ic < n then self.densityNm1_ (node_rels ic) else self.ws_rhoNm1_ ic
          ws_rhoN_ := fun ic => if ic < n then self.densityN_ (node_rels ic) else self.ws_rhoN_ ic
          ws_rhoNp1_ := fun ic =>
            if ic < n then self.densityNp1_ (node_rels ic) else self.ws_rhoNp1_ ic
          ws_coordinates_ := c } := by
  induction n with
  | zero =>
    refine ⟨self.ws_coordinates_, ?_⟩
    cases self
    simp [ScalarMassElemSuppAlgDep.gather]
  | succ n ih =>
    obtain ⟨c, hc⟩ := ih
    have hstep : self.gather node_rels (n + 1) =
        forLoop (self.gather node_rels n).nDim_
          (fun i (t : ScalarMassElemSuppAlgDep K) =>
            { t with ws_coordinates_ := (setAt t.ws_coordinates_
                (n * (self.gather node_rels n).nDim_ + i)
                ((self.gather node_rels n).coordinates_ (node_rels n) i)) })
          { self.gather node_rels n with
            ws_qNm1_ := (setAt (self.gather node_rels n).ws_qNm1_ n
              ((self.gather node_rels n).scalarQNm1_ (node_rels n)))
            ws_qN_ := (setAt (self.gather node_rels n).ws_qN_ n
              ((self.gather node_rels n).scalarQN_ (node_rels n)))
            ws_qNp1_ := (setAt (self.gather node_rels n).ws_qNp1_ n
              ((self.gather node_rels n).scalarQNp1_ (node_rels n)))
            ws_rhoNm1_ := (setAt (self.gather node_rels n).ws_rhoNm1_ n
              ((self.gather node_rels n).densityNm1_ (node_rels n)))
            ws_rhoN_ := (setAt (self.gather node_rels n).ws_rhoN_ n
              ((self.gather node_rels n).densityN_ (node_rels n)))
            ws_rhoNp1_ := (setAt (self.gather node_rels n).ws_rhoNp1_ n
              ((self.gather node_rels n).densityNp1_ (node_rels n))) } := rfl
    obtain ⟨c2, hc2⟩ := coordLoop_eq
      { self.gather node_rels n with
            ws_qNm1_ := (setAt (self.gather node_rels n).ws_qNm1_ n
              ((self.gather node_rels n).scalarQNm1_ (node_rels n)))
            ws_qN_ := (setAt (self.gather node_rels n).ws_qN_ n
              ((self.gather node_rels n).scalarQN_ (node_rels n)))
            ws_qNp1_ := (setAt (self.gather node_rels n).ws_qNp1_ n
              ((self.gather node_rels n).scalarQNp1_ (node_rels n)))
            ws_rhoNm1_ := (setAt (self.gather node_rels n).ws_rhoNm1_ n
              ((self.gather node_rels n).densityNm1_ (node_rels n)))
            ws_rhoN_ := (setAt (self.gather node_rels n).ws_rhoN_ n
              ((self.gather node_rels n).densityN_ (node_rels n)))
            ws_rhoNp1_ := (setAt (self.gather node_rels n).ws_rhoNp1_ n
              ((self.gather node_rels n).densityNp1_ (node_rels n))) }
      (self.gather node_rels n).nDim_ (n * (self.gather node_rels n).nDim_)
      ((self.gather node_rels n).coordinates_ (node_rels n))
    refine ⟨c2, ?_⟩
    rw [hstep, hc2, hc]
    simp only [setAt_below (fun ic => self.scalarQNm1_ (node_rels ic)),
      setAt_below (fun ic => self.scalarQN_ (node_rels ic)),
      setAt_below (fun ic => self.scalarQNp1_ (node_rels ic)),
      setAt_below (fun ic => self.densityNm1_ (node_rels ic)),
      setAt_below (fun ic => self.densityN_ (node_rels ic)),
      setAt_below (fun ic => self.densityNp1_ (node_rels ic))]

end ScalarMassArrays

section ScalarMassProofs

variable {K : Type} [LinearOrderedField K]

theorem forLoop_acc_sum (m : Nat) (f : Nat → K) (s : K) :
    forLoop m (fun j acc => acc + f j) s = s + ∑ j ∈ Finset.range m, f j := by
  induction m with
  | zero => simp
  | succ m ih => rw [forLoop_succ, ih, Finset.sum_range_succ, add_assoc]

theorem forLoop_addAt (m : Nat) (idx : Nat → Nat) (v : Nat → K) (a : Nat → K) (x : Nat) :
    forLoop m (fun j a => addAt a (idx j) (v j)) a x
      = a x + ∑ j ∈ Finset.range m, if idx j = x then v j else 0 := by
  induction m with
  | zero => simp
  | succ m ih =>
    rw [forLoop_succ, Finset.sum_range_succ, ← add_assoc, ← ih]
    simp only [addAt]
    by_cases h : x = idx m
    · simp [h]
    · have h' : ¬ idx m = x := fun e => h e.symm
      simp [h, h']

theorem forLoop_pair {α β : Type} (m : Nat) (f : Nat → α → α) (g : Nat → β → β) (a : α) (b : β) :
    forLoop m (fun i (p : α × β) => (f i p.1, g i p.2)) (a, b)
      = (forLoop m f a, forLoop m g b) := by
  induction m with
  | zero => rfl
  | succ m ih => rw [forLoop_succ, ih]; rfl

end ScalarMassProofs

section ScalarMassClosedForm

variable {K : Type} [LinearOrderedField K]

theorem forLoop_additive (m : Nat) (G : Nat → (Nat → K) → (Nat → K)) (d : Nat → Nat → K)
    (hG : ∀ ip a x, G ip a x = a x + d ip x) (a : Nat → K) (x : Nat) :
    forLoop m G a x = a x + ∑ ip ∈ Finset.range m, d ip x := by
  induction m with
  | zero => simp
  | succ m ih => rw [forLoop_succ, hG, ih, Finset.sum_range_succ, add_assoc]

theorem shapeSum_congr (N a b : Nat → K) (npe ip : Nat) (h : ∀ ic, ic < npe → a ic = b ic) :
    shapeSum N npe ip a = shapeSum N npe ip b := by
  unfold shapeSum
  apply Finset.sum_congr rfl
  intro ic hic
  rw [h ic (Finset.mem_range.mp hic)]

/-- The interpolation loop computes the six shape-function-weighted sums. -/
theorem interpolate_eq (self : ScalarMassElemSuppAlgDep K) (npe ip : Nat) :
    self.interpolate npe ip =
      { qNm1Scv := shapeSum self.ws_shape_function_ npe ip self.ws_qNm1_
        qNScv := shapeSum self.ws_shape_function_ npe ip self.ws_qN_
        qNp1Scv := shapeSum self.ws_shape_function_ npe ip self.ws_qNp1_
        rhoNm1Scv := shapeSum self.ws_shape_function_ npe ip self.ws_rhoNm1_
        rhoNScv := shapeSum self.ws_shape_function_ npe ip self.ws_rhoN_
        rhoNp1Scv := shapeSum self.ws_shape_function_ npe ip self.ws_rhoNp1_ } := by
  have key : ∀ m : Nat,
      forLoop m (fun ic (v : ScvValues K) =>
        ({ qNm1Scv := v.qNm1Scv + self.ws_shape_function_ (ip * npe + ic) * self.ws_qNm1_ ic
           qNScv := v.qNScv + self.ws_shape_function_ (ip * npe + ic) * self.ws_qN_ ic
           qNp1Scv := v.qNp1Scv + self.ws_shape_function_ (ip * npe + ic) * self.ws_qNp1_ ic
           rhoNm1Scv := v.rhoNm1Scv + self.ws_shape_function_ (ip * npe + ic) * self.ws_rhoNm1_ ic
           rhoNScv := v.rhoNScv + self.ws_shape_function_ (ip * npe + ic) * self.ws_rhoN_ ic
           rhoNp1Scv := v.rhoNp1Scv + self.ws_shape_function_ (ip * npe + ic) * self.ws_rhoNp1_ ic }
          : ScvValues K))
        { qNm1Scv := 0, qNScv := 0, qNp1Scv := 0, rhoNm1Scv := 0, rhoNScv := 0, rhoNp1Scv := 0 }
      = { qNm1Scv := ∑ ic ∈ Finset.range m, self.ws_shape_function_ (ip * npe + ic) * self.ws_qNm1_ ic
          qNScv := ∑ ic ∈ Finset.range m, self.ws_shape_function_ (ip * npe + ic) * self.ws_qN_ ic
          qNp1Scv := ∑ ic ∈ Finset.range m, self.ws_shape_function_ (ip * npe + ic) * self.ws_qNp1_ ic
          rhoNm1Scv :=
            ∑ ic ∈ Finset.range m, self.ws_shape_function_ (ip * npe + ic) * self.ws_rhoNm1_ ic
          rhoNScv :=
            ∑ ic ∈ Finset.range m, self.ws_shape_function_ (ip * npe + ic) * self.ws_rhoN_ ic
          rhoNp1Scv :=
            ∑ ic ∈ Finset.range m, self.ws_shape_function_ (ip * npe + ic) * self.ws_rhoNp1_ ic } := by
    intro m
    induction m with
    | zero => simp
    | succ m ih => rw [forLoop_succ, ih]; simp only [Finset.sum_range_succ]
  exact key npe

/-- The right-hand side after `m` integration points, in terms of the kernel's scratch arrays. -/
theorem assemble_loop_rhs (s : ScalarMassElemSuppAlgDep K) (me : MasterElement K) (m : Nat)
    (lhs rhs : Nat → K) (x : Nat) :
    (forLoop m (s.assemble_ip me) (lhs, rhs)).2 x
      = rhs x + ∑ ip ∈ Finset.range m,
          if me.ipNodeMap ip = x then
            -(s.gamma1_ * (s.interpolate me.nodesPerElement_ ip).rhoNp1Scv
                  * (s.interpolate me.nodesPerElement_ ip).qNp1Scv
                + s.gamma2_ * (s.interpolate me.nodesPerElement_ ip).rhoNScv
                  * (s.interpolate me.nodesPerElement_ ip).qNScv
                + s.gamma3_ * (s.interpolate me.nodesPerElement_ ip).rhoNm1Scv
                  * (s.interpolate me.nodesPerElement_ ip).qNm1Scv)
              * s.ws_scv_volume_ ip / s.dt_
          else 0 := by
  have hpair : forLoop m (s.assemble_ip me) (lhs, rhs)
      = (forLoop m (fun ip (lhs : Nat → K) => forLoop me.nodesPerElement_ (fun ic lhs =>
          addAt lhs (me.ipNodeMap ip * me.nodesPerElement_ + ic)
            (s.ws_shape_function_ (ip * me.nodesPerElement_ + ic) * s.gamma1_
              * (s.interpolate me.nodesPerElement_ ip).rhoNp1Scv
              * s.ws_scv_volume_ ip / s.dt_)) lhs) lhs,
         forLoop m (fun ip (rhs : Nat → K) => addAt rhs (me.ipNodeMap ip)
          (-(s.gamma1_ * (s.interpolate me.nodesPerElement_ ip).rhoNp1Scv
                  * (s.interpolate me.nodesPerElement_ ip).qNp1Scv
                + s.gamma2_ * (s.interpolate me.nodesPerElement_ ip).rhoNScv
                  * (s.interpolate me.nodesPerElement_ ip).qNScv
                + s.gamma3_ * (s.interpolate me.nodesPerElement_ ip).rhoNm1Scv
                  * (s.interpolate me.nodesPerElement_ ip).qNm1Scv)
              * s.ws_scv_volume_ ip / s.dt_)) rhs) :=
    forLoop_pair m
      (fun ip (lhs : Nat → K) => forLoop me.nodesPerElement_ (fun ic lhs =>
          addAt lhs (me.ipNodeMap ip * me.nodesPerElement_ + ic)
            (s.ws_shape_function_ (ip * me.nodesPerElement_ + ic) * s.gamma1_
              * (s.interpolate me.nodesPerElement_ ip).rhoNp1Scv
              * s.ws_scv_volume_ ip / s.dt_)) lhs)
      (fun ip (rhs : Nat → K) => addAt rhs (me.ipNodeMap ip)
          (-(s.gamma1_ * (s.interpolate me.nodesPerElement_ ip).rhoNp1Scv
                  * (s.interpolate me.nodesPerElement_ ip).qNp1Scv
                + s.gamma2_ * (s.interpolate me.nodesPerElement_ ip).rhoNScv
                  * (s.interpolate me.nodesPerElement_ ip).qNScv
                + s.gamma3_ * (s.interpolate me.nodesPerElement_ ip).rhoNm1Scv
                  * (s.interpolate me.nodesPerElement_ ip).qNm1Scv)
              * s.ws_scv_volume_ ip / s.dt_)) lhs rhs
  rw [hpair]
  exact forLoop_addAt m _ _ rhs x

/-- The left-hand side after `m` integration points, in terms of the kernel's scratch arrays. -/
theorem assemble_loop_lhs (s : ScalarMassElemSuppAlgDep K) (me : MasterElement K) (m : Nat)
    (lhs rhs : Nat → K) (x : Nat) :
    (forLoop m (s.assemble_ip me) (lhs, rhs)).1 x
      = lhs x + ∑ ip ∈ Finset.range m, ∑ ic ∈ Finset.range me.nodesPerElement_,
          if me.ipNodeMap ip * me.nodesPerElement_ + ic = x then
            s.ws_shape_function_ (ip * me.nodesPerElement_ + ic) * s.gamma1_
              * (s.interpolate me.nodesPerElement_ ip).rhoNp1Scv
              * s.ws_scv_volume_ ip / s.dt_
          else 0 := by
  have hpair : forLoop m (s.assemble_ip me) (lhs, rhs)
      = (forLoop m (fun ip (lhs : Nat → K) => forLoop me.nodesPerElement_ (fun ic lhs =>
          addAt lhs (me.ipNodeMap ip * me.nodesPerElement_ + ic)
            (s.ws_shape_function_ (ip * me.nodesPerElement_ + ic) * s.gamma1_
              * (s.interpolate me.nodesPerElement_ ip).rhoNp1Scv
              * s.ws_scv_volume_ ip / s.dt_)) lhs) lhs,
         forLoop m (fun ip (rhs : Nat → K) => addAt rhs (me.ipNodeMap ip)
          (-(s.gamma1_ * (s.interpolate me.nodesPerElement_ ip).rhoNp1Scv
                  * (s.interpolate me.nodesPerElement_ ip).qNp1Scv
                + s.gamma2_ * (s.interpolate me.nodesPerElement_ ip).rhoNScv
                  * (s.interpolate me.nodesPerElement_ ip).qNScv
                + s.gamma3_ * (s.interpolate me.nodesPerElement_ ip).rhoNm1Scv
                  * (s.interpolate me.nodesPerElement_ ip).qNm1Scv)
              * s.ws_scv_volume_ ip / s.dt_)) rhs) :=
    forLoop_pair m
      (fun ip (lhs : Nat → K) => forLoop me.nodesPerElement_ (fun ic lhs =>
          addAt lhs (me.ipNodeMap ip * me.nodesPerElement_ + ic)
            (s.ws_shape_function_ (ip * me.nodesPerElement_ + ic) * s.gamma1_
              * (s.interpolate me.nodesPerElement_ ip).rhoNp1Scv
              * s.ws_scv_volume_ ip / s.dt_)) lhs)
      (fun ip (rhs : Nat → K) => addAt rhs (me.ipNodeMap ip)
          (-(s.gamma1_ * (s.interpolate me.nodesPerElement_ ip).rhoNp1Scv
                  * (s.interpolate me.nodesPerElement_ ip).qNp1Scv
                + s.gamma2_ * (s.interpolate me.nodesPerElement_ ip).rhoNScv
                  * (s.interpolate me.nodesPerElement_ ip).qNScv
                + s.gamma3_ * (s.interpolate me.nodesPerElement_ ip).rhoNm1Scv
                  * (s.interpolate me.nodesPerElement_ ip).qNm1Scv)
              * s.ws_scv_volume_ ip / s.dt_)) lhs rhs
  rw [hpair]
  apply forLoop_additive
  intro ip a y
  exact forLoop_addAt me.nodesPerElement_ _ _ a y

/-- When the node counts agree, `elem_execute` gathers, calls the geometry routine and runs the
integration-point loop. -/
theorem elem_execute_of_eq (self : ScalarMassElemSuppAlgDep K) (lhs rhs : Nat → K)
    (element : Entity) (me : MasterElement K)
    (h : self.bulkData_.num_nodes element = me.nodesPerElement_) :
    self.elem_execute lhs rhs element me =
      { thrown := false
        kernel := { self.gather (self.bulkData_.begin_nodes element) me.nodesPerElement_ with
          ws_scv_volume_ := self.scvVolume element me }
        lhs := (forLoop me.num_integration_points
          (ScalarMassElemSuppAlgDep.assemble_ip
            { self.gather (self.bulkData_.begin_nodes element) me.nodesPerElement_ with
              ws_scv_volume_ := self.scvVolume element me } me) (lhs, rhs)).1
        rhs := (forLoop me.num_integration_points
          (ScalarMassElemSuppAlgDep.assemble_ip
            { self.gather (self.bulkData_.begin_nodes element) me.nodesPerElement_ with
              ws_scv_volume_ := self.scvVolume element me } me) (lhs, rhs)).2 } := by
  simp [ScalarMassElemSuppAlgDep.elem_execute, ScalarMassElemSuppAlgDep.scvVolume, ThrowAssert, h]

/-- The interpolated values of the kernel after the gather are the shape-function-weighted sums
of the gathered nodal values. -/
theorem interpolate_gathered (self : ScalarMassElemSuppAlgDep K) (element : Entity)
    (me : MasterElement K) (V : Nat → K) (ip : Nat) :
    ScalarMassElemSuppAlgDep.interpolate
        { self.gather (self.bulkData_.begin_nodes element) me.nodesPerElement_ with
          ws_scv_volume_ := V } me.nodesPerElement_ ip
      = { qNm1Scv := shapeSum self.ws_shape_function_ me.nodesPerElement_ ip
            (self.gathered element self.scalarQNm1_)
          qNScv := shapeSum self.ws_shape_function_ me.nodesPerElement_ ip
            (self.gathered element self.scalarQN_)
          qNp1Scv := shapeSum self.ws_shape_function_ me.nodesPerElement_ ip
            (self.gathered element self.scalarQNp1_)
          rhoNm1Scv := shapeSum self.ws_shape_function_ me.nodesPerElement_ ip
            (self.gathered element self.densityNm1_)
          rhoNScv := shapeSum self.ws_shape_function_ me.nodesPerElement_ ip
            (self.gathered element self.densityN_)
          rhoNp1Scv := shapeSum self.ws_shape_function_ me.nodesPerElement_ ip
            (self.gathered element self.densityNp1_) } := by
  obtain ⟨c, hc⟩ := gather_eq self (self.bulkData_.begin_nodes element) me.nodesPerElement_
  rw [interpolate_eq, hc]
  simp only [ScvValues.mk.injEq]
  refine ⟨?_, ?_, ?_, ?_, ?_, ?_⟩ <;>
    · apply shapeSum_congr
      intro ic hic
      simp only [hic, if_true, ScalarMassElemSuppAlgDep.gathered]

/-- Closed form of the right-hand side left by `elem_execute`. -/
theorem elem_execute_rhs (self : ScalarMassElemSuppAlgDep K) (lhs rhs : Nat → K)
    (element : Entity) (me : MasterElement K)
    (h : self.bulkData_.num_nodes element = me.nodesPerElement_) (x : Nat) :
    (self.elem_execute lhs rhs element me).rhs x
      = rhs x + ∑ ip ∈ Finset.range me.num_integration_points,
          if me.ipNodeMap ip = x then -(self.massTerm element me ip) else 0 := by
  obtain ⟨c, hc⟩ := gather_eq self (self.bulkData_.begin_nodes element) me.nodesPerElement_
  rw [elem_execute_of_eq self lhs rhs element me h]
  simp only []
  rw [assemble_loop_rhs]
  congr 1
  apply Finset.sum_congr rfl
  intro ip _
  rw [interpolate_gathered]
  simp only [ScalarMassElemSuppAlgDep.massTerm, hc]
  split_ifs
  · ring
  · rfl

/-- Closed form of the left-hand side left by `elem_execute`. -/
theorem elem_execute_lhs (self : ScalarMassElemSuppAlgDep K) (lhs rhs : Nat → K)
    (element : Entity) (me : MasterElement K)
    (h : self.bulkData_.num_nodes element = me.nodesPerElement_) (x : Nat) :
    (self.elem_execute lhs rhs element me).lhs x
      = lhs x + ∑ ip ∈ Finset.range me.num_integration_points,
          ∑ ic ∈ Finset.range me.nodesPerElement_,
            if me.ipNodeMap ip * me.nodesPerElement_ + ic = x then self.jacTerm element me ip ic
            else 0 := by
  obtain ⟨c, hc⟩ := gather_eq self (self.bulkData_.begin_nodes element) me.nodesPerElement_
  rw [elem_execute_of_eq self lhs rhs element me h]
  simp only []
  rw [assemble_loop_lhs]
  congr 1
  apply Finset.sum_congr rfl
  intro ip _
  apply Finset.sum_congr rfl
  intro ic _
  rw [interpolate_gathered]
  simp only [ScalarMassElemSuppAlgDep.jacTerm, hc]

end ScalarMassClosedForm

section ScalarMassClaims

variable {K : Type} [LinearOrderedField K]

/-- Claim C4: when the node counts agree, `elem_execute` adds to `rhs[n]`, for every node `n`,
exactly minus the sum over the integration points `ip` with `ipNodeMap[ip] = n` of
`(gamma1*rhoNp1(ip)*qNp1(ip) + gamma2*rhoN(ip)*qN(ip) + gamma3*rhoNm1(ip)*qNm1(ip))*V(ip)/dt`,
where each `rho(ip)`, `q(ip)` is the shape-function-weighted sum of the gathered nodal values
and `V(ip)` is the volume returned by the determinant routine. -/
theorem rhs_negative_mass_term (self : ScalarMassElemSuppAlgDep K) (lhs rhs : Nat → K)
    (element : Entity) (meSCV : MasterElement K)
    (h : self.bulkData_.num_nodes element = meSCV.nodesPerElement_) (n : Nat) :
    (self.elem_execute lhs rhs element meSCV).rhs n
      = rhs n + -(∑ ip ∈ ipsOfNode meSCV n,
          (self.gamma1_
              * shapeSum self.ws_shape_function_ meSCV.nodesPerElement_ ip
                  (self.gathered element self.densityNp1_)
              * shapeSum self.ws_shape_function_ meSCV.nodesPerElement_ ip
                  (self.gathered element self.scalarQNp1_)
            + self.gamma2_
              * shapeSum self.ws_shape_function_ meSCV.nodesPerElement_ ip
                  (self.gathered element self.densityN_)
              * shapeSum self.ws_shape_function_ meSCV.nodesPerElement_ ip
                  (self.gathered element self.scalarQN_)
            + self.gamma3_
              * shapeSum self.ws_shape_function_ meSCV.nodesPerElement_ ip
                  (self.gathered element self.densityNm1_)
              * shapeSum self.ws_shape_function_ meSCV.nodesPerElement_ ip
                  (self.gathered element self.scalarQNm1_))
            * self.scvVolume element meSCV ip / self.dt_) := by
  rw [elem_execute_rhs self lhs rhs element meSCV h, ipsOfNode, Finset.sum_filter,
    ← Finset.sum_neg_distrib]
  congr 1
  apply Finset.sum_congr rfl
  intro ip _
  split_ifs
  · rfl
  · simp

/-- Claim C4 exercised on the first element of the line mesh with BDF2 coefficients: the
residual of node 0 is `-55/8`. -/
theorem rhs_negative_mass_term_witness :
    ((lineKernel 3 (3 / 2) (-2) (1 / 2) 2
        (stateField (fun _ => 1) (fun _ => 2) (fun k => 3 + k))
        (stateField (fun k => k) (fun _ => 1) (fun k => 2 * k + 1)) false).elem_execute
      (fun _ => 0) (fun _ => 0) 0 (lineElement 0)).rhs 0 = -(55 / 8 : ℚ) := by
  rw [rhs_negative_mass_term _ _ _ _ _ rfl 0]
  have hips : ipsOfNode (lineElement 0) 0 = {0} := by decide
  rw [hips]
  norm_num [shapeSum, Finset.sum_range_succ, ScalarMassElemSuppAlgDep.gathered,
    ScalarMassElemSuppAlgDep.scvVolume, ScalarMassElemSuppAlgDep.gather, forLoop, setAt,
    lineKernel, lineRealm, lineElement, stateField, ScalarMassElemSuppAlgDep.ctor,
    ScalarMassElemSuppAlgDep.elem_resize, ScalarMassElemSuppAlgDep.setup]

end ScalarMassClaims

section ScalarMassClaims2

variable {K : Type} [LinearOrderedField K]

/-- A weighted sum of a constant nodal value over a row that sums to one is that constant. -/
theorem shapeSum_const (N value : Nat → K) (npe ip : Nat) (c : K)
    (hv : ∀ ic, ic < npe → value ic = c)
    (hN : ∑ ic ∈ Finset.range npe, N (ip * npe + ic) = 1) :
    shapeSum N npe ip value = c := by
  have h1 : shapeSum N npe ip value = ∑ ic ∈ Finset.range npe, N (ip * npe + ic) * c := by
    unfold shapeSum
    apply Finset.sum_congr rfl
    intro ic hic
    rw [hv ic (Finset.mem_range.mp hic)]
  rw [h1, ← Finset.sum_mul, hN, one_mul]

/-- Claim C5: started on zeroed `lhs` and `rhs` with `gamma2 = 1`, `gamma1 = gamma3 = 0`,
`dt ≠ 0`, every gathered density equal to 1, every gathered scalar equal to `c` and every
integration-point row of the shape-function table summing to 1, `elem_execute` leaves
`rhs[n] = -c * (sum of V(ip) over the ip with ipNodeMap[ip] = n) / dt` for every node `n` and
every entry of `lhs` equal to 0. -/
theorem constant_state_residual (self : ScalarMassElemSuppAlgDep K) (element : Entity)
    (meSCV : MasterElement K) (c : K)
    (h : self.bulkData_.num_nodes element = meSCV.nodesPerElement_)
    (hg1 : self.gamma1_ = 0) (hg2 : self.gamma2_ = 1) (hg3 : self.gamma3_ = 0)
    (_hdt : self.dt_ ≠ 0)
    (hrho : ∀ ic, ic < meSCV.nodesPerElement_ →
      self.gathered element self.densityNm1_ ic = 1 ∧
      self.gathered element self.densityN_ ic = 1 ∧
      self.gathered element self.densityNp1_ ic = 1)
    (hq : ∀ ic, ic < meSCV.nodesPerElement_ →
      self.gathered element self.scalarQNm1_ ic = c ∧
      self.gathered element self.scalarQN_ ic = c ∧
      self.gathered element self.scalarQNp1_ ic = c)
    (hN : ∀ ip, ip < meSCV.num_integration_points →
      ∑ ic ∈ Finset.range meSCV.nodesPerElement_,
        self.ws_shape_function_ (ip * meSCV.nodesPerElement_ + ic) = 1) :
    (∀ n, (self.elem_execute (fun _ => 0) (fun _ => 0) element meSCV).rhs n
        = -c * (∑ ip ∈ ipsOfNode meSCV n, self.scvVolume element meSCV ip) / self.dt_) ∧
    (∀ m, (self.elem_execute (fun _ => 0) (fun _ => 0) element meSCV).lhs m = 0) := by
  constructor
  · intro n
    rw [elem_execute_rhs self _ _ element meSCV h, ipsOfNode, Finset.sum_filter, zero_add,
      Finset.mul_sum, Finset.sum_div]
    apply Finset.sum_congr rfl
    intro ip hip
    have hip' := Finset.mem_range.mp hip
    split_ifs
    · simp only [ScalarMassElemSuppAlgDep.massTerm, hg1, hg2, hg3]
      rw [shapeSum_const _ _ _ _ 1 (fun ic hic => (hrho ic hic).2.1) (hN ip hip'),
        shapeSum_const _ _ _ _ c (fun ic hic => (hq ic hic).2.1) (hN ip hip')]
      ring
    · simp
  · intro m
    rw [elem_execute_lhs self _ _ element meSCV h, zero_add]
    apply Finset.sum_eq_zero
    intro ip _
    apply Finset.sum_eq_zero
    intro ic _
    simp [ScalarMassElemSuppAlgDep.jacTerm, hg1]

/-- Claim C5 exercised on the line mesh with unit density and scalar value 7: the hypotheses
hold and the theorem gives the residual and the zero Jacobian. -/
theorem constant_state_residual_witness :
    (∀ n, ((lineKernel 2 0 1 0 2 (stateField (fun _ => 1) (fun _ => 1) (fun _ => 1))
          (stateField (fun _ => 7) (fun _ => 7) (fun _ => 7)) false).elem_execute
        (fun _ => 0) (fun _ => 0) 0 (lineElement 0)).rhs n
      = -7 * (∑ ip ∈ ipsOfNode (lineElement 0) n,
          (lineKernel 2 0 1 0 2 (stateField (fun _ => 1) (fun _ => 1) (fun _ => 1))
            (stateField (fun _ => 7) (fun _ => 7) (fun _ => 7)) false).scvVolume 0
              (lineElement 0) ip) / (1 / 2)) ∧
    (∀ m, ((lineKernel 2 0 1 0 2 (stateField (fun _ => 1) (fun _ => 1) (fun _ => 1))
          (stateField (fun _ => 7) (fun _ => 7) (fun _ => 7)) false).elem_execute
        (fun _ => 0) (fun _ => 0) 0 (lineElement 0)).lhs m = 0) :=
  constant_state_residual
    (lineKernel 2 0 1 0 2 (stateField (fun _ => 1) (fun _ => 1) (fun _ => 1))
      (stateField (fun _ => 7) (fun _ => 7) (fun _ => 7)) false) 0 (lineElement 0) 7
    rfl rfl rfl rfl
    (by norm_num [lineKernel, lineRealm, ScalarMassElemSuppAlgDep.setup])
    (by
      intro ic _
      simp [ScalarMassElemSuppAlgDep.gathered, lineKernel, lineRealm, stateField,
        ScalarMassElemSuppAlgDep.ctor, ScalarMassElemSuppAlgDep.elem_resize,
        ScalarMassElemSuppAlgDep.setup])
    (by
      intro ic _
      simp [ScalarMassElemSuppAlgDep.gathered, lineKernel, lineRealm, stateField,
        ScalarMassElemSuppAlgDep.ctor, ScalarMassElemSuppAlgDep.elem_resize,
        ScalarMassElemSuppAlgDep.setup])
    (by
      intro ip hip
      have hip2 : ip < 2 := hip
      interval_cases ip <;>
        norm_num [Finset.sum_range_succ, lineKernel, lineElement,
          ScalarMassElemSuppAlgDep.ctor, ScalarMassElemSuppAlgDep.elem_resize,
          ScalarMassElemSuppAlgDep.setup])

/-- Claim C6 refuted as stated: on an inverted line element (negative sub-control volumes) for
which the geometry routine reports the error code 1, `elem_execute` does not throw and leaves
exactly the `lhs`, `rhs` and scratch arrays it leaves when the routine reports 0. -/
theorem degenerate_element_same_result :
    ((lineElement 1).determinant 1
        ((lineKernel 3 (3 / 2) (-2) (1 / 2) (-2)
          (stateField (fun _ => 1) (fun _ => 2) (fun k => 3 + k))
          (stateField (fun k => k) (fun _ => 1) (fun k => 2 * k + 1)) false).gather
          (fun ni => 0 + ni) 2).ws_coordinates_).2 ≠ 0 ∧
    ((lineElement 0).determinant 1
        ((lineKernel 3 (3 / 2) (-2) (1 / 2) (-2)
          (stateField (fun _ => 1) (fun _ => 2) (fun k => 3 + k))
          (stateField (fun k => k) (fun _ => 1) (fun k => 2 * k + 1)) false).gather
          (fun ni => 0 + ni) 2).ws_coordinates_).2 = 0 ∧
    (lineKernel 3 (3 / 2) (-2) (1 / 2) (-2)
        (stateField (fun _ => 1) (fun _ => 2) (fun k => 3 + k))
        (stateField (fun k => k) (fun _ => 1) (fun k => 2 * k + 1)) false).scvVolume 0
        (lineElement 1) 0 = -1 ∧
    (lineKernel 3 (3 / 2) (-2) (1 / 2) (-2)
        (stateField (fun _ => 1) (fun _ => 2) (fun k => 3 + k))
        (stateField (fun k => k) (fun _ => 1) (fun k => 2 * k + 1)) false).elem_execute
        (fun _ => 0) (fun _ => 0) 0 (lineElement 1)
      = (lineKernel 3 (3 / 2) (-2) (1 / 2) (-2)
        (stateField (fun _ => 1) (fun _ => 2) (fun k => 3 + k))
        (stateField (fun k => k) (fun _ => 1) (fun k => 2 * k + 1)) false).elem_execute
        (fun _ => 0) (fun _ => 0) 0 (lineElement 0) := by
  refine ⟨?_, ?_, ?_, rfl⟩
  · norm_num [lineElement]
  · norm_num [lineElement]
  · norm_num [ScalarMassElemSuppAlgDep.scvVolume, ScalarMassElemSuppAlgDep.gather, forLoop, setAt,
      lineKernel, lineRealm, lineElement, stateField, ScalarMassElemSuppAlgDep.ctor,
      ScalarMassElemSuppAlgDep.elem_resize, ScalarMassElemSuppAlgDep.setup]

/-- The body of the integration-point loop reads the master element only through `ipNodeMap`
and `nodesPerElement_`. -/
theorem assemble_ip_congr (s : ScalarMassElemSuppAlgDep K) (me1 me2 : MasterElement K)
    (hmap : me1.ipNodeMap = me2.ipNodeMap)
    (hnpe : me1.nodesPerElement_ = me2.nodesPerElement_) :
    s.assemble_ip me1 = s.assemble_ip me2 := by
  funext ip out
  simp only [ScalarMassElemSuppAlgDep.assemble_ip, hmap, hnpe]

/-- Claim C6 as amended: `elem_execute` does not surface the error code of the determinant
routine. Its result (thrown flag, scratch arrays, `lhs`, `rhs`) depends on the routine only
through the volumes it returns: two master elements with the same topology data that return the
same volumes for the gathered coordinates give the same result, whatever error codes they
report. -/
theorem scv_error_never_read (self : ScalarMassElemSuppAlgDep K) (lhs rhs : Nat → K)
    (element : Entity) (me1 me2 : MasterElement K)
    (hmap : me1.ipNodeMap = me2.ipNodeMap)
    (hnpe : me1.nodesPerElement_ = me2.nodesPerElement_)
    (hnip : me1.num_integration_points = me2.num_integration_points)
    (hvol : (me1.determinant 1
        (self.gather (self.bulkData_.begin_nodes element)
          (self.bulkData_.num_nodes element)).ws_coordinates_).1
      = (me2.determinant 1
        (self.gather (self.bulkData_.begin_nodes element)
          (self.bulkData_.num_nodes element)).ws_coordinates_).1) :
    self.elem_execute lhs rhs element me1 = self.elem_execute lhs rhs element me2 := by
  by_cases h : self.bulkData_.num_nodes element = me2.nodesPerElement_
  · have h1 : self.bulkData_.num_nodes element = me1.nodesPerElement_ := by rw [hnpe]; exact h
    rw [elem_execute_of_eq self lhs rhs element me1 h1,
      elem_execute_of_eq self lhs rhs element me2 h]
    have hV : self.scvVolume element me1 = self.scvVolume element me2 := hvol
    rw [hV, hnpe, hnip, assemble_ip_congr _ me1 me2 hmap hnpe]
  · have h1 : ¬ self.bulkData_.num_nodes element = me1.nodesPerElement_ := by rw [hnpe]; exact h
    simp [ScalarMassElemSuppAlgDep.elem_execute, ThrowAssert, h, h1]

/-- Claim C6 as amended, exercised on the line mesh: a geometry routine reporting the error
code 5 leaves the result of the routine reporting 0. -/
theorem scv_error_never_read_witness :
    (lineKernel 2 1 (-1) 0 2 (stateField (fun _ => 1) (fun _ => 2) (fun k => 3 + k))
        (stateField (fun k => k) (fun _ => 1) (fun k => 2 * k + 1)) true).elem_execute
        (fun _ => 0) (fun _ => 0) 3 (lineElement 5)
      = (lineKernel 2 1 (-1) 0 2 (stateField (fun _ => 1) (fun _ => 2) (fun k => 3 + k))
        (stateField (fun k => k) (fun _ => 1) (fun k => 2 * k + 1)) true).elem_execute
        (fun _ => 0) (fun _ => 0) 3 (lineElement 0) :=
  scv_error_never_read
    (lineKernel 2 1 (-1) 0 2 (stateField (fun _ => 1) (fun _ => 2) (fun k => 3 + k))
      (stateField (fun k => k) (fun _ => 1) (fun k => 2 * k + 1)) true)
    (fun _ => 0) (fun _ => 0) 3 (lineElement 5) (lineElement 0) rfl rfl rfl rfl

/-- Claim C9: `elem_execute` ends in the assertion failure if and only if the number of nodes
gathered for the element differs from `nodesPerElement`, and in that case `lhs`, `rhs` and the
kernel's scratch arrays are left as they were. -/
theorem node_count_assertion (self : ScalarMassElemSuppAlgDep K) (lhs rhs : Nat → K)
    (element : Entity) (meSCV : MasterElement K) :
    ((self.elem_execute lhs rhs element meSCV).thrown = true ↔
      self.bulkData_.num_nodes element ≠ meSCV.nodesPerElement_) ∧
    (self.bulkData_.num_nodes element ≠ meSCV.nodesPerElement_ →
      (self.elem_execute lhs rhs element meSCV).lhs = lhs ∧
      (self.elem_execute lhs rhs element meSCV).rhs = rhs ∧
      (self.elem_execute lhs rhs element meSCV).kernel = self) := by
  by_cases h : self.bulkData_.num_nodes element = meSCV.nodesPerElement_
  · simp [ScalarMassElemSuppAlgDep.elem_execute, ThrowAssert, h]
  · simp [ScalarMassElemSuppAlgDep.elem_execute, ThrowAssert, h]

/-- Claim C9 exercised on the line mesh (two nodes per element) with a master element that
expects three nodes: the call fails and the buffers keep their contents. -/
theorem node_count_assertion_witness :
    ((lineKernel 2 0 1 0 2 (stateField (fun _ => 1) (fun _ => 1) (fun _ => 1))
        (stateField (fun _ => 7) (fun _ => 7) (fun _ => 7)) false).elem_execute
        (fun _ => 5) (fun _ => 6) 0 { lineElement 0 with nodesPerElement_ := 3 }).lhs
      = (fun _ => 5) ∧
    ((lineKernel 2 0 1 0 2 (stateField (fun _ => 1) (fun _ => 1) (fun _ => 1))
        (stateField (fun _ => 7) (fun _ => 7) (fun _ => 7)) false).elem_execute
        (fun _ => 5) (fun _ => 6) 0 { lineElement 0 with nodesPerElement_ := 3 }).rhs
      = (fun _ => 6) ∧
    ((lineKernel 2 0 1 0 2 (stateField (fun _ => 1) (fun _ => 1) (fun _ => 1))
        (stateField (fun _ => 7) (fun _ => 7) (fun _ => 7)) false).elem_execute
        (fun _ => 5) (fun _ => 6) 0 { lineElement 0 with nodesPerElement_ := 3 }).kernel
      = lineKernel 2 0 1 0 2 (stateField (fun _ => 1) (fun _ => 1) (fun _ => 1))
        (stateField (fun _ => 7) (fun _ => 7) (fun _ => 7)) false :=
  (node_count_assertion
    (lineKernel 2 0 1 0 2 (stateField (fun _ => 1) (fun _ => 1) (fun _ => 1))
      (stateField (fun _ => 7) (fun _ => 7) (fun _ => 7)) false)
    (fun _ => 5) (fun _ => 6) 0 { lineElement 0 with nodesPerElement_ := 3 }).2 (by decide)

end ScalarMassClaims2

section ScalarMassClaims3

variable {K : Type} [LinearOrderedField K]

theorem flat_index_eq_iff (p a b c d : Nat) (hb : b < p) (hd : d < p) :
    a * p + b = c * p + d ↔ a = c ∧ b = d := by
  constructor
  · intro h
    have hp : 0 < p := by omega
    have h1 : (a * p + b) / p = (c * p + d) / p := by rw [h]
    have h2 : (a * p + b) % p = (c * p + d) % p := by rw [h]
    rw [Nat.mul_comm a p, Nat.mul_comm c p, Nat.mul_add_div hp, Nat.mul_add_div hp,
      Nat.div_eq_of_lt hb, Nat.div_eq_of_lt hd] at h1
    rw [Nat.mul_comm a p, Nat.mul_comm c p, Nat.mul_add_mod, Nat.mul_add_mod,
      Nat.mod_eq_of_lt hb, Nat.mod_eq_of_lt hd] at h2
    exact ⟨by omega, h2⟩
  · rintro ⟨rfl, rfl⟩
    rfl

/-- The entries of row `n` of the flattened `lhs` receive only the integration points whose
nearest node is `n`. -/
theorem inner_sum_flat (p a n ic : Nat) (f : Nat → K) (hic : ic < p) :
    (∑ j ∈ Finset.range p, if a * p + j = n * p + ic then f j else 0)
      = if a = n then f ic else 0 := by
  have hcongr : ∀ j ∈ Finset.range p,
      (if a * p + j = n * p + ic then f j else 0)
        = if j = ic then (if a = n then f j else 0) else 0 := by
    intro j hj
    have hj' := Finset.mem_range.mp hj
    by_cases h1 : a * p + j = n * p + ic
    · obtain ⟨h2, h3⟩ := (flat_index_eq_iff p a j n ic hj' hic).mp h1
      simp [h1, h2, h3]
    · by_cases h3 : j = ic
      · have h2 : ¬ a = n := fun e => h1 ((flat_index_eq_iff p a j n ic hj' hic).mpr ⟨e, h3⟩)
        simp [h1, h2]
      · simp [h1, h3]
  rw [Finset.sum_congr rfl hcongr, Finset.sum_ite_eq' (Finset.range p) ic]
  simp [hic]

/-- Claim C7: `elem_resize` fills the shape-function table from the shifted shape functions when
the kernel was constructed with `lumpedMass = true` and from the standard ones otherwise; and for
the shifted table (`N[ip][ic] = 1` when `ic = ipNodeMap[ip]`, else 0), `gamma1 = 1`, unit nodal
density and `lhs` started at zero, the local LHS is diagonal:
`lhs[n*nodesPerElement + ic] = 0` for `ic ≠ n` and
`lhs[n*nodesPerElement + n] = (sum of V(ip) over the ip with ipNodeMap[ip] = n) / dt`. -/
theorem lumped_mass_diagonal :
    (∀ (realm : Realm K) (scalarQ : ScalarFieldType K) (meSCV : MasterElement K),
      ((ScalarMassElemSuppAlgDep.ctor realm scalarQ true).elem_resize meSCV).ws_shape_function_
          = meSCV.shifted_shape_fcn ∧
      ((ScalarMassElemSuppAlgDep.ctor realm scalarQ false).elem_resize meSCV).ws_shape_function_
          = meSCV.shape_fcn) ∧
    (∀ (self : ScalarMassElemSuppAlgDep K) (meSCV : MasterElement K),
      (self.elem_resize meSCV).ws_shape_function_
        = if self.lumpedMass_ = true then meSCV.shifted_shape_fcn else meSCV.shape_fcn) ∧
    (∀ (self : ScalarMassElemSuppAlgDep K) (rhs : Nat → K) (element : Entity)
      (meSCV : MasterElement K),
      self.bulkData_.num_nodes element = meSCV.nodesPerElement_ →
      self.gamma1_ = 1 →
      (∀ ip ic, ip < meSCV.num_integration_points → ic < meSCV.nodesPerElement_ →
        self.ws_shape_function_ (ip * meSCV.nodesPerElement_ + ic)
          = if ic = meSCV.ipNodeMap ip then 1 else 0) →
      (∀ ic, ic < meSCV.nodesPerElement_ → self.gathered element self.densityNp1_ ic = 1) →
      ∀ n, n < meSCV.nodesPerElement_ →
        (∀ ic, ic < meSCV.nodesPerElement_ → ic ≠ n →
          (self.elem_execute (fun _ => 0) rhs element meSCV).lhs
            (n * meSCV.nodesPerElement_ + ic) = 0) ∧
        (self.elem_execute (fun _ => 0) rhs element meSCV).lhs (n * meSCV.nodesPerElement_ + n)
          = (∑ ip ∈ ipsOfNode meSCV n, self.scvVolume element meSCV ip) / self.dt_) := by
  refine ⟨?_, ?_, ?_⟩
  · intro realm scalarQ meSCV
    exact ⟨rfl, rfl⟩
  · intro self meSCV
    by_cases hl : self.lumpedMass_ = true
    · simp [ScalarMassElemSuppAlgDep.elem_resize, hl]
    · simp [ScalarMassElemSuppAlgDep.elem_resize, hl]
  · intro self rhs element meSCV h hg1 hN hrho n hn
    have hjac : ∀ ip ic, ip < meSCV.num_integration_points → ic < meSCV.nodesPerElement_ →
        meSCV.ipNodeMap ip = n →
        self.jacTerm element meSCV ip ic
          = if ic = n then self.scvVolume element meSCV ip / self.dt_ else 0 := by
      intro ip ic hip hic hnode
      have hrow : ∑ j ∈ Finset.range meSCV.nodesPerElement_,
          self.ws_shape_function_ (ip * meSCV.nodesPerElement_ + j) = 1 := by
        have hc : ∀ j ∈ Finset.range meSCV.nodesPerElement_,
            self.ws_shape_function_ (ip * meSCV.nodesPerElement_ + j)
              = if j = n then (1 : K) else 0 := by
          intro j hj
          rw [hN ip j hip (Finset.mem_range.mp hj), hnode]
        rw [Finset.sum_congr rfl hc, Finset.sum_ite_eq' (Finset.range meSCV.nodesPerElement_) n]
        simp [hn]
      simp only [ScalarMassElemSuppAlgDep.jacTerm, hg1]
      rw [shapeSum_const _ _ _ _ 1 hrho hrow, hN ip ic hip hic, hnode]
      split_ifs
      · ring
      · ring
    have hentry : ∀ ic, ic < meSCV.nodesPerElement_ →
        (self.elem_execute (fun _ => 0) rhs element meSCV).lhs (n * meSCV.nodesPerElement_ + ic)
          = ∑ ip ∈ Finset.range meSCV.num_integration_points,
              if meSCV.ipNodeMap ip = n then
                (if ic = n then self.scvVolume element meSCV ip / self.dt_ else 0)
              else 0 := by
      intro ic hic
      rw [elem_execute_lhs self _ _ element meSCV h, zero_add]
      apply Finset.sum_congr rfl
      intro ip hip
      rw [inner_sum_flat _ _ _ _ _ hic]
      split_ifs with h1 h2
      · rw [hjac ip ic (Finset.mem_range.mp hip) hic h1, if_pos h2]
      · rw [hjac ip ic (Finset.mem_range.mp hip) hic h1, if_neg h2]
      · rfl
    constructor
    · intro ic hic hne
      rw [hentry ic hic]
      apply Finset.sum_eq_zero
      intro ip _
      simp [hne]
    · rw [hentry n hn, ipsOfNode, Finset.sum_filter, Finset.sum_div]
      apply Finset.sum_congr rfl
      intro ip _
      by_cases hc : meSCV.ipNodeMap ip = n
      · simp [hc]
      · simp [hc]

/-- Claim C7 exercised on the line mesh with a lumped kernel: the local LHS of the first
element is diagonal. -/
theorem lumped_mass_diagonal_witness :
    (∀ ic, ic < 2 → ic ≠ 0 →
      ((lineKernel 2 1 0 0 2 (stateField (fun _ => 1) (fun _ => 1) (fun _ => 1))
          (stateField (fun k => k) (fun k => 2 * k) (fun k => 3 * k)) true).elem_execute
        (fun _ => 0) (fun _ => 0) 0 (lineElement 0)).lhs (0 * 2 + ic) = 0) ∧
    ((lineKernel 2 1 0 0 2 (stateField (fun _ => 1) (fun _ => 1) (fun _ => 1))
          (stateField (fun k => k) (fun k => 2 * k) (fun k => 3 * k)) true).elem_execute
        (fun _ => 0) (fun _ => 0) 0 (lineElement 0)).lhs (0 * 2 + 0)
      = (∑ ip ∈ ipsOfNode (lineElement 0) 0,
          (lineKernel 2 1 0 0 2 (stateField (fun _ => 1) (fun _ => 1) (fun _ => 1))
            (stateField (fun k => k) (fun k => 2 * k) (fun k => 3 * k)) true).scvVolume 0
              (lineElement 0) ip) / (1 / 2) :=
  (@lumped_mass_diagonal ℚ _).2.2
    (lineKernel 2 1 0 0 2 (stateField (fun _ => 1) (fun _ => 1) (fun _ => 1))
      (stateField (fun k => k) (fun k => 2 * k) (fun k => 3 * k)) true)
    (fun _ => 0) 0 (lineElement 0) rfl rfl
    (by
      intro ip ic hip hic
      have hip2 : ip < 2 := hip
      have hic2 : ic < 2 := hic
      interval_cases ip <;> interval_cases ic <;>
        simp [lineKernel, lineElement, ScalarMassElemSuppAlgDep.ctor,
          ScalarMassElemSuppAlgDep.elem_resize, ScalarMassElemSuppAlgDep.setup])
    (by
      intro ic _
      simp [ScalarMassElemSuppAlgDep.gathered, lineKernel, lineRealm, stateField,
        ScalarMassElemSuppAlgDep.ctor, ScalarMassElemSuppAlgDep.elem_resize,
        ScalarMassElemSuppAlgDep.setup])
    0 (by decide)

/-- Claim C8: with exactly two states the constructor takes the state-N fields as the Nm1
scalar and density, otherwise the StateNM1 fields; the N and Np1 handles are the same in both
cases, and `elem_resize` and `setup` keep all six handles. For a kernel whose Nm1 handles are its
N handles, the gathered Nm1 values equal the gathered N values and every integration point
contributes `-(gamma1*rhoNp1*qNp1 + (gamma2 + gamma3)*rhoN*qN) * V / dt` to `rhs`. -/
theorem two_state_aliasing :
    (∀ (realm : Realm K) (scalarQ : ScalarFieldType K) (lumped : Bool),
      realm.number_of_states = 2 →
      (ScalarMassElemSuppAlgDep.ctor realm scalarQ lumped).scalarQNm1_
          = scalarQ.field_of_state FieldState.StateN ∧
      (ScalarMassElemSuppAlgDep.ctor realm scalarQ lumped).densityNm1_
          = realm.density.field_of_state FieldState.StateN) ∧
    (∀ (realm : Realm K) (scalarQ : ScalarFieldType K) (lumped : Bool),
      realm.number_of_states ≠ 2 →
      (ScalarMassElemSuppAlgDep.ctor realm scalarQ lumped).scalarQNm1_
          = scalarQ.field_of_state FieldState.StateNM1 ∧
      (ScalarMassElemSuppAlgDep.ctor realm scalarQ lumped).densityNm1_
          = realm.density.field_of_state FieldState.StateNM1) ∧
    (∀ (realm : Realm K) (scalarQ : ScalarFieldType K) (lumped : Bool),
      (ScalarMassElemSuppAlgDep.ctor realm scalarQ lumped).scalarQN_
          = scalarQ.field_of_state FieldState.StateN ∧
      (ScalarMassElemSuppAlgDep.ctor realm scalarQ lumped).scalarQNp1_
          = scalarQ.field_of_state FieldState.StateNP1 ∧
      (ScalarMassElemSuppAlgDep.ctor realm scalarQ lumped).densityN_
          = realm.density.field_of_state FieldState.StateN ∧
      (ScalarMassElemSuppAlgDep.ctor realm scalarQ lumped).densityNp1_
          = realm.density.field_of_state FieldState.StateNP1) ∧
    (∀ (self : ScalarMassElemSuppAlgDep K) (meSCV : MasterElement K) (realm : Realm K),
      ((self.elem_resize meSCV).scalarQNm1_ = self.scalarQNm1_ ∧
        (self.elem_resize meSCV).scalarQN_ = self.scalarQN_ ∧
        (self.elem_resize meSCV).scalarQNp1_ = self.scalarQNp1_ ∧
        (self.elem_resize meSCV).densityNm1_ = self.densityNm1_ ∧
        (self.elem_resize meSCV).densityN_ = self.densityN_ ∧
        (self.elem_resize meSCV).densityNp1_ = self.densityNp1_) ∧
      ((self.setup realm).scalarQNm1_ = self.scalarQNm1_ ∧
        (self.setup realm).scalarQN_ = self.scalarQN_ ∧
        (self.setup realm).scalarQNp1_ = self.scalarQNp1_ ∧
        (self.setup realm).densityNm1_ = self.densityNm1_ ∧
        (self.setup realm).densityN_ = self.densityN_ ∧
        (self.setup realm).densityNp1_ = self.densityNp1_)) ∧
    (∀ (self : ScalarMassElemSuppAlgDep K) (lhs rhs : Nat → K) (element : Entity)
      (meSCV : MasterElement K),
      self.scalarQNm1_ = self.scalarQN_ → self.densityNm1_ = self.densityN_ →
      self.bulkData_.num_nodes element = meSCV.nodesPerElement_ →
      (∀ ic, ic < meSCV.nodesPerElement_ →
        (self.elem_execute lhs rhs element meSCV).kernel.ws_qNm1_ ic
            = (self.elem_execute lhs rhs element meSCV).kernel.ws_qN_ ic ∧
        (self.elem_execute lhs rhs element meSCV).kernel.ws_rhoNm1_ ic
            = (self.elem_execute lhs rhs element meSCV).kernel.ws_rhoN_ ic) ∧
      (∀ n, (self.elem_execute lhs rhs element meSCV).rhs n
        = rhs n + ∑ ip ∈ ipsOfNode meSCV n,
          -(self.gamma1_
              * shapeSum self.ws_shape_function_ meSCV.nodesPerElement_ ip
                  (self.gathered element self.densityNp1_)
              * shapeSum self.ws_shape_function_ meSCV.nodesPerElement_ ip
                  (self.gathered element self.scalarQNp1_)
            + (self.gamma2_ + self.gamma3_)
              * shapeSum self.ws_shape_function_ meSCV.nodesPerElement_ ip
                  (self.gathered element self.densityN_)
              * shapeSum self.ws_shape_function_ meSCV.nodesPerElement_ ip
                  (self.gathered element self.scalarQN_))
            * self.scvVolume element meSCV ip / self.dt_)) := by
  refine ⟨?_, ?_, ?_, ?_, ?_⟩
  · intro realm scalarQ lumped h2
    simp [ScalarMassElemSuppAlgDep.ctor, h2]
  · intro realm scalarQ lumped h2
    simp [ScalarMassElemSuppAlgDep.ctor, h2]
  · intro realm scalarQ lumped
    exact ⟨rfl, rfl, rfl, rfl⟩
  · intro self meSCV realm
    refine ⟨?_, rfl, rfl, rfl, rfl, rfl, rfl⟩
    by_cases hl : self.lumpedMass_ = true
    · simp [ScalarMassElemSuppAlgDep.elem_resize, hl]
    · simp [ScalarMassElemSuppAlgDep.elem_resize, hl]
  · intro self lhs rhs element meSCV hq hrho h
    constructor
    · intro ic hic
      obtain ⟨c, hc⟩ := gather_eq self (self.bulkData_.begin_nodes element)
        meSCV.nodesPerElement_
      rw [elem_execute_of_eq self lhs rhs element meSCV h]
      simp only [hc, hic, if_true, hq, hrho, and_self]
    · intro n
      rw [elem_execute_rhs self lhs rhs element meSCV h, ipsOfNode, Finset.sum_filter]
      congr 1
      apply Finset.sum_congr rfl
      intro ip _
      split_ifs
      · simp only [ScalarMassElemSuppAlgDep.massTerm, hq, hrho]
        ring
      · rfl

/-- Claim C8 exercised on a two-state line mesh: the kernel's Nm1 handles are its N handles,
so the theorem applies to its first element. -/
theorem two_state_aliasing_witness :
    (∀ ic, ic < 2 →
      ((lineKernel 2 1 (-1) (1 / 3) 2 (stateField (fun _ => 1) (fun _ => 2) (fun k => 3 + k))
          (stateField (fun k => k) (fun _ => 1) (fun k => 2 * k + 1)) false).elem_execute
        (fun _ => 0) (fun _ => 0) 0 (lineElement 0)).kernel.ws_qNm1_ ic
      = ((lineKernel 2 1 (-1) (1 / 3) 2 (stateField (fun _ => 1) (fun _ => 2) (fun k => 3 + k))
          (stateField (fun k => k) (fun _ => 1) (fun k => 2 * k + 1)) false).elem_execute
        (fun _ => 0) (fun _ => 0) 0 (lineElement 0)).kernel.ws_qN_ ic ∧
      ((lineKernel 2 1 (-1) (1 / 3) 2 (stateField (fun _ => 1) (fun _ => 2) (fun k => 3 + k))
          (stateField (fun k => k) (fun _ => 1) (fun k => 2 * k + 1)) false).elem_execute
        (fun _ => 0) (fun _ => 0) 0 (lineElement 0)).kernel.ws_rhoNm1_ ic
      = ((lineKernel 2 1 (-1) (1 / 3) 2 (stateField (fun _ => 1) (fun _ => 2) (fun k => 3 + k))
          (stateField (fun k => k) (fun _ => 1) (fun k => 2 * k + 1)) false).elem_execute
        (fun _ => 0) (fun _ => 0) 0 (lineElement 0)).kernel.ws_rhoN_ ic) :=
  ((@two_state_aliasing ℚ _).2.2.2.2
    (lineKernel 2 1 (-1) (1 / 3) 2 (stateField (fun _ => 1) (fun _ => 2) (fun k => 3 + k))
      (stateField (fun k => k) (fun _ => 1) (fun k => 2 * k + 1)) false)
    (fun _ => 0) (fun _ => 0) 0 (lineElement 0) rfl rfl rfl).1

end ScalarMassClaims3

/-! ## TAMS momentum diffusion edge kernel -/

section EdgeKernelProofs

variable {K : Type} [LinearOrderedField K]

/-- The paired update `r[i] -= a; r[k] += a`, read at index `x`. -/
theorem scatter_pair (r : Nat → K) (i k : Nat) (a : K) (x : Nat) :
    addAt (subAt r i a) k a x = r x - (if x = i then a else 0) + (if x = k then a else 0) := by
  simp only [addAt, subAt]
  split_ifs <;> ring

/-- The residual after `m` passes of the `j` loop of row `i`. -/
theorem assemble_j_loop_rhs (self : MomentumSSTTAMSDiffEdgeKernel K) (c : EdgeLocals K)
    (i m : Nat) (st : ShmemData K × K) (x : Nat) :
    (forLoop m (assemble_j self c i) st).1.rhs x
      = st.1.rhs x
        - (if x = i then
            ∑ j ∈ Finset.range m,
              (((facDiff_i self.nDim_ c i j).1 + rhsSGRCfacDiff_i c i j)
                + ((facDiff_j self.nDim_ c i j).1 + rhsSGRCfacDiff_j c i j))
          else 0)
        + (if x = i + self.nDim_ then
            ∑ j ∈ Finset.range m,
              (((facDiff_i self.nDim_ c i j).1 + rhsSGRCfacDiff_i c i j)
                + ((facDiff_j self.nDim_ c i j).1 + rhsSGRCfacDiff_j c i j))
          else 0) := by
  induction m with
  | zero => simp
  | succ m ih =>
    have hstep : (forLoop (m + 1) (assemble_j self c i) st).1.rhs
        = addAt (subAt (addAt (subAt (forLoop m (assemble_j self c i) st).1.rhs i
              ((facDiff_i self.nDim_ c i m).1 + rhsSGRCfacDiff_i c i m))
            (i + self.nDim_) ((facDiff_i self.nDim_ c i m).1 + rhsSGRCfacDiff_i c i m))
            i ((facDiff_j self.nDim_ c i m).1 + rhsSGRCfacDiff_j c i m))
          (i + self.nDim_) ((facDiff_j self.nDim_ c i m).1 + rhsSGRCfacDiff_j c i m) := rfl
    rw [hstep, scatter_pair, scatter_pair, ih, Finset.sum_range_succ]
    split_ifs <;> ring

/-- The residual after one pass of the `i` loop. -/
theorem assemble_i_rhs (self : MomentumSSTTAMSDiffEdgeKernel K) (c : EdgeLocals K)
    (i : Nat) (smdata : ShmemData K) (x : Nat) :
    (assemble_i self c i smdata).rhs x
      = smdata.rhs x
        - (if x = i then
            avgDivUstress self c i + diffTerm self.nDim_ c i + sgrsTerm self.nDim_ c i else 0)
        + (if x = i + self.nDim_ then
            avgDivUstress self c i + diffTerm self.nDim_ c i + sgrsTerm self.nDim_ c i
          else 0) := by
  have hstep : (assemble_i self c i smdata).rhs
      = (forLoop self.nDim_ (assemble_j self c i)
          ({ smdata with rhs := (addAt (subAt smdata.rhs i (avgDivUstress self c i))
              (i + self.nDim_) (avgDivUstress self c i)) }, 0.0)).1.rhs := rfl
  have hsum : ∑ j ∈ Finset.range self.nDim_,
      (((facDiff_i self.nDim_ c i j).1 + rhsSGRCfacDiff_i c i j)
        + ((facDiff_j self.nDim_ c i j).1 + rhsSGRCfacDiff_j c i j))
      = diffTerm self.nDim_ c i + sgrsTerm self.nDim_ c i := by
    unfold diffTerm sgrsTerm
    rw [← Finset.sum_add_distrib]
    apply Finset.sum_congr rfl
    intro j _
    ring
  rw [hstep, assemble_j_loop_rhs, hsum]
  simp only [scatter_pair]
  split_ifs <;> ring

/-- The residual after `n` passes of the `i` loop. -/
theorem assemble_i_loop_rhs (self : MomentumSSTTAMSDiffEdgeKernel K) (c : EdgeLocals K)
    (n : Nat) (smdata : ShmemData K) (x : Nat) :
    (forLoop n (assemble_i self c) smdata).rhs x
      = smdata.rhs x
        - (∑ i ∈ Finset.range n, if x = i then
            avgDivUstress self c i + diffTerm self.nDim_ c i + sgrsTerm self.nDim_ c i else 0)
        + (∑ i ∈ Finset.range n, if x = i + self.nDim_ then
            avgDivUstress self c i + diffTerm self.nDim_ c i + sgrsTerm self.nDim_ c i
          else 0) := by
  induction n with
  | zero => simp
  | succ n ih =>
    rw [forLoop_succ, assemble_i_rhs, ih, Finset.sum_range_succ, Finset.sum_range_succ]
    ring

/-- Closed form of the two residual rows of component `i` after `execute`. -/
theorem execute_rhs_rows (self : MomentumSSTTAMSDiffEdgeKernel K) (ext : EdgeCollaborators K)
    (junk : Uninit K) (smdata : ShmemData K) (edge nodeL nodeR : Entity) (i : Nat)
    (hi : i < self.nDim_) :
    (self.execute ext junk smdata edge nodeL nodeR).rhs i
        = smdata.rhs i
          - (avgDivUstress self (self.locals ext junk edge nodeL nodeR) i
              + diffTerm self.nDim_ (self.locals ext junk edge nodeL nodeR) i
              + sgrsTerm self.nDim_ (self.locals ext junk edge nodeL nodeR) i) ∧
    (self.execute ext junk smdata edge nodeL nodeR).rhs (i + self.nDim_)
        = smdata.rhs (i + self.nDim_)
          + (avgDivUstress self (self.locals ext junk edge nodeL nodeR) i
              + diffTerm self.nDim_ (self.locals ext junk edge nodeL nodeR) i
              + sgrsTerm self.nDim_ (self.locals ext junk edge nodeL nodeR) i) := by
  have hmem : i ∈ Finset.range self.nDim_ := Finset.mem_range.mpr hi
  constructor
  · show (forLoop self.nDim_ (assemble_i self (self.locals ext junk edge nodeL nodeR))
      smdata).rhs i = _
    rw [assemble_i_loop_rhs, Finset.sum_ite_eq (Finset.range self.nDim_) i, if_pos hmem]
    have hzero : ∑ k ∈ Finset.range self.nDim_, (if i = k + self.nDim_ then
        avgDivUstress self (self.locals ext junk edge nodeL nodeR) k
          + diffTerm self.nDim_ (self.locals ext junk edge nodeL nodeR) k
          + sgrsTerm self.nDim_ (self.locals ext junk edge nodeL nodeR) k else 0) = 0 := by
      apply Finset.sum_eq_zero
      intro k _
      have hne : ¬ i = k + self.nDim_ := by omega
      simp only [hne, if_false]
    rw [hzero, add_zero]
  · show (forLoop self.nDim_ (assemble_i self (self.locals ext junk edge nodeL nodeR))
      smdata).rhs (i + self.nDim_) = _
    rw [assemble_i_loop_rhs]
    have hzero : ∑ k ∈ Finset.range self.nDim_, (if i + self.nDim_ = k then
        avgDivUstress self (self.locals ext junk edge nodeL nodeR) k
          + diffTerm self.nDim_ (self.locals ext junk edge nodeL nodeR) k
          + sgrsTerm self.nDim_ (self.locals ext junk edge nodeL nodeR) k else 0) = 0 := by
      apply Finset.sum_eq_zero
      intro k hk
      have hk' := Finset.mem_range.mp hk
      have hne : ¬ i + self.nDim_ = k := by omega
      simp only [hne, if_false]
    have hone : ∑ k ∈ Finset.range self.nDim_, (if i + self.nDim_ = k + self.nDim_ then
        avgDivUstress self (self.locals ext junk edge nodeL nodeR) k
          + diffTerm self.nDim_ (self.locals ext junk edge nodeL nodeR) k
          + sgrsTerm self.nDim_ (self.locals ext junk edge nodeL nodeR) k else 0)
        = avgDivUstress self (self.locals ext junk edge nodeL nodeR) i
          + diffTerm self.nDim_ (self.locals ext junk edge nodeL nodeR) i
          + sgrsTerm self.nDim_ (self.locals ext junk edge nodeL nodeR) i := by
      simp only [Nat.add_right_cancel_iff]
      rw [Finset.sum_ite_eq (Finset.range self.nDim_) i, if_pos hmem]
    rw [hzero, hone, sub_zero]

/-- Claim C10: for every edge, every input and every component `i < ndim`, `execute` adds to
`rhs(i)` the exact negative of what it adds to `rhs(i + ndim)`, term by term: the divergence
stress `avgDivUstress`, the sub-grid diffusion sum and the SGRS sum enter row `i` with a minus
sign and row `i + ndim` with a plus sign. Hence from a zero `rhs`,
`rhs(i) + rhs(i + ndim) = 0`. -/
theorem antisymmetric_residual_scatter (self : MomentumSSTTAMSDiffEdgeKernel K)
    (ext : EdgeCollaborators K) (junk : Uninit K) (smdata : ShmemData K)
    (edge nodeL nodeR : Entity) (i : Nat) (hi : i < self.nDim_) :
    (self.execute ext junk smdata edge nodeL nodeR).rhs i - smdata.rhs i
        = -(avgDivUstress self (self.locals ext junk edge nodeL nodeR) i)
          + -(diffTerm self.nDim_ (self.locals ext junk edge nodeL nodeR) i)
          + -(sgrsTerm self.nDim_ (self.locals ext junk edge nodeL nodeR) i) ∧
    (self.execute ext junk smdata edge nodeL nodeR).rhs (i + self.nDim_)
          - smdata.rhs (i + self.nDim_)
        = avgDivUstress self (self.locals ext junk edge nodeL nodeR) i
          + diffTerm self.nDim_ (self.locals ext junk edge nodeL nodeR) i
          + sgrsTerm self.nDim_ (self.locals ext junk edge nodeL nodeR) i ∧
    ((∀ r, smdata.rhs r = 0) →
      (self.execute ext junk smdata edge nodeL nodeR).rhs i
        + (self.execute ext junk smdata edge nodeL nodeR).rhs (i + self.nDim_) = 0) := by
  obtain ⟨hL, hR⟩ := execute_rhs_rows self ext junk smdata edge nodeL nodeR i hi
  refine ⟨?_, ?_, ?_⟩
  · rw [hL]; ring
  · rw [hR]; ring
  · intro h0
    rw [hL, hR, h0 i, h0 (i + self.nDim_)]
    ring

end EdgeKernelProofs

section EdgeKernelWitnesses

/-- Claim C10 exercised on `edgeKernel2d` from zeroed buffers: row 0 receives `61/3` and the two
rows of component 0 cancel. -/
theorem antisymmetric_residual_scatter_witness :
    (edgeKernel2d.execute edgeCollab zeroStack { rhs := fun _ => 0, lhs := fun _ _ => 0 }
        0 0 1).rhs 0 = 61 / 3 ∧
    (edgeKernel2d.execute edgeCollab zeroStack { rhs := fun _ => 0, lhs := fun _ _ => 0 }
        0 0 1).rhs 0
      + (edgeKernel2d.execute edgeCollab zeroStack { rhs := fun _ => 0, lhs := fun _ _ => 0 }
        0 0 1).rhs (0 + edgeKernel2d.nDim_) = 0 := by
  refine ⟨?_, (antisymmetric_residual_scatter edgeKernel2d edgeCollab zeroStack
    { rhs := fun _ => 0, lhs := fun _ _ => 0 } 0 0 1 0 (by decide)).2.2 (fun _ => rfl)⟩
  norm_num [MomentumSSTTAMSDiffEdgeKernel.execute, MomentumSSTTAMSDiffEdgeKernel.locals,
    assemble_i, assemble_j, facDiff_i, facDiff_j, rhsSGRCfacDiff_i, rhsSGRCfacDiff_j,
    avgDivUstress, forLoop, addAt, subAt, setAt, setAt2, addAt2, subAt2, edgeKernel2d,
    edgeCollab, zeroStack]

end EdgeKernelWitnesses

section EdgeKernelLhs

variable {K : Type} [LinearOrderedField K]

theorem zero_literal : (0.0 : K) = 0 := by norm_num

/-- The four stores of one Jacobian scatter, read at `(p, q)`. -/
theorem quad_update (a : Nat → Nat → K) (rowL colL rowR colR : Nat) (x r : K) (p q : Nat) :
    subAt2 (addAt2 (addAt2 (subAt2 a rowL colL (x / r)) rowL colR x) rowR colL x) rowR colR
        (x / r) p q
      = a p q + quadInc rowL colL rowR colR x r p q := by
  simp only [subAt2, addAt2, quadInc]
  split_ifs <;> ring

/-- The Jacobian and the accumulator `lhs_riC_i` after `m` passes of the `j` loop of row `i`. -/
theorem assemble_j_loop_lhs (self : MomentumSSTTAMSDiffEdgeKernel K) (c : EdgeLocals K)
    (i m : Nat) (st : ShmemData K × K) :
    (∀ p q, (forLoop m (assemble_j self c i) st).1.lhs p q
      = st.1.lhs p q + ∑ j ∈ Finset.range m,
          quadInc i j (i + self.nDim_) (j + self.nDim_) (facDiff_j self.nDim_ c i j).2
            self.relaxFacU_ p q) ∧
    (forLoop m (assemble_j self c i) st).2
      = st.2 + ∑ j ∈ Finset.range m, (facDiff_i self.nDim_ c i j).2 := by
  induction m with
  | zero => simp
  | succ m ih =>
    obtain ⟨ih1, ih2⟩ := ih
    have hstep1 : (forLoop (m + 1) (assemble_j self c i) st).1.lhs
        = subAt2 (addAt2 (addAt2 (subAt2 (forLoop m (assemble_j self c i) st).1.lhs i m
              ((facDiff_j self.nDim_ c i m).2 / self.relaxFacU_))
            i (m + self.nDim_) (facDiff_j self.nDim_ c i m).2)
            (i + self.nDim_) m (facDiff_j self.nDim_ c i m).2)
          (i + self.nDim_) (m + self.nDim_)
          ((facDiff_j self.nDim_ c i m).2 / self.relaxFacU_) := rfl
    have hstep2 : (forLoop (m + 1) (assemble_j self c i) st).2
        = (forLoop m (assemble_j self c i) st).2 + (facDiff_i self.nDim_ c i m).2 := rfl
    constructor
    · intro p q
      rw [hstep1, quad_update, ih1, Finset.sum_range_succ, add_assoc]
    · rw [hstep2, ih2, Finset.sum_range_succ, add_assoc]

/-- The Jacobian after one pass of the `i` loop. -/
theorem assemble_i_lhs (self : MomentumSSTTAMSDiffEdgeKernel K) (c : EdgeLocals K)
    (i : Nat) (smdata : ShmemData K) (p q : Nat) :
    (assemble_i self c i smdata).lhs p q
      = smdata.lhs p q
        + (∑ j ∈ Finset.range self.nDim_,
            quadInc i j (i + self.nDim_) (j + self.nDim_) (facDiff_j self.nDim_ c i j).2
              self.relaxFacU_ p q
          + quadInc i i (i + self.nDim_) (i + self.nDim_) (lhs_riC_i self.nDim_ c i)
              self.relaxFacU_ p q) := by
  have hstep : (assemble_i self c i smdata).lhs
      = subAt2 (addAt2 (addAt2 (subAt2
          (forLoop self.nDim_ (assemble_j self c i)
            ({ smdata with rhs := (addAt (subAt smdata.rhs i (avgDivUstress self c i))
                (i + self.nDim_) (avgDivUstress self c i)) }, 0.0)).1.lhs i i
            ((forLoop self.nDim_ (assemble_j self c i)
              ({ smdata with rhs := (addAt (subAt smdata.rhs i (avgDivUstress self c i))
                (i + self.nDim_) (avgDivUstress self c i)) }, 0.0)).2 / self.relaxFacU_))
          i (i + self.nDim_)
            (forLoop self.nDim_ (assemble_j self c i)
              ({ smdata with rhs := (addAt (subAt smdata.rhs i (avgDivUstress self c i))
                (i + self.nDim_) (avgDivUstress self c i)) }, 0.0)).2)
          (i + self.nDim_) i
            (forLoop self.nDim_ (assemble_j self c i)
              ({ smdata with rhs := (addAt (subAt smdata.rhs i (avgDivUstress self c i))
                (i + self.nDim_) (avgDivUstress self c i)) }, 0.0)).2)
          (i + self.nDim_) (i + self.nDim_)
            ((forLoop self.nDim_ (assemble_j self c i)
              ({ smdata with rhs := (addAt (subAt smdata.rhs i (avgDivUstress self c i))
                (i + self.nDim_) (avgDivUstress self c i)) }, 0.0)).2 / self.relaxFacU_) := rfl
  obtain ⟨h1, h2⟩ := assemble_j_loop_lhs self c i self.nDim_
    ({ smdata with rhs := (addAt (subAt smdata.rhs i (avgDivUstress self c i))
        (i + self.nDim_) (avgDivUstress self c i)) }, 0.0)
  rw [hstep, quad_update, h1, h2]
  simp only [zero_literal, zero_add, lhs_riC_i]
  ring

/-- The Jacobian after `m` passes of the `i` loop. -/
theorem assemble_i_loop_lhs (self : MomentumSSTTAMSDiffEdgeKernel K) (c : EdgeLocals K)
    (m : Nat) (smdata : ShmemData K) (p q : Nat) :
    (forLoop m (assemble_i self c) smdata).lhs p q
      = smdata.lhs p q
        + ∑ i ∈ Finset.range m,
          (∑ j ∈ Finset.range self.nDim_,
              quadInc i j (i + self.nDim_) (j + self.nDim_) (facDiff_j self.nDim_ c i j).2
                self.relaxFacU_ p q
            + quadInc i i (i + self.nDim_) (i + self.nDim_) (lhs_riC_i self.nDim_ c i)
                self.relaxFacU_ p q) := by
  induction m with
  | zero => simp
  | succ m ih => rw [forLoop_succ, assemble_i_lhs, ih, Finset.sum_range_succ, add_assoc]

theorem sum_sum_ite_pair (n i0 j0 : Nat) (hi0 : i0 < n) (hj0 : j0 < n) (F : Nat → Nat → K) :
    (∑ i ∈ Finset.range n, ∑ j ∈ Finset.range n, if i0 = i ∧ j0 = j then F i j else 0)
      = F i0 j0 := by
  simp [ite_and, Finset.sum_ite_eq, hi0, hj0]

theorem sum_ite_diag (n i0 j0 : Nat) (hi0 : i0 < n) (G : Nat → K) :
    (∑ i ∈ Finset.range n, if i0 = i ∧ j0 = i then G i else 0)
      = if j0 = i0 then G i0 else 0 := by
  simp [ite_and, Finset.sum_ite_eq, hi0]

end EdgeKernelLhs

section EdgeKernelLhsEntries

variable {K : Type} [LinearOrderedField K]

theorem quadInc_LL (n i j i0 j0 : Nat) (x r : K) (hi0 : i0 < n) (hj0 : j0 < n) :
    quadInc i j (i + n) (j + n) x r i0 j0 = if i0 = i ∧ j0 = j then -(x / r) else 0 := by
  have c2 : ¬ (i0 = i ∧ j0 = j + n) := by omega
  have c3 : ¬ (i0 = i + n ∧ j0 = j) := by omega
  have c4 : ¬ (i0 = i + n ∧ j0 = j + n) := by omega
  unfold quadInc
  simp only [c2, c3, c4, if_false]
  split_ifs <;> ring

theorem quadInc_LR (n i j i0 j0 : Nat) (x r : K) (hi0 : i0 < n) (hj : j < n) :
    quadInc i j (i + n) (j + n) x r i0 (j0 + n) = if i0 = i ∧ j0 = j then x else 0 := by
  have c1 : ¬ (i0 = i ∧ j0 + n = j) := by omega
  have c2 : (i0 = i ∧ j0 + n = j + n) ↔ (i0 = i ∧ j0 = j) := by
    constructor <;> intro h <;> omega
  have c3 : ¬ (i0 = i + n ∧ j0 + n = j) := by omega
  have c4 : ¬ (i0 = i + n ∧ j0 + n = j + n) := by omega
  unfold quadInc
  simp only [c1, c2, c3, c4, if_false]
  split_ifs <;> ring

theorem quadInc_RL (n i j i0 j0 : Nat) (x r : K) (hi : i < n) (hj0 : j0 < n) :
    quadInc i j (i + n) (j + n) x r (i0 + n) j0 = if i0 = i ∧ j0 = j then x else 0 := by
  have c1 : ¬ (i0 + n = i ∧ j0 = j) := by omega
  have c2 : ¬ (i0 + n = i ∧ j0 = j + n) := by omega
  have c3 : (i0 + n = i + n ∧ j0 = j) ↔ (i0 = i ∧ j0 = j) := by
    constructor <;> intro h <;> omega
  have c4 : ¬ (i0 + n = i + n ∧ j0 = j + n) := by omega
  unfold quadInc
  simp only [c1, c2, c3, c4, if_false]
  split_ifs <;> ring

theorem quadInc_RR (n i j i0 j0 : Nat) (x r : K) (hi : i < n) (hj : j < n) :
    quadInc i j (i + n) (j + n) x r (i0 + n) (j0 + n)
      = if i0 = i ∧ j0 = j then -(x / r) else 0 := by
  have c1 : ¬ (i0 + n = i ∧ j0 + n = j) := by omega
  have c2 : ¬ (i0 + n = i ∧ j0 + n = j + n) := by omega
  have c3 : ¬ (i0 + n = i + n ∧ j0 + n = j) := by omega
  have c4 : (i0 + n = i + n ∧ j0 + n = j + n) ↔ (i0 = i ∧ j0 = j) := by
    constructor <;> intro h <;> omega
  unfold quadInc
  simp only [c1, c2, c3, c4, if_false]
  split_ifs <;> ring

/-- The sum of all scatters read at one entry, when each scatter contributes `g x` to the entry
of its own `(i, j)` and nothing elsewhere. -/
theorem quad_sum_eval (n i0 j0 : Nat) (hi0 : i0 < n) (hj0 : j0 < n) (r : K) (p q : Nat)
    (X : Nat → Nat → K) (R : Nat → K) (g : K → K)
    (hg : ∀ i j x, i < n → j < n →
      quadInc i j (i + n) (j + n) x r p q = if i0 = i ∧ j0 = j then g x else 0) :
    (∑ i ∈ Finset.range n,
      (∑ j ∈ Finset.range n, quadInc i j (i + n) (j + n) (X i j) r p q
        + quadInc i i (i + n) (i + n) (R i) r p q))
      = g (X i0 j0) + (if j0 = i0 then g (R i0) else 0) := by
  have h1 : ∀ i ∈ Finset.range n,
      (∑ j ∈ Finset.range n, quadInc i j (i + n) (j + n) (X i j) r p q
        + quadInc i i (i + n) (i + n) (R i) r p q)
      = (∑ j ∈ Finset.range n, if i0 = i ∧ j0 = j then g (X i j) else 0)
        + (if i0 = i ∧ j0 = i then g (R i) else 0) := by
    intro i hi
    have hi' := Finset.mem_range.mp hi
    rw [hg i i (R i) hi' hi']
    congr 1
    apply Finset.sum_congr rfl
    intro j hj
    rw [hg i j (X i j) hi' (Finset.mem_range.mp hj)]
  rw [Finset.sum_congr rfl h1, Finset.sum_add_distrib,
    sum_sum_ite_pair n i0 j0 hi0 hj0 (fun i j => g (X i j)),
    sum_ite_diag n i0 j0 hi0 (fun i => g (R i))]

/-- Closed form of the four Jacobian entries of the component pair `(i, j)` after `execute`:
the off-diagonal-block entries grow by `offBlock`, the diagonal-block entries by
`-offBlock / relaxFacU_`. -/
theorem execute_lhs_entries (self : MomentumSSTTAMSDiffEdgeKernel K) (ext : EdgeCollaborators K)
    (junk : Uninit K) (smdata : ShmemData K) (edge nodeL nodeR : Entity) (i j : Nat)
    (hi : i < self.nDim_) (hj : j < self.nDim_) :
    (self.execute ext junk smdata edge nodeL nodeR).lhs i j
        = smdata.lhs i j
          - offBlock self.nDim_ (self.locals ext junk edge nodeL nodeR) i j / self.relaxFacU_ ∧
    (self.execute ext junk smdata edge nodeL nodeR).lhs i (j + self.nDim_)
        = smdata.lhs i (j + self.nDim_)
          + offBlock self.nDim_ (self.locals ext junk edge nodeL nodeR) i j ∧
    (self.execute ext junk smdata edge nodeL nodeR).lhs (i + self.nDim_) j
        = smdata.lhs (i + self.nDim_) j
          + offBlock self.nDim_ (self.locals ext junk edge nodeL nodeR) i j ∧
    (self.execute ext junk smdata edge nodeL nodeR).lhs (i + self.nDim_) (j + self.nDim_)
        = smdata.lhs (i + self.nDim_) (j + self.nDim_)
          - offBlock self.nDim_ (self.locals ext junk edge nodeL nodeR) i j / self.relaxFacU_ := by
  have hex : ∀ p q, (self.execute ext junk smdata edge nodeL nodeR).lhs p q
      = (forLoop self.nDim_ (assemble_i self (self.locals ext junk edge nodeL nodeR))
          smdata).lhs p q := fun _ _ => rfl
  refine ⟨?_, ?_, ?_, ?_⟩
  · rw [hex, assemble_i_loop_lhs,
      quad_sum_eval self.nDim_ i j hi hj self.relaxFacU_ i j _ _ (fun x => -(x / self.relaxFacU_))
        (fun a b x _ _ => quadInc_LL self.nDim_ a b i j x self.relaxFacU_ hi hj)]
    simp only [offBlock]
    split_ifs <;> ring
  · rw [hex, assemble_i_loop_lhs,
      quad_sum_eval self.nDim_ i j hi hj self.relaxFacU_ i (j + self.nDim_) _ _ (fun x => x)
        (fun a b x _ hb => quadInc_LR self.nDim_ a b i j x self.relaxFacU_ hi hb)]
    simp only [offBlock]
  · rw [hex, assemble_i_loop_lhs,
      quad_sum_eval self.nDim_ i j hi hj self.relaxFacU_ (i + self.nDim_) j _ _ (fun x => x)
        (fun a b x ha _ => quadInc_RL self.nDim_ a b i j x self.relaxFacU_ ha hj)]
    simp only [offBlock]
  · rw [hex, assemble_i_loop_lhs,
      quad_sum_eval self.nDim_ i j hi hj self.relaxFacU_ (i + self.nDim_) (j + self.nDim_) _ _
        (fun x => -(x / self.relaxFacU_))
        (fun a b x ha hb => quadInc_RR self.nDim_ a b i j x self.relaxFacU_ ha hb)]
    simp only [offBlock]
    split_ifs <;> ring

end EdgeKernelLhsEntries

section EdgeKernelLhsClaims

variable {K : Type} [LinearOrderedField K]

/-- Claim C11 refuted as stated: on `edgeKernel2d`, whose relaxation factor is `1/2`, `execute`
started from zeroed buffers leaves `lhs(0, 0) = 12` and `lhs(2, 0) = -6`, so
`lhs(rowL, colL) = -lhs(rowR, colL)` fails at `i = j = 0`. -/
theorem relaxed_lhs_not_antisymmetric :
    edgeKernel2d.relaxFacU_ ≠ 0 ∧
    (edgeKernel2d.execute edgeCollab zeroStack { rhs := fun _ => 0, lhs := fun _ _ => 0 }
        0 0 1).lhs 0 0 = 12 ∧
    (edgeKernel2d.execute edgeCollab zeroStack { rhs := fun _ => 0, lhs := fun _ _ => 0 }
        0 0 1).lhs (0 + edgeKernel2d.nDim_) 0 = -6 ∧
    (edgeKernel2d.execute edgeCollab zeroStack { rhs := fun _ => 0, lhs := fun _ _ => 0 }
        0 0 1).lhs 0 0
      ≠ -(edgeKernel2d.execute edgeCollab zeroStack { rhs := fun _ => 0, lhs := fun _ _ => 0 }
        0 0 1).lhs (0 + edgeKernel2d.nDim_) 0 := by
  have h1 : (edgeKernel2d.execute edgeCollab zeroStack
      { rhs := fun _ => 0, lhs := fun _ _ => 0 } 0 0 1).lhs 0 0 = 12 := by
    norm_num [MomentumSSTTAMSDiffEdgeKernel.execute, MomentumSSTTAMSDiffEdgeKernel.locals,
      assemble_i, assemble_j, facDiff_i, facDiff_j, rhsSGRCfacDiff_i, rhsSGRCfacDiff_j,
      avgDivUstress, forLoop, addAt, subAt, setAt, setAt2, addAt2, subAt2, edgeKernel2d,
      edgeCollab, zeroStack]
  have h2 : (edgeKernel2d.execute edgeCollab zeroStack
      { rhs := fun _ => 0, lhs := fun _ _ => 0 } 0 0 1).lhs (0 + edgeKernel2d.nDim_) 0 = -6 := by
    norm_num [MomentumSSTTAMSDiffEdgeKernel.execute, MomentumSSTTAMSDiffEdgeKernel.locals,
      assemble_i, assemble_j, facDiff_i, facDiff_j, rhsSGRCfacDiff_i, rhsSGRCfacDiff_j,
      avgDivUstress, forLoop, addAt, subAt, setAt, setAt2, addAt2, subAt2, edgeKernel2d,
      edgeCollab, zeroStack]
  refine ⟨by norm_num [edgeKernel2d], h1, h2, ?_⟩
  rw [h1, h2]
  norm_num

/-- Claim C11 as amended: starting from a zero `lhs`, for every non-zero relaxation factor and
all `i, j < ndim`, `relaxFacU_ * lhs(rowL, colL) = -lhs(rowR, colL)` and
`relaxFacU_ * lhs(rowR, colR) = -lhs(rowL, colR)`, that is
`lhs(rowL, colL) = -lhs(rowR, colL) / relaxFacU_` and
`lhs(rowR, colR) = -lhs(rowL, colR) / relaxFacU_`; the identities without the factor hold when
`relaxFacU_ = 1`. -/
theorem lhs_antisymmetry_up_to_relaxation (self : MomentumSSTTAMSDiffEdgeKernel K)
    (ext : EdgeCollaborators K) (junk : Uninit K) (smdata : ShmemData K)
    (edge nodeL nodeR : Entity) (i j : Nat) (hi : i < self.nDim_) (hj : j < self.nDim_)
    (h0 : ∀ p q, smdata.lhs p q = 0) (hr : self.relaxFacU_ ≠ 0) :
    (self.relaxFacU_ * (self.execute ext junk smdata edge nodeL nodeR).lhs i j
        = -(self.execute ext junk smdata edge nodeL nodeR).lhs (i + self.nDim_) j ∧
      self.relaxFacU_
          * (self.execute ext junk smdata edge nodeL nodeR).lhs (i + self.nDim_) (j + self.nDim_)
        = -(self.execute ext junk smdata edge nodeL nodeR).lhs i (j + self.nDim_)) ∧
    ((self.execute ext junk smdata edge nodeL nodeR).lhs i j
        = -(self.execute ext junk smdata edge nodeL nodeR).lhs (i + self.nDim_) j
          / self.relaxFacU_ ∧
      (self.execute ext junk smdata edge nodeL nodeR).lhs (i + self.nDim_) (j + self.nDim_)
        = -(self.execute ext junk smdata edge nodeL nodeR).lhs i (j + self.nDim_)
          / self.relaxFacU_) ∧
    (self.relaxFacU_ = 1 →
      (self.execute ext junk smdata edge nodeL nodeR).lhs i j
        = -(self.execute ext junk smdata edge nodeL nodeR).lhs (i + self.nDim_) j ∧
      (self.execute ext junk smdata edge nodeL nodeR).lhs (i + self.nDim_) (j + self.nDim_)
        = -(self.execute ext junk smdata edge nodeL nodeR).lhs i (j + self.nDim_)) := by
  obtain ⟨hLL, hLR, hRL, hRR⟩ :=
    execute_lhs_entries self ext junk smdata edge nodeL nodeR i j hi hj
  rw [hLL, hLR, hRL, hRR, h0, h0, h0, h0]
  refine ⟨⟨?_, ?_⟩, ⟨?_, ?_⟩, ?_⟩
  · field_simp
    ring
  · field_simp
    ring
  · ring
  · ring
  · intro h1
    rw [h1]
    constructor <;> ring

/-- Claim C11 as amended, exercised on `edgeKernel2d` (relaxation factor `1/2`) from zeroed
buffers at `i = j = 0`. -/
theorem lhs_antisymmetry_up_to_relaxation_witness :
    edgeKernel2d.relaxFacU_
        * (edgeKernel2d.execute edgeCollab zeroStack { rhs := fun _ => 0, lhs := fun _ _ => 0 }
          0 0 1).lhs 0 0
      = -(edgeKernel2d.execute edgeCollab zeroStack { rhs := fun _ => 0, lhs := fun _ _ => 0 }
          0 0 1).lhs (0 + edgeKernel2d.nDim_) 0 :=
  (lhs_antisymmetry_up_to_relaxation edgeKernel2d edgeCollab zeroStack
    { rhs := fun _ => 0, lhs := fun _ _ => 0 } 0 0 1 0 0 (by decide) (by decide)
    (fun _ _ => rfl) (by norm_num [edgeKernel2d])).1.1

/-- Claim C12: under-relaxation touches only the two diagonal blocks. Starting from a zero
`lhs`, for all `i, j < ndim`: the off-diagonal-block entries `lhs(i, j + ndim)` and
`lhs(i + ndim, j)` are equal and are the same for every value of the relaxation factor; the
diagonal-block entries `lhs(i, j)` and `lhs(i + ndim, j + ndim)` are equal; and
`lhs(i, j) = -lhs(i, j + ndim) / relaxFacU_`. -/
theorem relaxation_only_on_diagonal_blocks (self : MomentumSSTTAMSDiffEdgeKernel K)
    (ext : EdgeCollaborators K) (junk : Uninit K) (smdata : ShmemData K)
    (edge nodeL nodeR : Entity) (i j : Nat) (hi : i < self.nDim_) (hj : j < self.nDim_)
    (h0 : ∀ p q, smdata.lhs p q = 0) :
    (self.execute ext junk smdata edge nodeL nodeR).lhs i (j + self.nDim_)
        = (self.execute ext junk smdata edge nodeL nodeR).lhs (i + self.nDim_) j ∧
    (∀ r : K,
      (MomentumSSTTAMSDiffEdgeKernel.execute { self with relaxFacU_ := r } ext junk smdata edge
          nodeL nodeR).lhs i (j + self.nDim_)
        = (self.execute ext junk smdata edge nodeL nodeR).lhs i (j + self.nDim_) ∧
      (MomentumSSTTAMSDiffEdgeKernel.execute { self with relaxFacU_ := r } ext junk smdata edge
          nodeL nodeR).lhs (i + self.nDim_) j
        = (self.execute ext junk smdata edge nodeL nodeR).lhs (i + self.nDim_) j) ∧
    (self.execute ext junk smdata edge nodeL nodeR).lhs i j
        = (self.execute ext junk smdata edge nodeL nodeR).lhs (i + self.nDim_)
            (j + self.nDim_) ∧
    (self.execute ext junk smdata edge nodeL nodeR).lhs i j
        = -(self.execute ext junk smdata edge nodeL nodeR).lhs i (j + self.nDim_)
          / self.relaxFacU_ := by
  obtain ⟨hLL, hLR, hRL, hRR⟩ :=
    execute_lhs_entries self ext junk smdata edge nodeL nodeR i j hi hj
  refine ⟨?_, ?_, ?_, ?_⟩
  · rw [hLR, hRL, h0, h0]
  · intro r
    obtain ⟨-, hLR', hRL', -⟩ :=
      execute_lhs_entries { self with relaxFacU_ := r } ext junk smdata edge nodeL nodeR i j hi hj
    constructor
    · rw [hLR]
      exact hLR'
    · rw [hRL]
      exact hRL'
  · rw [hLL, hRR, h0, h0]
  · rw [hLL, hLR, h0, h0]
    ring

/-- Claim C12 exercised on `edgeKernel2d` from zeroed buffers at `i = 0`, `j = 1`. -/
theorem relaxation_only_on_diagonal_blocks_witness :
    (edgeKernel2d.execute edgeCollab zeroStack { rhs := fun _ => 0, lhs := fun _ _ => 0 }
        0 0 1).lhs 0 1
      = -(edgeKernel2d.execute edgeCollab zeroStack { rhs := fun _ => 0, lhs := fun _ _ => 0 }
        0 0 1).lhs 0 (1 + edgeKernel2d.nDim_) / edgeKernel2d.relaxFacU_ :=
  (relaxation_only_on_diagonal_blocks edgeKernel2d edgeCollab zeroStack
    { rhs := fun _ => 0, lhs := fun _ _ => 0 } 0 0 1 0 1 (by decide) (by decide)
    (fun _ _ => rfl)).2.2.2

end EdgeKernelLhsClaims

section EdgeArrays

variable {K : Type}

theorem forLoop_setAt (n : Nat) (f : Nat → K) (a : Nat → K) (x : Nat) :
    forLoop n (fun d a => setAt a d (f d)) a x = if x < n then f x else a x := by
  induction n with
  | zero => simp
  | succ n ih =>
    rw [forLoop_succ]
    simp only [setAt, ih]
    by_cases h : x = n
    · subst h; simp
    · by_cases h2 : x < n
      · have h3 : x < n + 1 := by omega
        simp [h, h2, h3]
      · have h3 : ¬ x < n + 1 := by omega
        simp [h, h2, h3]

theorem forLoop_setAt2_row (m i : Nat) (f : Nat → K) (M : Nat → Nat → K) (p q : Nat) :
    forLoop m (fun j M => setAt2 M i j (f j)) M p q
      = if p = i ∧ q < m then f q else M p q := by
  induction m with
  | zero => simp
  | succ m ih =>
    rw [forLoop_succ]
    simp only [setAt2, ih]
    by_cases hp : p = i
    · by_cases h : q = m
      · subst h; simp [hp]
      · by_cases h2 : q < m
        · have h3 : q < m + 1 := by omega
          simp [hp, h, h2, h3]
        · have h3 : ¬ q < m + 1 := by omega
          simp [hp, h, h2, h3]
    · simp [hp]

theorem forLoop_setAt2 (n m : Nat) (f : Nat → Nat → K) (M : Nat → Nat → K) (p q : Nat) :
    forLoop n (fun i M => forLoop m (fun j M => setAt2 M i j (f i j)) M) M p q
      = if p < n ∧ q < m then f p q else M p q := by
  induction n with
  | zero => simp
  | succ n ih =>
    rw [forLoop_succ, forLoop_setAt2_row, ih]
    by_cases hp : p = n
    · subst hp
      by_cases hq : q < m
      · simp [hq]
      · simp [hq]
    · by_cases h2 : p < n
      · have h3 : p < n + 1 := by omega
        simp [hp, h2, h3]
      · have h3 : ¬ p < n + 1 := by omega
        simp [hp, h2, h3]

end EdgeArrays

section EdgeKernelLocals

variable {K : Type} [LinearOrderedField K]

theorem forLoop_pair_var {α β : Type} (m : Nat) (f : Nat → α → α) (g : Nat → β → β)
    (p : α × β) :
    forLoop m (fun i (p : α × β) => (f i p.1, g i p.2)) p
      = (forLoop m f p.1, forLoop m g p.2) := by
  obtain ⟨a, b⟩ := p
  exact forLoop_pair m f g a b

theorem forLoop_addAt2_row (m i : Nat) (f : Nat → K) (M : Nat → Nat → K) (p q : Nat) :
    forLoop m (fun j M => addAt2 M i j (f j)) M p q
      = M p q + if p = i ∧ q < m then f q else 0 := by
  induction m with
  | zero => simp
  | succ m ih =>
    rw [forLoop_succ]
    simp only [addAt2, ih]
    by_cases hp : p = i
    · by_cases h : q = m
      · subst h; simp [hp]
      · by_cases h2 : q < m
        · have h3 : q < m + 1 := by omega
          simp [hp, h, h2, h3]
        · have h3 : ¬ q < m + 1 := by omega
          simp [hp, h, h2, h3]
    · simp [hp]

theorem forLoop_addAt2 (n m : Nat) (f : Nat → Nat → K) (M : Nat → Nat → K) (p q : Nat) :
    forLoop n (fun i M => forLoop m (fun j M => addAt2 M i j (f i j)) M) M p q
      = M p q + if p < n ∧ q < m then f p q else 0 := by
  induction n with
  | zero => simp
  | succ n ih =>
    rw [forLoop_succ, forLoop_addAt2_row, ih]
    by_cases hp : p = n
    · subst hp
      by_cases hq : q < m
      · simp [hq]
      · simp [hq]
    · by_cases h2 : p < n
      · have h3 : p < n + 1 := by omega
        simp [hp, h2, h3]
      · have h3 : ¬ p < n + 1 := by omega
        simp [hp, h2, h3]

theorem forLoop_additive2 (m : Nat) (G : Nat → (Nat → Nat → K) → (Nat → Nat → K))
    (d : Nat → Nat → Nat → K) (hG : ∀ k M p q, G k M p q = M p q + d k p q)
    (M : Nat → Nat → K) (p q : Nat) :
    forLoop m G M p q = M p q + ∑ k ∈ Finset.range m, d k p q := by
  induction m with
  | zero => simp
  | succ m ih => rw [forLoop_succ, hG, ih, Finset.sum_range_succ, add_assoc]

/-- A loop accumulating two sums at once. -/
theorem forLoop_two_sums (m : Nat) (a b : Nat → K) :
    forLoop m (fun k (s : K × K) => (s.1 + a k, s.2 + b k)) (0.0, 0.0)
      = (∑ k ∈ Finset.range m, a k, ∑ k ∈ Finset.range m, b k) := by
  rw [forLoop_pair m (fun k s => s + a k) (fun k s => s + b k) 0.0 0.0, forLoop_acc_sum,
    forLoop_acc_sum, zero_literal, zero_add, zero_add]

/-- The area vector is read from the edge field in every direction below `ndim`. -/
theorem locals_av (self : MomentumSSTTAMSDiffEdgeKernel K) (ext : EdgeCollaborators K)
    (junk : Uninit K) (edge nodeL nodeR : Entity) (d : Nat) (hd : d < self.nDim_) :
    (self.locals ext junk edge nodeL nodeR).av d = self.edgeAreaVec_ edge d := by
  have h : (self.locals ext junk edge nodeL nodeR).av
      = forLoop self.nDim_ (fun d av => setAt av d (self.edgeAreaVec_ edge d)) junk.av := rfl
  rw [h, forLoop_setAt, if_pos hd]

/-- The local `axdx` is the dot product of the area vector with the coordinate difference. -/
theorem locals_axdx (self : MomentumSSTTAMSDiffEdgeKernel K) (ext : EdgeCollaborators K)
    (junk : Uninit K) (edge nodeL nodeR : Entity) :
    (self.locals ext junk edge nodeL nodeR).axdx
      = ∑ d ∈ Finset.range self.nDim_,
          (self.locals ext junk edge nodeL nodeR).av d * edge_dx self nodeL nodeR d := by
  have h : (self.locals ext junk edge nodeL nodeR).axdx
      = (forLoop self.nDim_ (fun d (s : K × K) =>
          (s.1 + (self.locals ext junk edge nodeL nodeR).av d * edge_dx self nodeL nodeR d,
           s.2 + (self.locals ext junk edge nodeL nodeR).av d
              * (self.locals ext junk edge nodeL nodeR).av d)) (0.0, 0.0)).1 := rfl
  rw [h, forLoop_two_sums]

theorem locals_inv_axdx (self : MomentumSSTTAMSDiffEdgeKernel K) (ext : EdgeCollaborators K)
    (junk : Uninit K) (edge nodeL nodeR : Entity) :
    (self.locals ext junk edge nodeL nodeR).inv_axdx
      = 1 / (self.locals ext junk edge nodeL nodeR).axdx := by
  have h : (self.locals ext junk edge nodeL nodeR).inv_axdx
      = 1.0 / (self.locals ext junk edge nodeL nodeR).axdx := rfl
  rw [h]
  norm_num

/-- The two sums of the non-orthogonal correction. -/
theorem nocSums_eq (self : MomentumSSTTAMSDiffEdgeKernel K) (nodeL nodeR : Entity) (i : Nat) :
    nocSums self nodeL nodeR i
      = (∑ l ∈ Finset.range self.nDim_,
            GjavgUi self nodeL nodeR i l * edge_dx self nodeL nodeR l,
         ∑ l ∈ Finset.range self.nDim_,
            GjfluctUi self nodeL nodeR i l * edge_dx self nodeL nodeR l) :=
  forLoop_two_sums self.nDim_ _ _

/-- Closed form of the two reconstructed gradient tensors, entries below `ndim`. -/
theorem locals_gradients (self : MomentumSSTTAMSDiffEdgeKernel K) (ext : EdgeCollaborators K)
    (junk : Uninit K) (edge nodeL nodeR : Entity) (i j : Nat)
    (hi : i < self.nDim_) (hj : j < self.nDim_) :
    (self.locals ext junk edge nodeL nodeR).avgdUidxj i j
        = GjavgUi self nodeL nodeR i j
          + (avgUidiff self nodeL nodeR i
              - ∑ l ∈ Finset.range self.nDim_,
                  GjavgUi self nodeL nodeR i l * edge_dx self nodeL nodeR l)
            * (self.locals ext junk edge nodeL nodeR).av j
            * (self.locals ext junk edge nodeL nodeR).inv_axdx ∧
    (self.locals ext junk edge nodeL nodeR).fluctdUidxj i j
        = GjfluctUi self nodeL nodeR i j
          + (fluctUidiff self nodeL nodeR i
              - ∑ l ∈ Finset.range self.nDim_,
                  GjfluctUi self nodeL nodeR i l * edge_dx self nodeL nodeR l)
            * (self.locals ext junk edge nodeL nodeR).av j
            * (self.locals ext junk edge nodeL nodeR).inv_axdx := by
  have hsrc : ((self.locals ext junk edge nodeL nodeR).avgdUidxj,
      (self.locals ext junk edge nodeL nodeR).fluctdUidxj)
      = forLoop self.nDim_ (fun i (grads : (Nat → Nat → K) × (Nat → Nat → K)) =>
          forLoop self.nDim_ (fun j (grads : (Nat → Nat → K) × (Nat → Nat → K)) =>
            (setAt2 grads.1 i j (GjavgUi self nodeL nodeR i j
                + (avgUidiff self nodeL nodeR i - (nocSums self nodeL nodeR i).1)
                  * (self.locals ext junk edge nodeL nodeR).av j
                  * (self.locals ext junk edge nodeL nodeR).inv_axdx),
             setAt2 grads.2 i j (GjfluctUi self nodeL nodeR i j
                + (fluctUidiff self nodeL nodeR i - (nocSums self nodeL nodeR i).2)
                  * (self.locals ext junk edge nodeL nodeR).av j
                  * (self.locals ext junk edge nodeL nodeR).inv_axdx))) grads)
          (junk.avgdUidxj, junk.fluctdUidxj) := rfl
  have hbody : (fun i (grads : (Nat → Nat → K) × (Nat → Nat → K)) =>
          forLoop self.nDim_ (fun j (grads : (Nat → Nat → K) × (Nat → Nat → K)) =>
            (setAt2 grads.1 i j (GjavgUi self nodeL nodeR i j
                + (avgUidiff self nodeL nodeR i - (nocSums self nodeL nodeR i).1)
                  * (self.locals ext junk edge nodeL nodeR).av j
                  * (self.locals ext junk edge nodeL nodeR).inv_axdx),
             setAt2 grads.2 i j (GjfluctUi self nodeL nodeR i j
                + (fluctUidiff self nodeL nodeR i - (nocSums self nodeL nodeR i).2)
                  * (self.locals ext junk edge nodeL nodeR).av j
                  * (self.locals ext junk edge nodeL nodeR).inv_axdx))) grads)
      = fun i (grads : (Nat → Nat → K) × (Nat → Nat → K)) =>
          ((fun i M => forLoop self.nDim_ (fun j M =>
              setAt2 M i j (GjavgUi self nodeL nodeR i j
                + (avgUidiff self nodeL nodeR i - (nocSums self nodeL nodeR i).1)
                  * (self.locals ext junk edge nodeL nodeR).av j
                  * (self.locals ext junk edge nodeL nodeR).inv_axdx)) M) i grads.1,
           (fun i M => forLoop self.nDim_ (fun j M =>
              setAt2 M i j (GjfluctUi self nodeL nodeR i j
                + (fluctUidiff self nodeL nodeR i - (nocSums self nodeL nodeR i).2)
                  * (self.locals ext junk edge nodeL nodeR).av j
                  * (self.locals ext junk edge nodeL nodeR).inv_axdx)) M) i grads.2) := by
    funext i grads
    exact forLoop_pair_var self.nDim_
      (fun j M => setAt2 M i j (GjavgUi self nodeL nodeR i j
        + (avgUidiff self nodeL nodeR i - (nocSums self nodeL nodeR i).1)
          * (self.locals ext junk edge nodeL nodeR).av j
          * (self.locals ext junk edge nodeL nodeR).inv_axdx))
      (fun j M => setAt2 M i j (GjfluctUi self nodeL nodeR i j
        + (fluctUidiff self nodeL nodeR i - (nocSums self nodeL nodeR i).2)
          * (self.locals ext junk edge nodeL nodeR).av j
          * (self.locals ext junk edge nodeL nodeR).inv_axdx)) grads
  rw [hbody, forLoop_pair] at hsrc
  have h1 := congrArg Prod.fst hsrc
  have h2 := congrArg Prod.snd hsrc
  simp only at h1 h2
  rw [h1, h2, forLoop_setAt2, forLoop_setAt2, if_pos ⟨hi, hj⟩, if_pos ⟨hi, hj⟩, nocSums_eq]
  exact ⟨rfl, rfl⟩

/-- The local `avgDivU` is the trace of the reconstructed averaged gradient. -/
theorem locals_avgDivU (self : MomentumSSTTAMSDiffEdgeKernel K) (ext : EdgeCollaborators K)
    (junk : Uninit K) (edge nodeL nodeR : Entity) :
    (self.locals ext junk edge nodeL nodeR).avgDivU
      = ∑ i ∈ Finset.range self.nDim_, (self.locals ext junk edge nodeL nodeR).avgdUidxj i i := by
  have h : (self.locals ext junk edge nodeL nodeR).avgDivU
      = forLoop self.nDim_ (fun i s =>
          s + (self.locals ext junk edge nodeL nodeR).avgdUidxj i i) 0.0 := rfl
  rw [h, forLoop_acc_sum, zero_literal, zero_add]

/-- Closed form of `M43`, entries below `ndim`: the sum over the eigen-directions `k` of
`Q[i][k] * Q[j][k] * pow(D[k][k], 4/3)`. -/
theorem locals_M43 (self : MomentumSSTTAMSDiffEdgeKernel K) (ext : EdgeCollaborators K)
    (junk : Uninit K) (edge nodeL nodeR : Entity) (i j : Nat)
    (hi : i < self.nDim_) (hj : j < self.nDim_) :
    (self.locals ext junk edge nodeL nodeR).M43 i j
      = ∑ k ∈ Finset.range self.nDim_,
          (self.locals ext junk edge nodeL nodeR).Q i k
            * (self.locals ext junk edge nodeL nodeR).Q j k
            * ext.pow ((self.locals ext junk edge nodeL nodeR).D k k) (4 / 3) := by
  have h : (self.locals ext junk edge nodeL nodeR).M43
      = forLoop self.nDim_ (fun k M43 =>
          forLoop self.nDim_ (fun i M43 =>
            forLoop self.nDim_ (fun j M43 =>
              addAt2 M43 i j ((self.locals ext junk edge nodeL nodeR).Q i k
                * (self.locals ext junk edge nodeL nodeR).Q j k
                * ext.pow ((self.locals ext junk edge nodeL nodeR).D k k) (4. / 3.))) M43) M43)
          (forLoop self.nDim_ (fun i M43 =>
            forLoop self.nDim_ (fun j M43 => setAt2 M43 i j 0.0) M43) junk.M43) := rfl
  have h43 : (4. / 3. : K) = 4 / 3 := by norm_num
  rw [h, forLoop_additive2 self.nDim_ _
    (fun k p q => if p < self.nDim_ ∧ q < self.nDim_ then
      (self.locals ext junk edge nodeL nodeR).Q p k
        * (self.locals ext junk edge nodeL nodeR).Q q k
        * ext.pow ((self.locals ext junk edge nodeL nodeR).D k k) (4. / 3.) else 0)
    (fun k M p q => forLoop_addAt2 self.nDim_ self.nDim_ _ M p q),
    forLoop_setAt2, if_pos ⟨hi, hj⟩, zero_literal, zero_add, h43]
  apply Finset.sum_congr rfl
  intro k _
  rw [if_pos ⟨hi, hj⟩]

end EdgeKernelLocals

section EdgeKernelClaims

variable {K : Type} [LinearOrderedField K]

/-- The two `k` loops of the assembly compute sums over `k`. -/
theorem facDiff_eq (ndim : Nat) (c : EdgeLocals K) (i j : Nat) :
    facDiff_i ndim c i j
        = (∑ k ∈ Finset.range ndim,
              -c.rhoIp * c.CM43 * c.epsilon13Ip * c.M43 j k * c.fluctdUidxj i k * c.av j,
           ∑ k ∈ Finset.range ndim,
              -c.rhoIp * c.CM43 * c.epsilon13Ip * c.M43 j k * c.av k * c.av j * c.inv_axdx) ∧
    facDiff_j ndim c i j
        = (∑ k ∈ Finset.range ndim,
              -c.rhoIp * c.CM43 * c.epsilon13Ip * c.M43 i k * c.fluctdUidxj j k * c.av j,
           ∑ k ∈ Finset.range ndim,
              -c.rhoIp * c.CM43 * c.epsilon13Ip * c.M43 i k * c.av k * c.av j * c.inv_axdx) :=
  ⟨forLoop_two_sums ndim
      (fun k => -c.rhoIp * c.CM43 * c.epsilon13Ip * c.M43 j k * c.fluctdUidxj i k * c.av j)
      (fun k => -c.rhoIp * c.CM43 * c.epsilon13Ip * c.M43 j k * c.av k * c.av j * c.inv_axdx),
   forLoop_two_sums ndim
      (fun k => -c.rhoIp * c.CM43 * c.epsilon13Ip * c.M43 i k * c.fluctdUidxj j k * c.av j)
      (fun k => -c.rhoIp * c.CM43 * c.epsilon13Ip * c.M43 i k * c.av k * c.av j * c.inv_axdx)⟩

/-- Claim C20: the floor `1e-12` is applied to each nodal value of the turbulent kinetic energy
and of the dissipation rate before averaging, so for all nodal inputs `tkeIp ≥ 1e-12` and
`sdrIp ≥ 1e-12`, and for `betaStar > 0` the argument `betaStar * tkeIp * sdrIp` of the cube
root that defines `epsilon13Ip` is strictly positive. -/
theorem floors_keep_dissipation_positive (self : MomentumSSTTAMSDiffEdgeKernel K)
    (ext : EdgeCollaborators K) (junk : Uninit K) (edge nodeL nodeR : Entity) :
    (self.locals ext junk edge nodeL nodeR).tkeIp
        = (max (self.tke_ nodeL 0) 1.0e-12 + max (self.tke_ nodeR 0) 1.0e-12) / 2 ∧
    (self.locals ext junk edge nodeL nodeR).sdrIp
        = (max (self.sdr_ nodeL 0) 1.0e-12 + max (self.sdr_ nodeR 0) 1.0e-12) / 2 ∧
    (1.0e-12 : K) ≤ (self.locals ext junk edge nodeL nodeR).tkeIp ∧
    (1.0e-12 : K) ≤ (self.locals ext junk edge nodeL nodeR).sdrIp ∧
    (self.locals ext junk edge nodeL nodeR).epsilon13Ip
        = ext.pow (self.betaStar_ * (self.locals ext junk edge nodeL nodeR).tkeIp
            * (self.locals ext junk edge nodeL nodeR).sdrIp) (1 / 3) ∧
    (0 < self.betaStar_ →
      0 < self.betaStar_ * (self.locals ext junk edge nodeL nodeR).tkeIp
        * (self.locals ext junk edge nodeL nodeR).sdrIp) := by
  have htke : (self.locals ext junk edge nodeL nodeR).tkeIp
      = 0.5 * (max (self.tke_ nodeL 0) 1.0e-12 + max (self.tke_ nodeR 0) 1.0e-12) := rfl
  have hsdr : (self.locals ext junk edge nodeL nodeR).sdrIp
      = 0.5 * (max (self.sdr_ nodeL 0) 1.0e-12 + max (self.sdr_ nodeR 0) 1.0e-12) := rfl
  have heps : (self.locals ext junk edge nodeL nodeR).epsilon13Ip
      = ext.pow (self.betaStar_ * (self.locals ext junk edge nodeL nodeR).tkeIp
          * (self.locals ext junk edge nodeL nodeR).sdrIp) (1.0 / 3.0) := rfl
  have hhalf : (0.5 : K) = 1 / 2 := by norm_num
  have hthird : (1.0 / 3.0 : K) = 1 / 3 := by norm_num
  have hfloor : (0 : K) < 1.0e-12 := by norm_num
  have h1 : (1.0e-12 : K) ≤ max (self.tke_ nodeL 0) 1.0e-12 := le_max_right _ _
  have h2 : (1.0e-12 : K) ≤ max (self.tke_ nodeR 0) 1.0e-12 := le_max_right _ _
  have h3 : (1.0e-12 : K) ≤ max (self.sdr_ nodeL 0) 1.0e-12 := le_max_right _ _
  have h4 : (1.0e-12 : K) ≤ max (self.sdr_ nodeR 0) 1.0e-12 := le_max_right _ _
  have htk : (1.0e-12 : K) ≤ (self.locals ext junk edge nodeL nodeR).tkeIp := by
    rw [htke, hhalf]; linarith
  have hsd : (1.0e-12 : K) ≤ (self.locals ext junk edge nodeL nodeR).sdrIp := by
    rw [hsdr, hhalf]; linarith
  refine ⟨by rw [htke, hhalf]; ring, by rw [hsdr, hhalf]; ring, htk, hsd,
    by rw [heps, hthird], ?_⟩
  intro hb
  exact mul_pos (mul_pos hb (lt_of_lt_of_le hfloor htk)) (lt_of_lt_of_le hfloor hsd)

/-- Claim C20 exercised on `edgeKernel2d`, whose `betaStar` is 1. -/
theorem floors_keep_dissipation_positive_witness :
    0 < edgeKernel2d.betaStar_ * (edgeKernel2d.locals edgeCollab zeroStack 0 0 1).tkeIp
      * (edgeKernel2d.locals edgeCollab zeroStack 0 0 1).sdrIp :=
  (floors_keep_dissipation_positive edgeKernel2d edgeCollab zeroStack 0 0 1).2.2.2.2.2
    (by norm_num [edgeKernel2d])

/-- Claim C19: whenever `axdx ≠ 0`, for every component `i < ndim` the reconstructed gradients
projected on the coordinate difference `dx = xR - xL` reproduce the nodal differences:
`sum_j avgdUidxj[i][j] * dx[j] = avgVelocity_R[i] - avgVelocity_L[i]` and
`sum_j fluctdUidxj[i][j] * dx[j]
  = (velocity_R[i] - velocity_L[i]) - (avgVelocity_R[i] - avgVelocity_L[i])`,
whatever the nodal gradient fields are. -/
theorem gradients_consistent_on_edge (self : MomentumSSTTAMSDiffEdgeKernel K)
    (ext : EdgeCollaborators K) (junk : Uninit K) (edge nodeL nodeR : Entity) (i : Nat)
    (hi : i < self.nDim_)
    (hax : (∑ d ∈ Finset.range self.nDim_,
      self.edgeAreaVec_ edge d * (self.coordinates_ nodeR d - self.coordinates_ nodeL d)) ≠ 0) :
    (∑ d ∈ Finset.range self.nDim_,
        self.edgeAreaVec_ edge d * (self.coordinates_ nodeR d - self.coordinates_ nodeL d))
      = (self.locals ext junk edge nodeL nodeR).axdx ∧
    (∑ j ∈ Finset.range self.nDim_,
        (self.locals ext junk edge nodeL nodeR).avgdUidxj i j
          * (self.coordinates_ nodeR j - self.coordinates_ nodeL j))
      = self.avgVelocity_ nodeR i - self.avgVelocity_ nodeL i ∧
    (∑ j ∈ Finset.range self.nDim_,
        (self.locals ext junk edge nodeL nodeR).fluctdUidxj i j
          * (self.coordinates_ nodeR j - self.coordinates_ nodeL j))
      = (self.velocity_ nodeR i - self.velocity_ nodeL i)
        - (self.avgVelocity_ nodeR i - self.avgVelocity_ nodeL i) := by
  have haxdx : (self.locals ext junk edge nodeL nodeR).axdx
      = ∑ d ∈ Finset.range self.nDim_,
          self.edgeAreaVec_ edge d * (self.coordinates_ nodeR d - self.coordinates_ nodeL d) := by
    rw [locals_axdx]
    apply Finset.sum_congr rfl
    intro d hd
    rw [locals_av self ext junk edge nodeL nodeR d (Finset.mem_range.mp hd)]
    rfl
  have hax' : (self.locals ext junk edge nodeL nodeR).axdx ≠ 0 := by rw [haxdx]; exact hax
  have hproj : ∀ (G : Nat → K) (t : K),
      (∑ j ∈ Finset.range self.nDim_,
        (G j + (t - ∑ l ∈ Finset.range self.nDim_, G l * edge_dx self nodeL nodeR l)
            * (self.locals ext junk edge nodeL nodeR).av j
            * (self.locals ext junk edge nodeL nodeR).inv_axdx)
          * edge_dx self nodeL nodeR j) = t := by
    intro G t
    have hsplit : ∀ j ∈ Finset.range self.nDim_,
        (G j + (t - ∑ l ∈ Finset.range self.nDim_, G l * edge_dx self nodeL nodeR l)
            * (self.locals ext junk edge nodeL nodeR).av j
            * (self.locals ext junk edge nodeL nodeR).inv_axdx)
          * edge_dx self nodeL nodeR j
        = G j * edge_dx self nodeL nodeR j
          + ((t - ∑ l ∈ Finset.range self.nDim_, G l * edge_dx self nodeL nodeR l)
              * (self.locals ext junk edge nodeL nodeR).inv_axdx)
            * ((self.locals ext junk edge nodeL nodeR).av j * edge_dx self nodeL nodeR j) := by
      intro j _
      ring
    rw [Finset.sum_congr rfl hsplit, Finset.sum_add_distrib, ← Finset.mul_sum, ← locals_axdx,
      locals_inv_axdx]
    field_simp
  refine ⟨haxdx.symm, ?_, ?_⟩
  · have hterm : ∀ j ∈ Finset.range self.nDim_,
        (self.locals ext junk edge nodeL nodeR).avgdUidxj i j
            * (self.coordinates_ nodeR j - self.coordinates_ nodeL j)
          = (GjavgUi self nodeL nodeR i j
              + (avgUidiff self nodeL nodeR i
                  - ∑ l ∈ Finset.range self.nDim_,
                      GjavgUi self nodeL nodeR i l * edge_dx self nodeL nodeR l)
                * (self.locals ext junk edge nodeL nodeR).av j
                * (self.locals ext junk edge nodeL nodeR).inv_axdx)
            * edge_dx self nodeL nodeR j := by
      intro j hj
      rw [(locals_gradients self ext junk edge nodeL nodeR i j hi (Finset.mem_range.mp hj)).1]
      rfl
    rw [Finset.sum_congr rfl hterm, hproj (fun j => GjavgUi self nodeL nodeR i j)]
    rfl
  · have hterm : ∀ j ∈ Finset.range self.nDim_,
        (self.locals ext junk edge nodeL nodeR).fluctdUidxj i j
            * (self.coordinates_ nodeR j - self.coordinates_ nodeL j)
          = (GjfluctUi self nodeL nodeR i j
              + (fluctUidiff self nodeL nodeR i
                  - ∑ l ∈ Finset.range self.nDim_,
                      GjfluctUi self nodeL nodeR i l * edge_dx self nodeL nodeR l)
                * (self.locals ext junk edge nodeL nodeR).av j
                * (self.locals ext junk edge nodeL nodeR).inv_axdx)
            * edge_dx self nodeL nodeR j := by
      intro j hj
      rw [(locals_gradients self ext junk edge nodeL nodeR i j hi (Finset.mem_range.mp hj)).2]
      rfl
    rw [Finset.sum_congr rfl hterm, hproj (fun j => GjfluctUi self nodeL nodeR i j)]
    rfl

/-- Claim C19 exercised on `edgeKernel2d`, whose `axdx` is 1, for the component 0. -/
theorem gradients_consistent_on_edge_witness :
    (∑ j ∈ Finset.range edgeKernel2d.nDim_,
        (edgeKernel2d.locals edgeCollab zeroStack 0 0 1).fluctdUidxj 0 j
          * (edgeKernel2d.coordinates_ 1 j - edgeKernel2d.coordinates_ 0 j))
      = (edgeKernel2d.velocity_ 1 0 - edgeKernel2d.velocity_ 0 0)
        - (edgeKernel2d.avgVelocity_ 1 0 - edgeKernel2d.avgVelocity_ 0 0) :=
  (gradients_consistent_on_edge edgeKernel2d edgeCollab zeroStack 0 0 1 0 (by decide)
    (by norm_num [edgeKernel2d, Finset.sum_range_succ])).2.2

end EdgeKernelClaims

section EdgeKernelClaims2

variable {K : Type} [LinearOrderedField K]

/-- Claim C15: in `execute`, `M43[i][j] = sum_k Q[i][k] * Q[j][k] * pow(D[k][k], 4/3)` for
`i, j < ndim`, where `Q` and `D` are what the decomposition returns for the averaged `Mij`.
When `Q` is orthogonal and every eigenvalue `D[k][k]` equals one value `lambda ≥ 0`,
`M43[i][j] = pow(lambda, 4/3)` for `i = j` and `0` for `i ≠ j`; with `Mij = lambda * I` and
`pow(0, 4/3) = 0` this is `Mij` with every component raised to the power `4/3`. -/
theorem m43_isotropic_reduction (self : MomentumSSTTAMSDiffEdgeKernel K)
    (ext : EdgeCollaborators K) (junk : Uninit K) (edge nodeL nodeR : Entity) :
    ((self.locals ext junk edge nodeL nodeR).Q
        = (ext.sym_diagonalize (averagedMij self junk nodeL nodeR)).1 ∧
      (self.locals ext junk edge nodeL nodeR).D
        = (ext.sym_diagonalize (averagedMij self junk nodeL nodeR)).2) ∧
    (∀ i j, i < self.nDim_ → j < self.nDim_ →
      (self.locals ext junk edge nodeL nodeR).M43 i j
        = ∑ k ∈ Finset.range self.nDim_,
            (self.locals ext junk edge nodeL nodeR).Q i k
              * (self.locals ext junk edge nodeL nodeR).Q j k
              * ext.pow ((self.locals ext junk edge nodeL nodeR).D k k) (4 / 3)) ∧
    (∀ lam : K, 0 ≤ lam →
      (∀ i j, i < self.nDim_ → j < self.nDim_ →
        (∑ k ∈ Finset.range self.nDim_,
          (self.locals ext junk edge nodeL nodeR).Q i k
            * (self.locals ext junk edge nodeL nodeR).Q j k) = if i = j then 1 else 0) →
      (∀ k, k < self.nDim_ → (self.locals ext junk edge nodeL nodeR).D k k = lam) →
      (∀ i j, i < self.nDim_ → j < self.nDim_ →
        (self.locals ext junk edge nodeL nodeR).M43 i j
          = if i = j then ext.pow lam (4 / 3) else 0) ∧
      ((∀ i j, i < self.nDim_ → j < self.nDim_ →
          averagedMij self junk nodeL nodeR i j = if i = j then lam else 0) →
        ext.pow 0 (4 / 3) = 0 →
        ∀ i j, i < self.nDim_ → j < self.nDim_ →
          (self.locals ext junk edge nodeL nodeR).M43 i j
            = ext.pow (averagedMij self junk nodeL nodeR i j) (4 / 3))) := by
  refine ⟨⟨rfl, rfl⟩, fun i j hi hj => locals_M43 self ext junk edge nodeL nodeR i j hi hj, ?_⟩
  intro lam _ horth hD
  have hiso : ∀ i j, i < self.nDim_ → j < self.nDim_ →
      (self.locals ext junk edge nodeL nodeR).M43 i j
        = if i = j then ext.pow lam (4 / 3) else 0 := by
    intro i j hi hj
    have hterm : ∀ k ∈ Finset.range self.nDim_,
        (self.locals ext junk edge nodeL nodeR).Q i k
            * (self.locals ext junk edge nodeL nodeR).Q j k
            * ext.pow ((self.locals ext junk edge nodeL nodeR).D k k) (4 / 3)
          = (self.locals ext junk edge nodeL nodeR).Q i k
            * (self.locals ext junk edge nodeL nodeR).Q j k * ext.pow lam (4 / 3) := by
      intro k hk
      rw [hD k (Finset.mem_range.mp hk)]
    rw [locals_M43 self ext junk edge nodeL nodeR i j hi hj, Finset.sum_congr rfl hterm,
      ← Finset.sum_mul, horth i j hi hj]
    split_ifs <;> simp
  refine ⟨hiso, ?_⟩
  intro hM hpow0 i j hi hj
  rw [hiso i j hi hj, hM i j hi hj]
  split_ifs
  · rfl
  · exact hpow0.symm

/-- Claim C15 exercised on `edgeKernel2d`: the metric tensor is the identity, the decomposition
returns `Q = I` and `D = I`, and `M43` is the identity. -/
theorem m43_isotropic_reduction_witness :
    ∀ i j, i < edgeKernel2d.nDim_ → j < edgeKernel2d.nDim_ →
      (edgeKernel2d.locals edgeCollab zeroStack 0 0 1).M43 i j
        = if i = j then edgeCollab.pow 1 (4 / 3) else 0 :=
  ((m43_isotropic_reduction edgeKernel2d edgeCollab zeroStack 0 0 1).2.2 1 (by norm_num)
    (by
      intro i j hi hj
      have hi2 : i < 2 := hi
      have hj2 : j < 2 := hj
      interval_cases i <;> interval_cases j <;>
        norm_num [MomentumSSTTAMSDiffEdgeKernel.locals, edgeKernel2d, edgeCollab,
          Finset.sum_range_succ])
    (by
      intro k hk
      have hk2 : k < 2 := hk
      interval_cases k <;>
        norm_num [MomentumSSTTAMSDiffEdgeKernel.locals, edgeKernel2d, edgeCollab, zeroStack,
          forLoop, setAt2])).1

/-- Claim C13: closed form of the edge residual. Starting from a zero `rhs`, for every
`i < ndim`, `rhs(i) = -rhs(i + ndim)` and
`rhs(i) = -(2/3)*alphaIp*muIp*avgDivU*av[i]*includeDivU_
  + sum_j av[j] * (rhoIp*CM43*epsilon13Ip * sum_k (M43[j][k]*F[i][k] + M43[i][k]*F[j][k])
                    + alphaIp*muIp*(G[i][j] + G[j][i]))`,
with `G = avgdUidxj`, `F = fluctdUidxj`, `muIp`, `rhoIp`, `alphaIp` the arithmetic means of the
two nodal values, `epsilon13Ip = pow(betaStar*tkeIp*sdrIp, 1/3)` and `avgDivU` the trace
of `G`. -/
theorem residual_closed_form (self : MomentumSSTTAMSDiffEdgeKernel K)
    (ext : EdgeCollaborators K) (junk : Uninit K) (smdata : ShmemData K)
    (edge nodeL nodeR : Entity) (c : EdgeLocals K)
    (hc : c = self.locals ext junk edge nodeL nodeR) (i : Nat) (hi : i < self.nDim_)
    (h0 : ∀ r, smdata.rhs r = 0) :
    (self.execute ext junk smdata edge nodeL nodeR).rhs i
        = -(self.execute ext junk smdata edge nodeL nodeR).rhs (i + self.nDim_) ∧
    (self.execute ext junk smdata edge nodeL nodeR).rhs i
        = -(2 / 3) * c.alphaIp * c.muIp * c.avgDivU * c.av i * self.includeDivU_
          + ∑ j ∈ Finset.range self.nDim_, c.av j *
              (c.rhoIp * c.CM43 * c.epsilon13Ip
                  * (∑ k ∈ Finset.range self.nDim_,
                      (c.M43 j k * c.fluctdUidxj i k + c.M43 i k * c.fluctdUidxj j k))
                + c.alphaIp * c.muIp * (c.avgdUidxj i j + c.avgdUidxj j i)) ∧
    c.muIp = (self.tvisc_ nodeL 0 + self.tvisc_ nodeR 0) / 2 ∧
    c.rhoIp = (self.density_ nodeL 0 + self.density_ nodeR 0) / 2 ∧
    c.alphaIp = (self.alpha_ nodeL 0 + self.alpha_ nodeR 0) / 2 ∧
    c.epsilon13Ip = ext.pow (self.betaStar_ * c.tkeIp * c.sdrIp) (1 / 3) ∧
    c.avgDivU = ∑ m ∈ Finset.range self.nDim_, c.avgdUidxj m m := by
  subst hc
  obtain ⟨hL, hR⟩ := execute_rhs_rows self ext junk smdata edge nodeL nodeR i hi
  have hhalf : (0.5 : K) = 1 / 2 := by norm_num
  have hthird : (1.0 / 3.0 : K) = 1 / 3 := by norm_num
  have h23 : (2.0 / 3.0 : K) = 2 / 3 := by norm_num
  have hmu : (self.locals ext junk edge nodeL nodeR).muIp
      = 0.5 * (self.tvisc_ nodeL 0 + self.tvisc_ nodeR 0) := rfl
  have hrho : (self.locals ext junk edge nodeL nodeR).rhoIp
      = 0.5 * (self.density_ nodeL 0 + self.density_ nodeR 0) := rfl
  have halpha : (self.locals ext junk edge nodeL nodeR).alphaIp
      = 0.5 * (self.alpha_ nodeL 0 + self.alpha_ nodeR 0) := rfl
  have heps : (self.locals ext junk edge nodeL nodeR).epsilon13Ip
      = ext.pow (self.betaStar_ * (self.locals ext junk edge nodeL nodeR).tkeIp
          * (self.locals ext junk edge nodeL nodeR).sdrIp) (1.0 / 3.0) := rfl
  refine ⟨?_, ?_, by rw [hmu, hhalf]; ring, by rw [hrho, hhalf]; ring,
    by rw [halpha, hhalf]; ring, by rw [heps, hthird],
    locals_avgDivU self ext junk edge nodeL nodeR⟩
  · rw [hL, hR, h0, h0]
    ring
  · rw [hL, h0]
    have hterm : ∀ j ∈ Finset.range self.nDim_,
        ((facDiff_i self.nDim_ (self.locals ext junk edge nodeL nodeR) i j).1
            + (facDiff_j self.nDim_ (self.locals ext junk edge nodeL nodeR) i j).1)
          + (rhsSGRCfacDiff_i (self.locals ext junk edge nodeL nodeR) i j
            + rhsSGRCfacDiff_j (self.locals ext junk edge nodeL nodeR) i j)
        = -((self.locals ext junk edge nodeL nodeR).av j *
              ((self.locals ext junk edge nodeL nodeR).rhoIp
                  * (self.locals ext junk edge nodeL nodeR).CM43
                  * (self.locals ext junk edge nodeL nodeR).epsilon13Ip
                  * (∑ k ∈ Finset.range self.nDim_,
                      ((self.locals ext junk edge nodeL nodeR).M43 j k
                          * (self.locals ext junk edge nodeL nodeR).fluctdUidxj i k
                        + (self.locals ext junk edge nodeL nodeR).M43 i k
                          * (self.locals ext junk edge nodeL nodeR).fluctdUidxj j k))
                + (self.locals ext junk edge nodeL nodeR).alphaIp
                  * (self.locals ext junk edge nodeL nodeR).muIp
                  * ((self.locals ext junk edge nodeL nodeR).avgdUidxj i j
                    + (self.locals ext junk edge nodeL nodeR).avgdUidxj j i))) := by
      intro j _
      rw [(facDiff_eq self.nDim_ _ i j).1, (facDiff_eq self.nDim_ _ i j).2]
      simp only [rhsSGRCfacDiff_i, rhsSGRCfacDiff_j, ← Finset.sum_add_distrib, Finset.mul_sum,
        ← Finset.sum_neg_distrib]
      rw [← sub_eq_zero]
      have hk : ∀ k ∈ Finset.range self.nDim_,
          (-(self.locals ext junk edge nodeL nodeR).rhoIp
                * (self.locals ext junk edge nodeL nodeR).CM43
                * (self.locals ext junk edge nodeL nodeR).epsilon13Ip
                * (self.locals ext junk edge nodeL nodeR).M43 j k
                * (self.locals ext junk edge nodeL nodeR).fluctdUidxj i k
                * (self.locals ext junk edge nodeL nodeR).av j
              + -(self.locals ext junk edge nodeL nodeR).rhoIp
                * (self.locals ext junk edge nodeL nodeR).CM43
                * (self.locals ext junk edge nodeL nodeR).epsilon13Ip
                * (self.locals ext junk edge nodeL nodeR).M43 i k
                * (self.locals ext junk edge nodeL nodeR).fluctdUidxj j k
                * (self.locals ext junk edge nodeL nodeR).av j)
            = -((self.locals ext junk edge nodeL nodeR).av j
                * ((self.locals ext junk edge nodeL nodeR).rhoIp
                  * (self.locals ext junk edge nodeL nodeR).CM43
                  * (self.locals ext junk edge nodeL nodeR).epsilon13Ip
                  * ((self.locals ext junk edge nodeL nodeR).M43 j k
                      * (self.locals ext junk edge nodeL nodeR).fluctdUidxj i k
                    + (self.locals ext junk edge nodeL nodeR).M43 i k
                      * (self.locals ext junk edge nodeL nodeR).fluctdUidxj j k))) := by
        intro k _
        ring
      rw [Finset.sum_congr rfl hk, Finset.sum_neg_distrib, ← Finset.mul_sum, ← Finset.mul_sum]
      ring
    simp only [avgDivUstress, diffTerm, sgrsTerm, h23]
    rw [add_assoc, ← Finset.sum_add_distrib, Finset.sum_congr rfl hterm,
      Finset.sum_neg_distrib]
    ring

/-- Claim C13 exercised on `edgeKernel2d` from zeroed buffers: the two rows of component 1
cancel. -/
theorem residual_closed_form_witness :
    (edgeKernel2d.execute edgeCollab zeroStack { rhs := fun _ => 0, lhs := fun _ _ => 0 }
        0 0 1).rhs 1
      = -(edgeKernel2d.execute edgeCollab zeroStack { rhs := fun _ => 0, lhs := fun _ _ => 0 }
        0 0 1).rhs (1 + edgeKernel2d.nDim_) :=
  (residual_closed_form edgeKernel2d edgeCollab zeroStack
    { rhs := fun _ => 0, lhs := fun _ _ => 0 } 0 0 1 _ rfl 1 (by decide) (fun _ => rfl)).1

end EdgeKernelClaims2

section EdgeKernelClaims3

variable {K : Type} [LinearOrderedField K]

/-- Claim C14: the divergence stress term adds `-(2/3)*alphaIp*muIp*avgDivU*av[i]*includeDivU_`
to `rhs(i)` and the opposite to `rhs(i + ndim)`, on top of the other two terms; with
`includeDivU_ = 0` the rhs is the rhs of the other two terms alone; the rhs with the flag on
minus the rhs with the flag off is exactly that term; and the lhs is the same for every value
of the flag. -/
theorem divergence_term_toggle (self : MomentumSSTTAMSDiffEdgeKernel K)
    (ext : EdgeCollaborators K) (junk : Uninit K) (smdata : ShmemData K)
    (edge nodeL nodeR : Entity) (c : EdgeLocals K)
    (hc : c = self.locals ext junk edge nodeL nodeR) :
    (∀ i, i < self.nDim_ →
      (self.execute ext junk smdata edge nodeL nodeR).rhs i
          = (smdata.rhs i - (diffTerm self.nDim_ c i + sgrsTerm self.nDim_ c i))
            + -(2 / 3 * c.alphaIp * c.muIp * c.avgDivU * c.av i * self.includeDivU_) ∧
      (self.execute ext junk smdata edge nodeL nodeR).rhs (i + self.nDim_)
          = (smdata.rhs (i + self.nDim_) + (diffTerm self.nDim_ c i + sgrsTerm self.nDim_ c i))
            + 2 / 3 * c.alphaIp * c.muIp * c.avgDivU * c.av i * self.includeDivU_) ∧
    (self.includeDivU_ = 0 → ∀ i, i < self.nDim_ →
      (self.execute ext junk smdata edge nodeL nodeR).rhs i
          = smdata.rhs i - (diffTerm self.nDim_ c i + sgrsTerm self.nDim_ c i) ∧
      (self.execute ext junk smdata edge nodeL nodeR).rhs (i + self.nDim_)
          = smdata.rhs (i + self.nDim_)
            + (diffTerm self.nDim_ c i + sgrsTerm self.nDim_ c i)) ∧
    (∀ i, i < self.nDim_ →
      (self.execute ext junk smdata edge nodeL nodeR).rhs i
          - (MomentumSSTTAMSDiffEdgeKernel.execute { self with includeDivU_ := 0 } ext junk
              smdata edge nodeL nodeR).rhs i
        = -(2 / 3 * c.alphaIp * c.muIp * c.avgDivU * c.av i * self.includeDivU_) ∧
      (self.execute ext junk smdata edge nodeL nodeR).rhs (i + self.nDim_)
          - (MomentumSSTTAMSDiffEdgeKernel.execute { self with includeDivU_ := 0 } ext junk
              smdata edge nodeL nodeR).rhs (i + self.nDim_)
        = 2 / 3 * c.alphaIp * c.muIp * c.avgDivU * c.av i * self.includeDivU_) ∧
    (∀ e : K,
      (MomentumSSTTAMSDiffEdgeKernel.execute { self with includeDivU_ := e } ext junk smdata
          edge nodeL nodeR).lhs
        = (self.execute ext junk smdata edge nodeL nodeR).lhs) := by
  subst hc
  have h23 : (2.0 / 3.0 : K) = 2 / 3 := by norm_num
  have hrows : ∀ i, i < self.nDim_ →
      (self.execute ext junk smdata edge nodeL nodeR).rhs i
          = (smdata.rhs i - (diffTerm self.nDim_ (self.locals ext junk edge nodeL nodeR) i
              + sgrsTerm self.nDim_ (self.locals ext junk edge nodeL nodeR) i))
            + -(2 / 3 * (self.locals ext junk edge nodeL nodeR).alphaIp
                * (self.locals ext junk edge nodeL nodeR).muIp
                * (self.locals ext junk edge nodeL nodeR).avgDivU
                * (self.locals ext junk edge nodeL nodeR).av i * self.includeDivU_) ∧
      (self.execute ext junk smdata edge nodeL nodeR).rhs (i + self.nDim_)
          = (smdata.rhs (i + self.nDim_)
              + (diffTerm self.nDim_ (self.locals ext junk edge nodeL nodeR) i
                + sgrsTerm self.nDim_ (self.locals ext junk edge nodeL nodeR) i))
            + 2 / 3 * (self.locals ext junk edge nodeL nodeR).alphaIp
                * (self.locals ext junk edge nodeL nodeR).muIp
                * (self.locals ext junk edge nodeL nodeR).avgDivU
                * (self.locals ext junk edge nodeL nodeR).av i * self.includeDivU_ := by
    intro i hi
    obtain ⟨hL, hR⟩ := execute_rhs_rows self ext junk smdata edge nodeL nodeR i hi
    rw [hL, hR]
    simp only [avgDivUstress, h23]
    constructor <;> ring
  have hoff : ∀ i, i < self.nDim_ →
      (MomentumSSTTAMSDiffEdgeKernel.execute { self with includeDivU_ := 0 } ext junk
          smdata edge nodeL nodeR).rhs i
        = smdata.rhs i - (diffTerm self.nDim_ (self.locals ext junk edge nodeL nodeR) i
            + sgrsTerm self.nDim_ (self.locals ext junk edge nodeL nodeR) i) ∧
      (MomentumSSTTAMSDiffEdgeKernel.execute { self with includeDivU_ := 0 } ext junk
          smdata edge nodeL nodeR).rhs (i + self.nDim_)
        = smdata.rhs (i + self.nDim_)
          + (diffTerm self.nDim_ (self.locals ext junk edge nodeL nodeR) i
            + sgrsTerm self.nDim_ (self.locals ext junk edge nodeL nodeR) i) := by
    intro i hi
    obtain ⟨hL, hR⟩ := execute_rhs_rows { self with includeDivU_ := 0 } ext junk smdata edge
      nodeL nodeR i hi
    have hD : avgDivUstress { self with includeDivU_ := 0 }
        (self.locals ext junk edge nodeL nodeR) i = 0 := by
      simp [avgDivUstress]
    constructor
    · refine hL.trans ?_
      show smdata.rhs i - (avgDivUstress { self with includeDivU_ := 0 }
          (self.locals ext junk edge nodeL nodeR) i
          + diffTerm self.nDim_ (self.locals ext junk edge nodeL nodeR) i
          + sgrsTerm self.nDim_ (self.locals ext junk edge nodeL nodeR) i) = _
      rw [hD]
      ring
    · refine hR.trans ?_
      show smdata.rhs (i + self.nDim_) + (avgDivUstress { self with includeDivU_ := 0 }
          (self.locals ext junk edge nodeL nodeR) i
          + diffTerm self.nDim_ (self.locals ext junk edge nodeL nodeR) i
          + sgrsTerm self.nDim_ (self.locals ext junk edge nodeL nodeR) i) = _
      rw [hD]
      ring
  refine ⟨hrows, ?_, ?_, ?_⟩
  · intro hz i hi
    obtain ⟨h1, h2⟩ := hrows i hi
    rw [h1, h2, hz]
    constructor <;> ring
  · intro i hi
    obtain ⟨h1, h2⟩ := hrows i hi
    obtain ⟨h3, h4⟩ := hoff i hi
    rw [h1, h2, h3, h4]
    constructor <;> ring
  · intro e
    funext p q
    have h1 : (MomentumSSTTAMSDiffEdgeKernel.execute { self with includeDivU_ := e } ext junk
        smdata edge nodeL nodeR).lhs p q
        = (forLoop self.nDim_ (assemble_i { self with includeDivU_ := e }
            (self.locals ext junk edge nodeL nodeR)) smdata).lhs p q := rfl
    have h2 : (self.execute ext junk smdata edge nodeL nodeR).lhs p q
        = (forLoop self.nDim_ (assemble_i self (self.locals ext junk edge nodeL nodeR))
            smdata).lhs p q := rfl
    rw [h1, h2, assemble_i_loop_lhs, assemble_i_loop_lhs]

/-- Claim C14 exercised on `edgeKernel2d` (flag on) from zeroed buffers: switching the flag off
changes row 0 by exactly the divergence term. -/
theorem divergence_term_toggle_witness :
    (edgeKernel2d.execute edgeCollab zeroStack { rhs := fun _ => 0, lhs := fun _ _ => 0 }
        0 0 1).rhs 0
      - (MomentumSSTTAMSDiffEdgeKernel.execute { edgeKernel2d with includeDivU_ := 0 }
          edgeCollab zeroStack { rhs := fun _ => 0, lhs := fun _ _ => 0 } 0 0 1).rhs 0
      = -(2 / 3 * (edgeKernel2d.locals edgeCollab zeroStack 0 0 1).alphaIp
          * (edgeKernel2d.locals edgeCollab zeroStack 0 0 1).muIp
          * (edgeKernel2d.locals edgeCollab zeroStack 0 0 1).avgDivU
          * (edgeKernel2d.locals edgeCollab zeroStack 0 0 1).av 0
          * edgeKernel2d.includeDivU_) :=
  ((divergence_term_toggle edgeKernel2d edgeCollab zeroStack
    { rhs := fun _ => 0, lhs := fun _ _ => 0 } 0 0 1 _ rfl).2.2.1 0 (by decide)).1

end EdgeKernelClaims3

section EdgeKernelClaims4

variable {K : Type} [LinearOrderedField K]

/-- The Jacobian factors `lhsfacDiff_i`, `lhsfacDiff_j` read only `rhoIp`, `CM43`,
`epsilon13Ip`, `M43`, `av` and `inv_axdx`. -/
theorem lhsfac_congr (n : Nat) (c c' : EdgeLocals K) (i j : Nat)
    (hrho : c'.rhoIp = c.rhoIp) (hCM : c'.CM43 = c.CM43) (heps : c'.epsilon13Ip = c.epsilon13Ip)
    (hM : c'.M43 = c.M43) (hav : c'.av = c.av) (hinv : c'.inv_axdx = c.inv_axdx) :
    (facDiff_i n c' i j).2 = (facDiff_i n c i j).2 ∧
    (facDiff_j n c' i j).2 = (facDiff_j n c i j).2 := by
  rw [(facDiff_eq n c' i j).1, (facDiff_eq n c' i j).2, (facDiff_eq n c i j).1,
    (facDiff_eq n c i j).2]
  simp only [hrho, hCM, heps, hM, hav, hinv, and_self]

/-- The effect on the residual terms of shifting the fluctuating gradient by
`d[i] * av[k] * inv_axdx`, everything else unchanged. -/
theorem terms_shift (n : Nat) (c c' : EdgeLocals K) (d : Nat → K) (i : Nat) (hi : i < n)
    (hrho : c'.rhoIp = c.rhoIp) (hCM : c'.CM43 = c.CM43) (heps : c'.epsilon13Ip = c.epsilon13Ip)
    (hM : c'.M43 = c.M43) (hav : c'.av = c.av) (halpha : c'.alphaIp = c.alphaIp)
    (hmu : c'.muIp = c.muIp)
    (hG : ∀ a b, a < n → b < n → c'.avgdUidxj a b = c.avgdUidxj a b)
    (hF : ∀ a k, a < n → k < n →
      c'.fluctdUidxj a k = c.fluctdUidxj a k + d a * c.av k * c.inv_axdx) :
    diffTerm n c' i
        = diffTerm n c i
          + ∑ j ∈ Finset.range n, (d i * (facDiff_i n c i j).2 + d j * (facDiff_j n c i j).2) ∧
    sgrsTerm n c' i = sgrsTerm n c i := by
  constructor
  · unfold diffTerm
    rw [← Finset.sum_add_distrib]
    apply Finset.sum_congr rfl
    intro j hj
    have hj' := Finset.mem_range.mp hj
    rw [(facDiff_eq n c' i j).1, (facDiff_eq n c' i j).2, (facDiff_eq n c i j).1,
      (facDiff_eq n c i j).2]
    simp only [hrho, hCM, heps, hM, hav]
    have h1 : ∀ k ∈ Finset.range n,
        -c.rhoIp * c.CM43 * c.epsilon13Ip * c.M43 j k * c'.fluctdUidxj i k * c.av j
          = -c.rhoIp * c.CM43 * c.epsilon13Ip * c.M43 j k * c.fluctdUidxj i k * c.av j
            + d i * (-c.rhoIp * c.CM43 * c.epsilon13Ip * c.M43 j k * c.av k * c.av j
                * c.inv_axdx) := by
      intro k hk
      rw [hF i k hi (Finset.mem_range.mp hk)]
      ring
    have h2 : ∀ k ∈ Finset.range n,
        -c.rhoIp * c.CM43 * c.epsilon13Ip * c.M43 i k * c'.fluctdUidxj j k * c.av j
          = -c.rhoIp * c.CM43 * c.epsilon13Ip * c.M43 i k * c.fluctdUidxj j k * c.av j
            + d j * (-c.rhoIp * c.CM43 * c.epsilon13Ip * c.M43 i k * c.av k * c.av j
                * c.inv_axdx) := by
      intro k hk
      rw [hF j k hj' (Finset.mem_range.mp hk)]
      ring
    rw [Finset.sum_congr rfl h1, Finset.sum_congr rfl h2, Finset.sum_add_distrib,
      Finset.sum_add_distrib, ← Finset.mul_sum, ← Finset.mul_sum]
    ring
  · unfold sgrsTerm
    apply Finset.sum_congr rfl
    intro j hj
    have hj' := Finset.mem_range.mp hj
    simp only [rhsSGRCfacDiff_i, rhsSGRCfacDiff_j, halpha, hmu, hav, hG i j hi hj',
      hG j i hj' hi]

/-- What a perturbation `delta` of the nodal velocities changes in the locals of `execute`:
only the fluctuating gradient, by `(delta_R[i] - delta_L[i]) * av[k] * inv_axdx`. -/
theorem velocity_shift_locals (self : MomentumSSTTAMSDiffEdgeKernel K)
    (ext : EdgeCollaborators K) (junk : Uninit K) (edge nodeL nodeR : Entity)
    (delta : Entity → Nat → K) :
    (∀ a b, a < self.nDim_ → b < self.nDim_ →
      ((perturbVelocity self delta).locals ext junk edge nodeL nodeR).avgdUidxj a b
        = (self.locals ext junk edge nodeL nodeR).avgdUidxj a b) ∧
    (∀ a k, a < self.nDim_ → k < self.nDim_ →
      ((perturbVelocity self delta).locals ext junk edge nodeL nodeR).fluctdUidxj a k
        = (self.locals ext junk edge nodeL nodeR).fluctdUidxj a k
          + (delta nodeR a - delta nodeL a) * (self.locals ext junk edge nodeL nodeR).av k
            * (self.locals ext junk edge nodeL nodeR).inv_axdx) := by
  have hn : (perturbVelocity self delta).nDim_ = self.nDim_ := rfl
  constructor
  · intro a b ha hb
    rw [(locals_gradients (perturbVelocity self delta) ext junk edge nodeL nodeR a b ha hb).1,
      (locals_gradients self ext junk edge nodeL nodeR a b ha hb).1]
    rfl
  · intro a k ha hk
    rw [(locals_gradients (perturbVelocity self delta) ext junk edge nodeL nodeR a k ha hk).2,
      (locals_gradients self ext junk edge nodeL nodeR a k ha hk).2]
    have hdiff : fluctUidiff (perturbVelocity self delta) nodeL nodeR a
        = fluctUidiff self nodeL nodeR a + (delta nodeR a - delta nodeL a) := by
      simp only [fluctUidiff, avgUidiff, perturbVelocity]
      ring
    have hav : ((perturbVelocity self delta).locals ext junk edge nodeL nodeR).av
        = (self.locals ext junk edge nodeL nodeR).av := rfl
    have hinv : ((perturbVelocity self delta).locals ext junk edge nodeL nodeR).inv_axdx
        = (self.locals ext junk edge nodeL nodeR).inv_axdx := rfl
    have hG : ∀ l, GjfluctUi (perturbVelocity self delta) nodeL nodeR a l
        = GjfluctUi self nodeL nodeR a l := fun _ => rfl
    have hdx : ∀ l, edge_dx (perturbVelocity self delta) nodeL nodeR l
        = edge_dx self nodeL nodeR l := fun _ => rfl
    rw [hdiff, hav, hinv, hn]
    simp only [hG, hdx]
    ring

theorem sum_two_blocks (n : Nat) (f : Nat → K) :
    (∑ c ∈ Finset.range (2 * n), f c)
      = ∑ j ∈ Finset.range n, f j + ∑ j ∈ Finset.range n, f (j + n) := by
  rw [two_mul, Finset.sum_range_add]
  congr 1
  apply Finset.sum_congr rfl
  intro j _
  rw [Nat.add_comm]

/-- Claim C18: with `relaxFacU_ = 1` and every input but the nodal velocities fixed, the rhs
contribution of `execute` is affine in the `2 * ndim` nodal velocity components and the lhs
contribution is minus its derivative: for every perturbation `delta` and every row
`r < 2 * ndim`, `rhs(u + delta)[r] - rhs(u)[r] = -sum_c lhs[r][c] * delta[c]`. The lhs is built
from the sub-grid factors `lhsfacDiff` (`rhoIp`, `CM43`, `epsilon13Ip`, `M43`, `av`, `inv_axdx`)
alone and is the same for every velocity, turbulent viscosity and blending ratio. -/
theorem jacobian_mirrors_residual (self : MomentumSSTTAMSDiffEdgeKernel K)
    (ext : EdgeCollaborators K) (junk : Uninit K) (smdata : ShmemData K)
    (edge nodeL nodeR : Entity) (hr : self.relaxFacU_ = 1)
    (_hax : (self.locals ext junk edge nodeL nodeR).axdx ≠ 0) :
    (∀ (delta : Entity → Nat → K) (r : Nat), r < 2 * self.nDim_ →
      ((perturbVelocity self delta).execute ext junk smdata edge nodeL nodeR).rhs r
          - (self.execute ext junk smdata edge nodeL nodeR).rhs r
        = -∑ c ∈ Finset.range (2 * self.nDim_),
            ((self.execute ext junk smdata edge nodeL nodeR).lhs r c - smdata.lhs r c)
              * velocityDelta delta nodeL nodeR self.nDim_ c) ∧
    (∀ (v t a : Entity → Nat → K),
      (MomentumSSTTAMSDiffEdgeKernel.execute
          { self with velocity_ := v, tvisc_ := t, alpha_ := a } ext junk smdata edge
          nodeL nodeR).lhs
        = (self.execute ext junk smdata edge nodeL nodeR).lhs) ∧
    (∀ i j, i < self.nDim_ → j < self.nDim_ →
      (self.execute ext junk smdata edge nodeL nodeR).lhs i (j + self.nDim_)
          - smdata.lhs i (j + self.nDim_)
        = (∑ k ∈ Finset.range self.nDim_,
            -(self.locals ext junk edge nodeL nodeR).rhoIp
              * (self.locals ext junk edge nodeL nodeR).CM43
              * (self.locals ext junk edge nodeL nodeR).epsilon13Ip
              * (self.locals ext junk edge nodeL nodeR).M43 i k
              * (self.locals ext junk edge nodeL nodeR).av k
              * (self.locals ext junk edge nodeL nodeR).av j
              * (self.locals ext junk edge nodeL nodeR).inv_axdx)
          + (if j = i then
              ∑ m ∈ Finset.range self.nDim_, ∑ k ∈ Finset.range self.nDim_,
                -(self.locals ext junk edge nodeL nodeR).rhoIp
                  * (self.locals ext junk edge nodeL nodeR).CM43
                  * (self.locals ext junk edge nodeL nodeR).epsilon13Ip
                  * (self.locals ext junk edge nodeL nodeR).M43 m k
                  * (self.locals ext junk edge nodeL nodeR).av k
                  * (self.locals ext junk edge nodeL nodeR).av m
                  * (self.locals ext junk edge nodeL nodeR).inv_axdx
            else 0)) := by
  refine ⟨?_, ?_, ?_⟩
  · intro delta r hr2
    have hn : (perturbVelocity self delta).nDim_ = self.nDim_ := rfl
    obtain ⟨hG, hF⟩ := velocity_shift_locals self ext junk edge nodeL nodeR delta
    -- the shift of the three residual terms of component `i`
    have hshift : ∀ i, i < self.nDim_ →
        avgDivUstress (perturbVelocity self delta)
            ((perturbVelocity self delta).locals ext junk edge nodeL nodeR) i
          + diffTerm self.nDim_ ((perturbVelocity self delta).locals ext junk edge nodeL nodeR) i
          + sgrsTerm self.nDim_ ((perturbVelocity self delta).locals ext junk edge nodeL nodeR) i
        = avgDivUstress self (self.locals ext junk edge nodeL nodeR) i
          + diffTerm self.nDim_ (self.locals ext junk edge nodeL nodeR) i
          + sgrsTerm self.nDim_ (self.locals ext junk edge nodeL nodeR) i
          + ∑ j ∈ Finset.range self.nDim_,
              ((delta nodeR i - delta nodeL i)
                  * (facDiff_i self.nDim_ (self.locals ext junk edge nodeL nodeR) i j).2
                + (delta nodeR j - delta nodeL j)
                  * (facDiff_j self.nDim_ (self.locals ext junk edge nodeL nodeR) i j).2) := by
      intro i hi
      obtain ⟨hd, hs⟩ := terms_shift self.nDim_ (self.locals ext junk edge nodeL nodeR)
        ((perturbVelocity self delta).locals ext junk edge nodeL nodeR)
        (fun a => delta nodeR a - delta nodeL a) i hi rfl rfl rfl rfl rfl rfl rfl hG hF
      have hdiv : ((perturbVelocity self delta).locals ext junk edge nodeL nodeR).avgDivU
          = (self.locals ext junk edge nodeL nodeR).avgDivU := by
        rw [locals_avgDivU, locals_avgDivU, hn]
        apply Finset.sum_congr rfl
        intro m hm
        exact hG m m (Finset.mem_range.mp hm) (Finset.mem_range.mp hm)
      have hD : avgDivUstress (perturbVelocity self delta)
            ((perturbVelocity self delta).locals ext junk edge nodeL nodeR) i
          = avgDivUstress self (self.locals ext junk edge nodeL nodeR) i := by
        unfold avgDivUstress
        rw [hdiv]
        rfl
      rw [hD, hd, hs]
      ring
    -- the Jacobian row of component `i` applied to the perturbation
    have hrowsum : ∀ i, i < self.nDim_ →
        (∑ j ∈ Finset.range self.nDim_,
          offBlock self.nDim_ (self.locals ext junk edge nodeL nodeR) i j
            * (delta nodeR j - delta nodeL j))
        = ∑ j ∈ Finset.range self.nDim_,
              ((delta nodeR i - delta nodeL i)
                  * (facDiff_i self.nDim_ (self.locals ext junk edge nodeL nodeR) i j).2
                + (delta nodeR j - delta nodeL j)
                  * (facDiff_j self.nDim_ (self.locals ext junk edge nodeL nodeR) i j).2) := by
      intro i hi
      have hsplit : ∀ j ∈ Finset.range self.nDim_,
          offBlock self.nDim_ (self.locals ext junk edge nodeL nodeR) i j
              * (delta nodeR j - delta nodeL j)
            = (delta nodeR j - delta nodeL j)
                * (facDiff_j self.nDim_ (self.locals ext junk edge nodeL nodeR) i j).2
              + (if j = i then
                  lhs_riC_i self.nDim_ (self.locals ext junk edge nodeL nodeR) i
                    * (delta nodeR j - delta nodeL j) else 0) := by
        intro j _
        unfold offBlock
        split_ifs <;> ring
      rw [Finset.sum_congr rfl hsplit, Finset.sum_add_distrib,
        Finset.sum_ite_eq' (Finset.range self.nDim_) i, if_pos (Finset.mem_range.mpr hi),
        Finset.sum_add_distrib, ← Finset.mul_sum]
      unfold lhs_riC_i
      ring
    have hvL : ∀ j ∈ Finset.range self.nDim_,
        velocityDelta delta nodeL nodeR self.nDim_ j = delta nodeL j := by
      intro j hj
      simp [velocityDelta, Finset.mem_range.mp hj]
    have hvR : ∀ j, velocityDelta delta nodeL nodeR self.nDim_ (j + self.nDim_)
        = delta nodeR j := by
      intro j
      simp [velocityDelta]
    by_cases hlow : r < self.nDim_
    · -- a left-node row
      obtain ⟨hL', -⟩ := execute_rhs_rows (perturbVelocity self delta) ext junk smdata edge
        nodeL nodeR r hlow
      obtain ⟨hL, -⟩ := execute_rhs_rows self ext junk smdata edge nodeL nodeR r hlow
      have hL'' : ((perturbVelocity self delta).execute ext junk smdata edge nodeL nodeR).rhs r
          = smdata.rhs r
            - (avgDivUstress (perturbVelocity self delta)
                  ((perturbVelocity self delta).locals ext junk edge nodeL nodeR) r
                + diffTerm self.nDim_
                    ((perturbVelocity self delta).locals ext junk edge nodeL nodeR) r
                + sgrsTerm self.nDim_
                    ((perturbVelocity self delta).locals ext junk edge nodeL nodeR) r) := hL'
      rw [hL'', hL, hshift r hlow, sum_two_blocks]
      have hcols : ∀ j ∈ Finset.range self.nDim_,
          ((self.execute ext junk smdata edge nodeL nodeR).lhs r j - smdata.lhs r j)
              * velocityDelta delta nodeL nodeR self.nDim_ j
            + ((self.execute ext junk smdata edge nodeL nodeR).lhs r (j + self.nDim_)
                - smdata.lhs r (j + self.nDim_))
              * velocityDelta delta nodeL nodeR self.nDim_ (j + self.nDim_)
          = offBlock self.nDim_ (self.locals ext junk edge nodeL nodeR) r j
              * (delta nodeR j - delta nodeL j) := by
        intro j hj
        obtain ⟨hLL, hLR, -, -⟩ := execute_lhs_entries self ext junk smdata edge nodeL nodeR
          r j hlow (Finset.mem_range.mp hj)
        rw [hLL, hLR, hvL j hj, hvR j, hr]
        ring
      rw [← Finset.sum_add_distrib, Finset.sum_congr rfl hcols, hrowsum r hlow]
      ring
    · -- a right-node row
      obtain ⟨i, hi, rfl⟩ : ∃ i, i < self.nDim_ ∧ r = i + self.nDim_ :=
        ⟨r - self.nDim_, by omega, by omega⟩
      obtain ⟨-, hR'⟩ := execute_rhs_rows (perturbVelocity self delta) ext junk smdata edge
        nodeL nodeR i hi
      obtain ⟨-, hR⟩ := execute_rhs_rows self ext junk smdata edge nodeL nodeR i hi
      have hR'' : ((perturbVelocity self delta).execute ext junk smdata edge
            nodeL nodeR).rhs (i + self.nDim_)
          = smdata.rhs (i + self.nDim_)
            + (avgDivUstress (perturbVelocity self delta)
                  ((perturbVelocity self delta).locals ext junk edge nodeL nodeR) i
                + diffTerm self.nDim_
                    ((perturbVelocity self delta).locals ext junk edge nodeL nodeR) i
                + sgrsTerm self.nDim_
                    ((perturbVelocity self delta).locals ext junk edge nodeL nodeR) i) := hR'
      rw [hR'', hR, hshift i hi, sum_two_blocks]
      have hcols : ∀ j ∈ Finset.range self.nDim_,
          ((self.execute ext junk smdata edge nodeL nodeR).lhs (i + self.nDim_) j
                - smdata.lhs (i + self.nDim_) j)
              * velocityDelta delta nodeL nodeR self.nDim_ j
            + ((self.execute ext junk smdata edge nodeL nodeR).lhs (i + self.nDim_)
                  (j + self.nDim_)
                - smdata.lhs (i + self.nDim_) (j + self.nDim_))
              * velocityDelta delta nodeL nodeR self.nDim_ (j + self.nDim_)
          = -(offBlock self.nDim_ (self.locals ext junk edge nodeL nodeR) i j
              * (delta nodeR j - delta nodeL j)) := by
        intro j hj
        obtain ⟨-, -, hRL, hRR⟩ := execute_lhs_entries self ext junk smdata edge nodeL nodeR
          i j hi (Finset.mem_range.mp hj)
        rw [hRL, hRR, hvL j hj, hvR j, hr]
        ring
      rw [← Finset.sum_add_distrib, Finset.sum_congr rfl hcols, Finset.sum_neg_distrib,
        hrowsum i hi]
      ring
  · intro v t a
    funext p q
    have h1 : (MomentumSSTTAMSDiffEdgeKernel.execute
        { self with velocity_ := v, tvisc_ := t, alpha_ := a } ext junk smdata edge
        nodeL nodeR).lhs p q
        = (forLoop self.nDim_ (assemble_i { self with velocity_ := v, tvisc_ := t, alpha_ := a }
            (MomentumSSTTAMSDiffEdgeKernel.locals
              { self with velocity_ := v, tvisc_ := t, alpha_ := a } ext junk edge
              nodeL nodeR)) smdata).lhs p q := rfl
    have h2 : (self.execute ext junk smdata edge nodeL nodeR).lhs p q
        = (forLoop self.nDim_ (assemble_i self (self.locals ext junk edge nodeL nodeR))
            smdata).lhs p q := rfl
    have hfac : ∀ i j,
        (facDiff_i self.nDim_ (MomentumSSTTAMSDiffEdgeKernel.locals
              { self with velocity_ := v, tvisc_ := t, alpha_ := a } ext junk edge
              nodeL nodeR) i j).2
          = (facDiff_i self.nDim_ (self.locals ext junk edge nodeL nodeR) i j).2 ∧
        (facDiff_j self.nDim_ (MomentumSSTTAMSDiffEdgeKernel.locals
              { self with velocity_ := v, tvisc_ := t, alpha_ := a } ext junk edge
              nodeL nodeR) i j).2
          = (facDiff_j self.nDim_ (self.locals ext junk edge nodeL nodeR) i j).2 :=
      fun i j => lhsfac_congr self.nDim_ _ _ i j rfl rfl rfl rfl rfl rfl
    rw [h1, h2, assemble_i_loop_lhs, assemble_i_loop_lhs]
    simp only [lhs_riC_i, hfac]
  · intro i j hi hj
    obtain ⟨-, hLR, -, -⟩ := execute_lhs_entries self ext junk smdata edge nodeL nodeR i j hi hj
    rw [hLR]
    unfold offBlock lhs_riC_i
    rw [(facDiff_eq self.nDim_ _ i j).2]
    have hin : ∀ m ∈ Finset.range self.nDim_,
        (facDiff_i self.nDim_ (self.locals ext junk edge nodeL nodeR) i m).2
          = ∑ k ∈ Finset.range self.nDim_,
            -(self.locals ext junk edge nodeL nodeR).rhoIp
              * (self.locals ext junk edge nodeL nodeR).CM43
              * (self.locals ext junk edge nodeL nodeR).epsilon13Ip
              * (self.locals ext junk edge nodeL nodeR).M43 m k
              * (self.locals ext junk edge nodeL nodeR).av k
              * (self.locals ext junk edge nodeL nodeR).av m
              * (self.locals ext junk edge nodeL nodeR).inv_axdx := by
      intro m _
      rw [(facDiff_eq self.nDim_ _ i m).1]
    rw [Finset.sum_congr rfl hin]
    ring

/-- Claim C18 exercised on `edgeKernel2d` with the relaxation factor set to 1, for a
perturbation of the velocity of both nodes, on row 0. -/
theorem jacobian_mirrors_residual_witness :
    ((perturbVelocity { edgeKernel2d with relaxFacU_ := 1 }
          (fun node d => if d = 0 then 1 + node else 3)).execute edgeCollab zeroStack
          { rhs := fun _ => 0, lhs := fun _ _ => 0 } 0 0 1).rhs 0
        - (MomentumSSTTAMSDiffEdgeKernel.execute { edgeKernel2d with relaxFacU_ := 1 }
          edgeCollab zeroStack { rhs := fun _ => 0, lhs := fun _ _ => 0 } 0 0 1).rhs 0
      = -∑ c ∈ Finset.range (2 * 2),
          ((MomentumSSTTAMSDiffEdgeKernel.execute { edgeKernel2d with relaxFacU_ := 1 }
              edgeCollab zeroStack { rhs := fun _ => 0, lhs := fun _ _ => 0 } 0 0 1).lhs 0 c
            - 0)
            * velocityDelta (fun node d => if d = 0 then 1 + (node : ℚ) else 3) 0 1 2 c :=
  (jacobian_mirrors_residual { edgeKernel2d with relaxFacU_ := 1 } edgeCollab zeroStack
    { rhs := fun _ => 0, lhs := fun _ _ => 0 } 0 0 1 rfl
    (by
      norm_num [MomentumSSTTAMSDiffEdgeKernel.locals, edgeKernel2d, zeroStack, forLoop,
        setAt])).1 (fun node d => if d = 0 then 1 + node else 3) 0 (by decide)

end EdgeKernelClaims4

/-! ### Bounded execution of the Newton loop -/

section NewtonBounds

variable {K : Type} [LinearOrderedField K] {V : Type}

/-- The number of loop-body executions of the loop entered for the `(i + 1)`-th time on the
undisturbed guess sequence, after `i` iterations that each passed the continuation test
`|d_m|^2 > tol && m < maxIter`: at least `i + 1`, at most `max 1 maxIter`, and every iteration
before the last one passed the continuation test. -/
theorem newton_evals_bounds (body : V → V) (add : V → V → V) (normsq : V → K)
    (maxIter : Int) (tol deltaLimit : K) (g0 : V) (n : Nat) :
    ∀ (i : Nat), (maxIter - i).toNat ≤ n →
      (∀ m, 1 ≤ m → m ≤ i → tol < normsq (correction body add g0 m) ∧ (m : Int) < maxIter) →
      i + 1 ≤ (newton_do_while body add normsq maxIter tol deltaLimit
          { iter := i, guess := guessSeq body add g0 i, evals := i }).evals ∧
      (((newton_do_while body add normsq maxIter tol deltaLimit
          { iter := i, guess := guessSeq body add g0 i, evals := i }).evals : Nat) : Int)
        ≤ max 1 maxIter ∧
      (∀ m, 1 ≤ m → m < (newton_do_while body add normsq maxIter tol deltaLimit
          { iter := i, guess := guessSeq body add g0 i, evals := i }).evals →
        tol < normsq (correction body add g0 m) ∧ (m : Int) < maxIter) := by
  -- the three exits of the loop leave `evals = i + 1`
  have hexit : ∀ (i : Nat),
      (∀ m, 1 ≤ m → m ≤ i → tol < normsq (correction body add g0 m) ∧ (m : Int) < maxIter) →
      i + 1 ≤ i + 1 ∧ (((i + 1 : Nat) : Nat) : Int) ≤ max 1 maxIter ∧
      (∀ m, 1 ≤ m → m < i + 1 →
        tol < normsq (correction body add g0 m) ∧ (m : Int) < maxIter) := by
    intro i hprev
    refine ⟨le_refl _, ?_, fun m hm1 hm2 => hprev m hm1 (by omega)⟩
    rcases Nat.eq_zero_or_pos i with hi | hi
    · subst hi
      exact le_max_left _ _
    · have hlt := (hprev i hi (le_refl _)).2
      exact le_trans (by push_cast; omega) (le_max_right _ _)
  induction n with
  | zero =>
    intro i hn hprev
    rw [newton_do_while]
    split_ifs with h1 h2 h3
    · exact hexit i hprev
    · have h3i : (i : Int) + 1 < maxIter := h3
      omega
    · exact hexit i hprev
    · exact hexit i hprev
  | succ n ih =>
    intro i hn hprev
    have hd : body (guessSeq body add g0 i) = correction body add g0 (i + 1) := rfl
    rw [newton_do_while]
    simp only [hd]
    split_ifs with h1 h2 h3
    · exact hexit i hprev
    · have hprev1 : ∀ m, 1 ≤ m → m ≤ i + 1 →
          tol < normsq (correction body add g0 m) ∧ (m : Int) < maxIter := by
        intro m hm1 hm2
        by_cases hmi : m ≤ i
        · exact hprev m hm1 hmi
        · have hm : m = i + 1 := by omega
          subst hm
          exact ⟨h2, by push_cast; exact h3⟩
      have key := ih (i + 1) (by push_cast; omega) hprev1
      rw [guessSeq_succ] at key
      have hcast : ((i : Int) + 1) = ((i + 1 : Nat) : Int) := by push_cast; rfl
      rw [hcast]
      exact ⟨by omega, key.2.1, key.2.2⟩
    · exact hexit i hprev
    · exact hexit i hprev

/-- The loop started from `iter = 0` runs its body at least once and at most `max 1 maxIter`
times, and every iteration that is followed by another one passed the continuation test. -/
theorem newton_evals_from_start (body : V → V) (add : V → V → V) (normsq : V → K)
    (maxIter : Int) (tol deltaLimit : K) (g0 : V) :
    1 ≤ (newton_do_while body add normsq maxIter tol deltaLimit
        { iter := 0, guess := g0, evals := 0 }).evals ∧
    (((newton_do_while body add normsq maxIter tol deltaLimit
        { iter := 0, guess := g0, evals := 0 }).evals : Nat) : Int) ≤ max 1 maxIter ∧
    (∀ m, 1 ≤ m → m < (newton_do_while body add normsq maxIter tol deltaLimit
        { iter := 0, guess := g0, evals := 0 }).evals →
      tol < normsq (correction body add g0 m) ∧ (m : Int) < maxIter) := by
  have key := newton_evals_bounds body add normsq maxIter tol deltaLimit g0
    (maxIter - ((0 : Nat) : Int)).toNat 0 (le_refl _) (by intro m h1 h2; omega)
  simpa [guessSeq] using key

/-- Claim C16: for every input (any `maxIter`, `tol`, `deltaLimit`, also `maxIter ≤ 0` and a
negative `tol`), the Newton loop body of the 3-d and of the 2-d point-location solver is
executed at least once and at most `max 1 maxIter` times, and an iteration `m` is followed by
another one only when its squared correction norm exceeds `tol` and the incremented iteration
count `m` is still below `maxIter`. -/
theorem newton_loop_bounded
    (basis3 : LagrangeBasis K (K × K × K)) (solve33 : (Nat → K) → K × K × K → K × K × K)
    (coords3 point3 : Nat → K) (guess3 : K × K × K)
    (basis2 : LagrangeBasis K (K × K)) (solve22 : (Nat → K) → K × K → K × K)
    (coords2 point2 : Nat → K) (guess2 : K × K)
    (maxIter : Int) (tol deltaLimit : K) :
    (1 ≤ (run_3d basis3 solve33 coords3 point3 guess3 maxIter tol deltaLimit).evals ∧
      (((run_3d basis3 solve33 coords3 point3 guess3 maxIter tol deltaLimit).evals : Nat) : Int)
        ≤ max 1 maxIter ∧
      (∀ m, 1 ≤ m →
        m < (run_3d basis3 solve33 coords3 point3 guess3 maxIter tol deltaLimit).evals →
        tol < vecnorm_sq3 (correction (delta_3d basis3 solve33 coords3 point3) add3 guess3 m) ∧
          (m : Int) < maxIter)) ∧
    (1 ≤ (run_2d basis2 solve22 coords2 point2 guess2 maxIter tol deltaLimit).evals ∧
      (((run_2d basis2 solve22 coords2 point2 guess2 maxIter tol deltaLimit).evals : Nat) : Int)
        ≤ max 1 maxIter ∧
      (∀ m, 1 ≤ m →
        m < (run_2d basis2 solve22 coords2 point2 guess2 maxIter tol deltaLimit).evals →
        tol < vecnorm_sq2 (correction (delta_2d basis2 solve22 coords2 point2) add2 guess2 m) ∧
          (m : Int) < maxIter)) :=
  ⟨newton_evals_from_start _ _ _ _ _ _ _, newton_evals_from_start _ _ _ _ _ _ _⟩

end NewtonBounds

/-! ### The Jacobian of the scalar mass kernel -/

section ScalarMassCoordinates

variable {K : Type}

/-- The coordinate loop of the gather, seen on `ws_coordinates_` alone. -/
theorem coordLoop_ws (self : ScalarMassElemSuppAlgDep K) (m niNdim : Nat) (coords : Nat → K) :
    (forLoop m (fun i (t : ScalarMassElemSuppAlgDep K) =>
        { t with ws_coordinates_ := setAt t.ws_coordinates_ (niNdim + i) (coords i) })
      self).ws_coordinates_
      = forLoop m (fun i (c : Nat → K) => setAt c (niNdim + i) (coords i))
          self.ws_coordinates_ := by
  induction m with
  | zero => rfl
  | succ m ih =>
    rw [forLoop_succ, forLoop_succ, ← ih]

/-- The coordinates left in `ws_coordinates_` by the gather are read from `coordinates_` alone:
they depend on no scalar and on no density. -/
theorem gather_ws_coordinates (self : ScalarMassElemSuppAlgDep K) (node_rels : Nat → Entity)
    (n : Nat) :
    (self.gather node_rels n).ws_coordinates_
      = forLoop n (fun ni (c : Nat → K) =>
          forLoop self.nDim_ (fun i (c : Nat → K) =>
            setAt c (ni * self.nDim_ + i) (self.coordinates_ (node_rels ni) i)) c)
          self.ws_coordinates_ := by
  induction n with
  | zero => rfl
  | succ n ih =>
    obtain ⟨c, hc⟩ := gather_eq self node_rels n
    have hnd : (self.gather node_rels n).nDim_ = self.nDim_ := by rw [hc]
    have hco : (self.gather node_rels n).coordinates_ = self.coordinates_ := by rw [hc]
    have hstep : (self.gather node_rels (n + 1)).ws_coordinates_ =
        (forLoop (self.gather node_rels n).nDim_
          (fun i (t : ScalarMassElemSuppAlgDep K) =>
            { t with ws_coordinates_ := (setAt t.ws_coordinates_
                (n * (self.gather node_rels n).nDim_ + i)
                ((self.gather node_rels n).coordinates_ (node_rels n) i)) })
          { self.gather node_rels n with
            ws_qNm1_ := (setAt (self.gather node_rels n).ws_qNm1_ n
              ((self.gather node_rels n).scalarQNm1_ (node_rels n)))
            ws_qN_ := (setAt (self.gather node_rels n).ws_qN_ n
              ((self.gather node_rels n).scalarQN_ (node_rels n)))
            ws_qNp1_ := (setAt (self.gather node_rels n).ws_qNp1_ n
              ((self.gather node_rels n).scalarQNp1_ (node_rels n)))
            ws_rhoNm1_ := (setAt (self.gather node_rels n).ws_rhoNm1_ n
              ((self.gather node_rels n).densityNm1_ (node_rels n)))
            ws_rhoN_ := (setAt (self.gather node_rels n).ws_rhoN_ n
              ((self.gather node_rels n).densityN_ (node_rels n)))
            ws_rhoNp1_ := (setAt (self.gather node_rels n).ws_rhoNp1_ n
              ((self.gather node_rels n).densityNp1_ (node_rels n))) }).ws_coordinates_ := rfl
    rw [hstep, coordLoop_ws, forLoop_succ, ← ih, hnd, hco]

/-- The sub-control-volume volumes are the same for two kernels with the same mesh, coordinate
field, dimension and coordinate scratch array. -/
theorem scvVolume_congr (s t : ScalarMassElemSuppAlgDep K) (element : Entity)
    (me : MasterElement K) (hb : t.bulkData_ = s.bulkData_)
    (hc : t.coordinates_ = s.coordinates_) (hn : t.nDim_ = s.nDim_)
    (hw : t.ws_coordinates_ = s.ws_coordinates_) :
    t.scvVolume element me = s.scvVolume element me := by
  unfold ScalarMassElemSuppAlgDep.scvVolume
  rw [gather_ws_coordinates, gather_ws_coordinates, hb, hc, hn, hw]

end ScalarMassCoordinates

section ScalarMassJacobian

variable {K : Type} [LinearOrderedField K]

theorem shapeSum_add (N a b : Nat → K) (npe ip : Nat) :
    shapeSum N npe ip (fun ic => a ic + b ic) = shapeSum N npe ip a + shapeSum N npe ip b := by
  unfold shapeSum
  rw [← Finset.sum_add_distrib]
  apply Finset.sum_congr rfl
  intro ic _
  ring

/-- One entry of row `n` of the left-hand side left by `elem_execute`: the Jacobian terms of the
integration points whose nearest node is `n`. -/
theorem elem_execute_lhs_entry (self : ScalarMassElemSuppAlgDep K) (lhs rhs : Nat → K)
    (element : Entity) (me : MasterElement K)
    (h : self.bulkData_.num_nodes element = me.nodesPerElement_) (n ic : Nat)
    (hic : ic < me.nodesPerElement_) :
    (self.elem_execute lhs rhs element me).lhs (n * me.nodesPerElement_ + ic)
      = lhs (n * me.nodesPerElement_ + ic)
        + ∑ ip ∈ ipsOfNode me n, self.jacTerm element me ip ic := by
  rw [elem_execute_lhs self lhs rhs element me h, ipsOfNode, Finset.sum_filter]
  congr 1
  apply Finset.sum_congr rfl
  intro ip _
  exact inner_sum_flat me.nodesPerElement_ (me.ipNodeMap ip) n ic
    (fun j => self.jacTerm element me ip j) hic

/-- The mass term of the kernel with the perturbed `n+1` scalar. -/
theorem massTerm_perturbed (self : ScalarMassElemSuppAlgDep K) (element : Entity)
    (me : MasterElement K) (delta : Entity → K) (ip : Nat) :
    (perturbScalarNp1 self delta).massTerm element me ip
      = self.massTerm element me ip
        + ∑ ic ∈ Finset.range me.nodesPerElement_,
            self.jacTerm element me ip ic * delta (self.bulkData_.begin_nodes element ic) := by
  have hV : (perturbScalarNp1 self delta).scvVolume element me = self.scvVolume element me :=
    scvVolume_congr self (perturbScalarNp1 self delta) element me rfl rfl rfl rfl
  have hq : (perturbScalarNp1 self delta).gathered element (perturbScalarNp1 self delta).scalarQNp1_
      = fun ic => self.gathered element self.scalarQNp1_ ic
          + delta (self.bulkData_.begin_nodes element ic) := rfl
  have hjac : ∀ ic ∈ Finset.range me.nodesPerElement_,
      self.jacTerm element me ip ic * delta (self.bulkData_.begin_nodes element ic)
        = self.gamma1_
            * shapeSum self.ws_shape_function_ me.nodesPerElement_ ip
                (self.gathered element self.densityNp1_)
            * self.scvVolume element me ip / self.dt_
            * (self.ws_shape_function_ (ip * me.nodesPerElement_ + ic)
                * delta (self.bulkData_.begin_nodes element ic)) := by
    intro ic _
    unfold ScalarMassElemSuppAlgDep.jacTerm
    ring
  rw [Finset.sum_congr rfl hjac, ← Finset.mul_sum]
  unfold ScalarMassElemSuppAlgDep.massTerm
  rw [hV, hq, shapeSum_add]
  have hrest : (perturbScalarNp1 self delta).gamma1_ = self.gamma1_ ∧
      (perturbScalarNp1 self delta).gamma2_ = self.gamma2_ ∧
      (perturbScalarNp1 self delta).gamma3_ = self.gamma3_ ∧
      (perturbScalarNp1 self delta).dt_ = self.dt_ ∧
      (perturbScalarNp1 self delta).ws_shape_function_ = self.ws_shape_function_ :=
    ⟨rfl, rfl, rfl, rfl, rfl⟩
  obtain ⟨h1, h2, h3, h4, h5⟩ := hrest
  rw [h1, h2, h3, h4, h5]
  have hg : ∀ f : Entity → K, (perturbScalarNp1 self delta).gathered element f
      = self.gathered element f := fun _ => rfl
  have hd : (perturbScalarNp1 self delta).densityNp1_ = self.densityNp1_ ∧
      (perturbScalarNp1 self delta).densityN_ = self.densityN_ ∧
      (perturbScalarNp1 self delta).densityNm1_ = self.densityNm1_ ∧
      (perturbScalarNp1 self delta).scalarQN_ = self.scalarQN_ ∧
      (perturbScalarNp1 self delta).scalarQNm1_ = self.scalarQNm1_ :=
    ⟨rfl, rfl, rfl, rfl, rfl⟩
  obtain ⟨d1, d2, d3, d4, d5⟩ := hd
  rw [d1, d2, d3, d4, d5, hg, hg, hg, hg, hg]
  unfold shapeSum
  ring

/-- Claim C17: the Jacobian of the scalar mass kernel is the implicit (`n+1`) term only and is
the exact linearisation of its residual in the `n+1` scalar with the density frozen. When the
node counts agree, `elem_execute` adds to `lhs[n*nodesPerElement + ic]` exactly the sum over the
`ip` with `ipNodeMap[ip] = n` of `N[ip][ic]*gamma1*rhoNp1(ip)*V(ip)/dt`; the `lhs` is the same
whatever the three scalar fields and the state-N and state-Nm1 densities are; and for every
perturbation `delta` of the `n+1` scalar and every node `n`,
`rhs(qNp1 + delta)[n] - rhs(qNp1)[n] = -sum_ic lhs_increment[n][ic] * delta[ic]`. -/
theorem jacobian_linearises_residual (self : ScalarMassElemSuppAlgDep K) (lhs rhs : Nat → K)
    (element : Entity) (meSCV : MasterElement K)
    (h : self.bulkData_.num_nodes element = meSCV.nodesPerElement_) :
    (∀ n ic, ic < meSCV.nodesPerElement_ →
      (self.elem_execute lhs rhs element meSCV).lhs (n * meSCV.nodesPerElement_ + ic)
        = lhs (n * meSCV.nodesPerElement_ + ic)
          + ∑ ip ∈ ipsOfNode meSCV n,
              self.ws_shape_function_ (ip * meSCV.nodesPerElement_ + ic) * self.gamma1_
                * shapeSum self.ws_shape_function_ meSCV.nodesPerElement_ ip
                    (self.gathered element self.densityNp1_)
                * self.scvVolume element meSCV ip / self.dt_) ∧
    (∀ (qNm1 qN qNp1 rhoNm1 rhoN : Entity → K),
      (ScalarMassElemSuppAlgDep.elem_execute
          { self with scalarQNm1_ := qNm1, scalarQN_ := qN, scalarQNp1_ := qNp1,
                      densityNm1_ := rhoNm1, densityN_ := rhoN }
          lhs rhs element meSCV).lhs
        = (self.elem_execute lhs rhs element meSCV).lhs) ∧
    (∀ (delta : Entity → K) (n : Nat),
      ((perturbScalarNp1 self delta).elem_execute lhs rhs element meSCV).rhs n
          - (self.elem_execute lhs rhs element meSCV).rhs n
        = -∑ ic ∈ Finset.range meSCV.nodesPerElement_,
            ((self.elem_execute lhs rhs element meSCV).lhs (n * meSCV.nodesPerElement_ + ic)
                - lhs (n * meSCV.nodesPerElement_ + ic))
              * delta (self.bulkData_.begin_nodes element ic)) := by
  refine ⟨?_, ?_, ?_⟩
  · intro n ic hic
    rw [elem_execute_lhs_entry self lhs rhs element meSCV h n ic hic]
    rfl
  · intro qNm1 qN qNp1 rhoNm1 rhoN
    funext x
    have hL := elem_execute_lhs
      { self with scalarQNm1_ := qNm1, scalarQN_ := qN, scalarQNp1_ := qNp1,
                  densityNm1_ := rhoNm1, densityN_ := rhoN } lhs rhs element meSCV h x
    rw [elem_execute_lhs self lhs rhs element meSCV h x, hL]
    congr 1
    apply Finset.sum_congr rfl
    intro ip _
    apply Finset.sum_congr rfl
    intro ic _
    have hV : ScalarMassElemSuppAlgDep.scvVolume
          { self with scalarQNm1_ := qNm1, scalarQN_ := qN, scalarQNp1_ := qNp1,
                      densityNm1_ := rhoNm1, densityN_ := rhoN } element meSCV
        = self.scvVolume element meSCV :=
      scvVolume_congr self _ element meSCV rfl rfl rfl rfl
    unfold ScalarMassElemSuppAlgDep.jacTerm
    rw [hV]
    rfl
  · intro delta n
    rw [elem_execute_rhs self lhs rhs element meSCV h n,
      elem_execute_rhs (perturbScalarNp1 self delta) lhs rhs element meSCV h n]
    have hinc : ∀ ic ∈ Finset.range meSCV.nodesPerElement_,
        ((self.elem_execute lhs rhs element meSCV).lhs (n * meSCV.nodesPerElement_ + ic)
            - lhs (n * meSCV.nodesPerElement_ + ic))
          * delta (self.bulkData_.begin_nodes element ic)
        = ∑ ip ∈ Finset.range meSCV.num_integration_points,
            if meSCV.ipNodeMap ip = n then
              self.jacTerm element meSCV ip ic * delta (self.bulkData_.begin_nodes element ic)
            else 0 := by
      intro ic hic
      rw [elem_execute_lhs_entry self lhs rhs element meSCV h n ic (Finset.mem_range.mp hic),
        add_sub_cancel_left, ipsOfNode, Finset.sum_filter, Finset.sum_mul]
      apply Finset.sum_congr rfl
      intro ip _
      split_ifs
      · rfl
      · exact zero_mul _
    rw [Finset.sum_congr rfl hinc, Finset.sum_comm, add_sub_add_left_eq_sub,
      ← Finset.sum_sub_distrib, ← Finset.sum_neg_distrib]
    apply Finset.sum_congr rfl
    intro ip _
    by_cases hip : meSCV.ipNodeMap ip = n
    · simp only [hip, if_true, massTerm_perturbed, Finset.sum_const_zero]
      ring
    · simp [hip]

/-- Claim C17 exercised on the first element of the line mesh with BDF2 coefficients, for the
perturbation `delta(k) = 1 + k` of the `n+1` scalar, at node 0. -/
theorem jacobian_linearises_residual_witness :
    ((perturbScalarNp1
          (lineKernel 3 (3 / 2) (-2) (1 / 2) 2
            (stateField (fun _ => 1) (fun _ => 2) (fun k => 3 + k))
            (stateField (fun k => k) (fun _ => 1) (fun k => 2 * k + 1)) false)
          (fun k => 1 + (k : ℚ))).elem_execute (fun _ => 0) (fun _ => 0) 0 (lineElement 0)).rhs 0
        - ((lineKernel 3 (3 / 2) (-2) (1 / 2) 2
            (stateField (fun _ => 1) (fun _ => 2) (fun k => 3 + k))
            (stateField (fun k => k) (fun _ => 1) (fun k => 2 * k + 1)) false).elem_execute
          (fun _ => 0) (fun _ => 0) 0 (lineElement 0)).rhs 0
      = -∑ ic ∈ Finset.range 2,
          (((lineKernel 3 (3 / 2) (-2) (1 / 2) 2
              (stateField (fun _ => 1) (fun _ => 2) (fun k => 3 + k))
              (stateField (fun k => k) (fun _ => 1) (fun k => 2 * k + 1)) false).elem_execute
            (fun _ => 0) (fun _ => 0) 0 (lineElement 0)).lhs (0 * 2 + ic) - 0)
            * (1 + ((0 + ic : Nat) : ℚ)) :=
  (jacobian_linearises_residual
    (lineKernel 3 (3 / 2) (-2) (1 / 2) 2
      (stateField (fun _ => 1) (fun _ => 2) (fun k => 3 + k))
      (stateField (fun k => k) (fun _ => 1) (fun k => 2 * k + 1)) false)
    (fun _ => 0) (fun _ => 0) 0 (lineElement 0) rfl).2.2 (fun k => 1 + (k : ℚ)) 0

end ScalarMassJacobian

/-! ### Accumulation into the caller-owned buffers -/

section Accumulation

variable {K : Type} [LinearOrderedField K]

/-- The method `elem_execute` adds to `lhs` and `rhs` what it leaves on zeroed buffers, also
when the node-count assertion ends the call. -/
theorem elem_execute_additive (self : ScalarMassElemSuppAlgDep K) (L0 R0 : Nat → K)
    (element : Entity) (me : MasterElement K) (x : Nat) :
    (self.elem_execute L0 R0 element me).lhs x
        = L0 x + (self.elem_execute (fun _ => 0) (fun _ => 0) element me).lhs x ∧
    (self.elem_execute L0 R0 element me).rhs x
        = R0 x + (self.elem_execute (fun _ => 0) (fun _ => 0) element me).rhs x := by
  by_cases h : self.bulkData_.num_nodes element = me.nodesPerElement_
  · rw [elem_execute_lhs self L0 R0 element me h x,
      elem_execute_lhs self (fun _ => 0) (fun _ => 0) element me h x,
      elem_execute_rhs self L0 R0 element me h x,
      elem_execute_rhs self (fun _ => 0) (fun _ => 0) element me h x]
    simp only [zero_add, and_self]
  · simp [ScalarMassElemSuppAlgDep.elem_execute, ThrowAssert, h]

/-- The method `execute` adds to `smdata.rhs` and `smdata.lhs` what it leaves on zeroed
buffers. -/
theorem execute_additive (self : MomentumSSTTAMSDiffEdgeKernel K) (ext : EdgeCollaborators K)
    (junk : Uninit K) (smdata : ShmemData K) (edge nodeL nodeR : Entity) :
    (∀ r, (self.execute ext junk smdata edge nodeL nodeR).rhs r
        = smdata.rhs r
          + (self.execute ext junk { rhs := fun _ => 0, lhs := fun _ _ => 0 } edge
              nodeL nodeR).rhs r) ∧
    (∀ p q, (self.execute ext junk smdata edge nodeL nodeR).lhs p q
        = smdata.lhs p q
          + (self.execute ext junk { rhs := fun _ => 0, lhs := fun _ _ => 0 } edge
              nodeL nodeR).lhs p q) := by
  constructor
  · intro r
    have h1 : (self.execute ext junk smdata edge nodeL nodeR).rhs r
        = (forLoop self.nDim_ (assemble_i self (self.locals ext junk edge nodeL nodeR))
            smdata).rhs r := rfl
    have h2 : (self.execute ext junk { rhs := fun _ => 0, lhs := fun _ _ => 0 } edge
          nodeL nodeR).rhs r
        = (forLoop self.nDim_ (assemble_i self (self.locals ext junk edge nodeL nodeR))
            { rhs := fun _ => 0, lhs := fun _ _ => 0 }).rhs r := rfl
    rw [h1, h2, assemble_i_loop_rhs, assemble_i_loop_rhs]
    ring
  · intro p q
    have h1 : (self.execute ext junk smdata edge nodeL nodeR).lhs p q
        = (forLoop self.nDim_ (assemble_i self (self.locals ext junk edge nodeL nodeR))
            smdata).lhs p q := rfl
    have h2 : (self.execute ext junk { rhs := fun _ => 0, lhs := fun _ _ => 0 } edge
          nodeL nodeR).lhs p q
        = (forLoop self.nDim_ (assemble_i self (self.locals ext junk edge nodeL nodeR))
            { rhs := fun _ => 0, lhs := fun _ _ => 0 }).lhs p q := rfl
    rw [h1, h2, assemble_i_loop_lhs, assemble_i_loop_lhs]
    ring

/-- A node that is the nearest node of no integration point keeps its `rhs` entry and its `lhs`
row. -/
theorem elem_execute_untouched_node (self : ScalarMassElemSuppAlgDep K) (L0 R0 : Nat → K)
    (element : Entity) (me : MasterElement K) (n : Nat)
    (hn : ∀ ip, ip < me.num_integration_points → me.ipNodeMap ip ≠ n) :
    (self.elem_execute L0 R0 element me).rhs n = R0 n ∧
    (∀ ic, ic < me.nodesPerElement_ →
      (self.elem_execute L0 R0 element me).lhs (n * me.nodesPerElement_ + ic)
        = L0 (n * me.nodesPerElement_ + ic)) := by
  by_cases h : self.bulkData_.num_nodes element = me.nodesPerElement_
  · have hips : ipsOfNode me n = ∅ := by
      unfold ipsOfNode
      apply Finset.filter_eq_empty_iff.mpr
      intro ip hip
      exact hn ip (Finset.mem_range.mp hip)
    constructor
    · rw [elem_execute_rhs self L0 R0 element me h n]
      have hzero : (∑ ip ∈ Finset.range me.num_integration_points,
          if me.ipNodeMap ip = n then -(self.massTerm element me ip) else 0) = 0 := by
        apply Finset.sum_eq_zero
        intro ip hip
        rw [if_neg (hn ip (Finset.mem_range.mp hip))]
      rw [hzero, add_zero]
    · intro ic hic
      rw [elem_execute_lhs_entry self L0 R0 element me h n ic hic, hips, Finset.sum_empty,
        add_zero]
  · simp [ScalarMassElemSuppAlgDep.elem_execute, ThrowAssert, h]

/-- Claim C21: both kernels only accumulate into the caller-owned local buffers. For any initial
contents `L0`, `R0` of `lhs` and `rhs`, `ScalarMassElemSuppAlgDep::elem_execute` and
`MomentumSSTTAMSDiffEdgeKernel::execute` leave them equal to `L0 + dL` and `R0 + dR`, where
`dL`, `dR` are the values produced on zeroed buffers; and in the scalar mass kernel the `rhs`
entry and the `lhs` row of a node that is `ipNodeMap[ip]` for no integration point `ip` are
left unchanged. -/
theorem kernels_only_accumulate :
    (∀ (self : ScalarMassElemSuppAlgDep K) (L0 R0 : Nat → K) (element : Entity)
      (meSCV : MasterElement K) (x : Nat),
      (self.elem_execute L0 R0 element meSCV).lhs x
          = L0 x + (self.elem_execute (fun _ => 0) (fun _ => 0) element meSCV).lhs x ∧
      (self.elem_execute L0 R0 element meSCV).rhs x
          = R0 x + (self.elem_execute (fun _ => 0) (fun _ => 0) element meSCV).rhs x) ∧
    (∀ (self : MomentumSSTTAMSDiffEdgeKernel K) (ext : EdgeCollaborators K) (junk : Uninit K)
      (smdata : ShmemData K) (edge nodeL nodeR : Entity),
      (∀ r, (self.execute ext junk smdata edge nodeL nodeR).rhs r
          = smdata.rhs r
            + (self.execute ext junk { rhs := fun _ => 0, lhs := fun _ _ => 0 } edge
                nodeL nodeR).rhs r) ∧
      (∀ p q, (self.execute ext junk smdata edge nodeL nodeR).lhs p q
          = smdata.lhs p q
            + (self.execute ext junk { rhs := fun _ => 0, lhs := fun _ _ => 0 } edge
                nodeL nodeR).lhs p q)) ∧
    (∀ (self : ScalarMassElemSuppAlgDep K) (L0 R0 : Nat → K) (element : Entity)
      (meSCV : MasterElement K) (n : Nat),
      (∀ ip, ip < meSCV.num_integration_points → meSCV.ipNodeMap ip ≠ n) →
      (self.elem_execute L0 R0 element meSCV).rhs n = R0 n ∧
      (∀ ic, ic < meSCV.nodesPerElement_ →
        (self.elem_execute L0 R0 element meSCV).lhs (n * meSCV.nodesPerElement_ + ic)
          = L0 (n * meSCV.nodesPerElement_ + ic))) :=
  ⟨elem_execute_additive, execute_additive, elem_execute_untouched_node⟩

/-- Claim C21 exercised on the first element of the line mesh, whose integration points have
the nearest nodes 0 and 1: the `rhs` entry and the `lhs` row of node 5 keep their initial
contents. -/
theorem kernels_only_accumulate_witness :
    ((lineKernel 3 (3 / 2) (-2) (1 / 2) 2
        (stateField (fun _ => 1) (fun _ => 2) (fun k => 3 + k))
        (stateField (fun k => k) (fun _ => 1) (fun k => 2 * k + 1)) false).elem_execute
      (fun k => 10 + (k : ℚ)) (fun k => 20 + (k : ℚ)) 0 (lineElement 0)).rhs 5
        = 20 + ((5 : Nat) : ℚ) ∧
    (∀ ic, ic < (lineElement 0).nodesPerElement_ →
      ((lineKernel 3 (3 / 2) (-2) (1 / 2) 2
          (stateField (fun _ => 1) (fun _ => 2) (fun k => 3 + k))
          (stateField (fun k => k) (fun _ => 1) (fun k => 2 * k + 1)) false).elem_execute
        (fun k => 10 + (k : ℚ)) (fun k => 20 + (k : ℚ)) 0 (lineElement 0)).lhs
          (5 * (lineElement 0).nodesPerElement_ + ic)
        = 10 + ((5 * (lineElement 0).nodesPerElement_ + ic : Nat) : ℚ)) :=
  (@kernels_only_accumulate ℚ _).2.2
    (lineKernel 3 (3 / 2) (-2) (1 / 2) 2
      (stateField (fun _ => 1) (fun _ => 2) (fun k => 3 + k))
      (stateField (fun k => k) (fun _ => 1) (fun k => 2 * k + 1)) false)
    (fun k => 10 + (k : ℚ)) (fun k => 20 + (k : ℚ)) 0 (lineElement 0) 5
    (by
      intro ip hip
      have hip2 : ip < 2 := hip
      show ip ≠ 5
      omega)

end Accumulation

/-! ### Row sums of the scalar mass Jacobian -/

section MassConservation

variable {K : Type} [LinearOrderedField K]

/-- A row of the nodal-indicator table sums to one when its node is a node of the element. -/
theorem indicator_row_sum (N : Nat → K) (npe ip a : Nat) (ha : a < npe)
    (hN : ∀ ic, ic < npe → N (ip * npe + ic) = if ic = a then 1 else 0) :
    ∑ ic ∈ Finset.range npe, N (ip * npe + ic) = 1 := by
  have hcongr : ∀ ic ∈ Finset.range npe, N (ip * npe + ic) = if ic = a then 1 else 0 :=
    fun ic hic => hN ic (Finset.mem_range.mp hic)
  rw [Finset.sum_congr rfl hcongr, Finset.sum_ite_eq' (Finset.range npe) a,
    if_pos (Finset.mem_range.mpr ha)]

/-- The sum over the columns of the Jacobian terms of one integration point, for a table row
that sums to one and a uniform nodal `n+1` density `rho`. -/
theorem jacTerm_column_sum (self : ScalarMassElemSuppAlgDep K) (element : Entity)
    (me : MasterElement K) (rho : K) (ip : Nat)
    (hrho : ∀ ic, ic < me.nodesPerElement_ →
      self.densityNp1_ (self.bulkData_.begin_nodes element ic) = rho)
    (hN : ∑ ic ∈ Finset.range me.nodesPerElement_,
      self.ws_shape_function_ (ip * me.nodesPerElement_ + ic) = 1) :
    ∑ ic ∈ Finset.range me.nodesPerElement_, self.jacTerm element me ip ic
      = self.gamma1_ * rho * self.scvVolume element me ip / self.dt_ := by
  have hrhoIp : shapeSum self.ws_shape_function_ me.nodesPerElement_ ip
      (self.gathered element self.densityNp1_) = rho :=
    shapeSum_const _ _ _ _ rho hrho hN
  have hterm : ∀ ic ∈ Finset.range me.nodesPerElement_,
      self.jacTerm element me ip ic
        = self.ws_shape_function_ (ip * me.nodesPerElement_ + ic)
          * (self.gamma1_ * rho * self.scvVolume element me ip / self.dt_) := by
    intro ic _
    unfold ScalarMassElemSuppAlgDep.jacTerm
    rw [hrhoIp]
    ring
  rw [Finset.sum_congr rfl hterm, ← Finset.sum_mul, hN, one_mul]

/-- The sum over the columns of the `lhs` increment in row `n`. -/
theorem lhs_row_sum (self : ScalarMassElemSuppAlgDep K) (lhs rhs : Nat → K)
    (element : Entity) (me : MasterElement K) (rho : K)
    (h : self.bulkData_.num_nodes element = me.nodesPerElement_)
    (hrho : ∀ ic, ic < me.nodesPerElement_ →
      self.densityNp1_ (self.bulkData_.begin_nodes element ic) = rho)
    (hN : ∀ ip, ip < me.num_integration_points →
      ∑ ic ∈ Finset.range me.nodesPerElement_,
        self.ws_shape_function_ (ip * me.nodesPerElement_ + ic) = 1) (n : Nat) :
    ∑ ic ∈ Finset.range me.nodesPerElement_,
        ((self.elem_execute lhs rhs element me).lhs (n * me.nodesPerElement_ + ic)
          - lhs (n * me.nodesPerElement_ + ic))
      = ∑ ip ∈ Finset.range me.num_integration_points,
          if me.ipNodeMap ip = n then
            self.gamma1_ * rho * self.scvVolume element me ip / self.dt_
          else 0 := by
  have hinc : ∀ ic ∈ Finset.range me.nodesPerElement_,
      (self.elem_execute lhs rhs element me).lhs (n * me.nodesPerElement_ + ic)
          - lhs (n * me.nodesPerElement_ + ic)
        = ∑ ip ∈ Finset.range me.num_integration_points,
            if me.ipNodeMap ip = n then self.jacTerm element me ip ic else 0 := by
    intro ic hic
    rw [elem_execute_lhs_entry self lhs rhs element me h n ic (Finset.mem_range.mp hic),
      add_sub_cancel_left, ipsOfNode, Finset.sum_filter]
  rw [Finset.sum_congr rfl hinc, Finset.sum_comm]
  apply Finset.sum_congr rfl
  intro ip hip
  by_cases hn : me.ipNodeMap ip = n
  · simp only [hn, if_true]
    exact jacTerm_column_sum self element me rho ip hrho (hN ip (Finset.mem_range.mp hip))
  · simp only [hn, if_false, Finset.sum_const_zero]

/-- Claim C22: mass conservation of the scalar mass Jacobian. When the node counts agree, every
integration-point row of the shape-function table sums to 1 and the nodal `n+1` densities of the
element all equal `rho`, the sum over the columns `ic` of the `lhs` increment in row `n` is
`gamma1 * rho * (sum of V(ip) over the ip with ipNodeMap[ip] = n) / dt`; hence the kernel
resized with the standard table and the kernel resized with the nodal-indicator (lumped) table
have the same row sums; and, every `ipNodeMap[ip]` being a node of the element, the sum of all
`lhs` increments is `gamma1 * rho * (sum of all V(ip)) / dt`. -/
theorem jacobian_row_sums_conserve_mass (self : ScalarMassElemSuppAlgDep K)
    (lhs rhs : Nat → K) (element : Entity) (meSCV : MasterElement K) (rho : K)
    (h : self.bulkData_.num_nodes element = meSCV.nodesPerElement_)
    (hrho : ∀ ic, ic < meSCV.nodesPerElement_ →
      self.densityNp1_ (self.bulkData_.begin_nodes element ic) = rho) :
    ((∀ ip, ip < meSCV.num_integration_points →
        ∑ ic ∈ Finset.range meSCV.nodesPerElement_,
          self.ws_shape_function_ (ip * meSCV.nodesPerElement_ + ic) = 1) →
      ∀ n,
        ∑ ic ∈ Finset.range meSCV.nodesPerElement_,
            ((self.elem_execute lhs rhs element meSCV).lhs (n * meSCV.nodesPerElement_ + ic)
              - lhs (n * meSCV.nodesPerElement_ + ic))
          = self.gamma1_ * rho * (∑ ip ∈ ipsOfNode meSCV n, self.scvVolume element meSCV ip)
              / self.dt_) ∧
    ((∀ ip, ip < meSCV.num_integration_points →
        ∑ ic ∈ Finset.range meSCV.nodesPerElement_,
          meSCV.shape_fcn (ip * meSCV.nodesPerElement_ + ic) = 1) →
      (∀ ip, ip < meSCV.num_integration_points →
        meSCV.ipNodeMap ip < meSCV.nodesPerElement_) →
      (∀ ip ic, ip < meSCV.num_integration_points → ic < meSCV.nodesPerElement_ →
        meSCV.shifted_shape_fcn (ip * meSCV.nodesPerElement_ + ic)
          = if ic = meSCV.ipNodeMap ip then 1 else 0) →
      ∀ n,
        ∑ ic ∈ Finset.range meSCV.nodesPerElement_,
            ((ScalarMassElemSuppAlgDep.elem_execute
                  (ScalarMassElemSuppAlgDep.elem_resize { self with lumpedMass_ := false } meSCV)
                  lhs rhs element meSCV).lhs (n * meSCV.nodesPerElement_ + ic)
              - lhs (n * meSCV.nodesPerElement_ + ic))
          = ∑ ic ∈ Finset.range meSCV.nodesPerElement_,
            ((ScalarMassElemSuppAlgDep.elem_execute
                  (ScalarMassElemSuppAlgDep.elem_resize { self with lumpedMass_ := true } meSCV)
                  lhs rhs element meSCV).lhs (n * meSCV.nodesPerElement_ + ic)
              - lhs (n * meSCV.nodesPerElement_ + ic))) ∧
    ((∀ ip, ip < meSCV.num_integration_points →
        ∑ ic ∈ Finset.range meSCV.nodesPerElement_,
          self.ws_shape_function_ (ip * meSCV.nodesPerElement_ + ic) = 1) →
      (∀ ip, ip < meSCV.num_integration_points →
        meSCV.ipNodeMap ip < meSCV.nodesPerElement_) →
      ∑ n ∈ Finset.range meSCV.nodesPerElement_,
          ∑ ic ∈ Finset.range meSCV.nodesPerElement_,
            ((self.elem_execute lhs rhs element meSCV).lhs (n * meSCV.nodesPerElement_ + ic)
              - lhs (n * meSCV.nodesPerElement_ + ic))
        = self.gamma1_ * rho
            * (∑ ip ∈ Finset.range meSCV.num_integration_points,
                self.scvVolume element meSCV ip) / self.dt_) := by
  refine ⟨?_, ?_, ?_⟩
  · intro hN n
    rw [lhs_row_sum self lhs rhs element meSCV rho h hrho hN n, ipsOfNode, Finset.sum_filter,
      Finset.mul_sum, Finset.sum_div]
    apply Finset.sum_congr rfl
    intro ip _
    split_ifs
    · rfl
    · rw [mul_zero, zero_div]
  · intro hstd hmap hind n
    have hstd2 : ∀ ip, ip < meSCV.num_integration_points →
        ∑ ic ∈ Finset.range meSCV.nodesPerElement_,
          (ScalarMassElemSuppAlgDep.elem_resize { self with lumpedMass_ := false }
            meSCV).ws_shape_function_ (ip * meSCV.nodesPerElement_ + ic) = 1 := hstd
    have hlump2 : ∀ ip, ip < meSCV.num_integration_points →
        ∑ ic ∈ Finset.range meSCV.nodesPerElement_,
          (ScalarMassElemSuppAlgDep.elem_resize { self with lumpedMass_ := true }
            meSCV).ws_shape_function_ (ip * meSCV.nodesPerElement_ + ic) = 1 := by
      intro ip hip
      exact indicator_row_sum meSCV.shifted_shape_fcn meSCV.nodesPerElement_ ip
        (meSCV.ipNodeMap ip) (hmap ip hip) (fun ic hic => hind ip ic hip hic)
    have hV1 : (ScalarMassElemSuppAlgDep.elem_resize { self with lumpedMass_ := false }
          meSCV).scvVolume element meSCV = self.scvVolume element meSCV :=
      scvVolume_congr self _ element meSCV rfl rfl rfl rfl
    have hV2 : (ScalarMassElemSuppAlgDep.elem_resize { self with lumpedMass_ := true }
          meSCV).scvVolume element meSCV = self.scvVolume element meSCV :=
      scvVolume_congr self _ element meSCV rfl rfl rfl rfl
    rw [lhs_row_sum (ScalarMassElemSuppAlgDep.elem_resize { self with lumpedMass_ := false }
          meSCV) lhs rhs element meSCV rho h hrho hstd2 n,
      lhs_row_sum (ScalarMassElemSuppAlgDep.elem_resize { self with lumpedMass_ := true }
          meSCV) lhs rhs element meSCV rho h hrho hlump2 n, hV1, hV2]
    rfl
  · intro hN hmap
    have hrow : ∀ n ∈ Finset.range meSCV.nodesPerElement_,
        ∑ ic ∈ Finset.range meSCV.nodesPerElement_,
            ((self.elem_execute lhs rhs element meSCV).lhs (n * meSCV.nodesPerElement_ + ic)
              - lhs (n * meSCV.nodesPerElement_ + ic))
          = ∑ ip ∈ Finset.range meSCV.num_integration_points,
              if meSCV.ipNodeMap ip = n then
                self.gamma1_ * rho * self.scvVolume element meSCV ip / self.dt_
              else 0 :=
      fun n _ => lhs_row_sum self lhs rhs element meSCV rho h hrho hN n
    rw [Finset.sum_congr rfl hrow, Finset.sum_comm, Finset.mul_sum, Finset.sum_div]
    apply Finset.sum_congr rfl
    intro ip hip
    rw [Finset.sum_ite_eq (Finset.range meSCV.nodesPerElement_) (meSCV.ipNodeMap ip),
      if_pos (Finset.mem_range.mpr (hmap ip (Finset.mem_range.mp hip)))]

/-- Claim C22 exercised on the first element of the line mesh with the standard table
(rows `(3/4, 1/4)` and `(1/4, 3/4)`) and the uniform `n+1` density 3: the row of node 0. -/
theorem jacobian_row_sums_conserve_mass_witness :
    ∑ ic ∈ Finset.range (lineElement 0).nodesPerElement_,
        (((lineKernel 3 (3 / 2) (-2) (1 / 2) 2
            (stateField (fun _ => 1) (fun _ => 2) (fun _ => 3))
            (stateField (fun k => k) (fun _ => 1) (fun k => 2 * k + 1)) false).elem_execute
          (fun _ => 0) (fun _ => 0) 0 (lineElement 0)).lhs
            (0 * (lineElement 0).nodesPerElement_ + ic)
          - 0)
      = (lineKernel 3 (3 / 2) (-2) (1 / 2) 2
            (stateField (fun _ => 1) (fun _ => 2) (fun _ => 3))
            (stateField (fun k => k) (fun _ => 1) (fun k => 2 * k + 1)) false).gamma1_ * 3
          * (∑ ip ∈ ipsOfNode (lineElement 0) 0,
              (lineKernel 3 (3 / 2) (-2) (1 / 2) 2
                (stateField (fun _ => 1) (fun _ => 2) (fun _ => 3))
                (stateField (fun k => k) (fun _ => 1) (fun k => 2 * k + 1)) false).scvVolume
                0 (lineElement 0) ip)
          / (lineKernel 3 (3 / 2) (-2) (1 / 2) 2
              (stateField (fun _ => 1) (fun _ => 2) (fun _ => 3))
              (stateField (fun k => k) (fun _ => 1) (fun k => 2 * k + 1)) false).dt_ :=
  (jacobian_row_sums_conserve_mass
    (lineKernel 3 (3 / 2) (-2) (1 / 2) 2
      (stateField (fun _ => 1) (fun _ => 2) (fun _ => 3))
      (stateField (fun k => k) (fun _ => 1) (fun k => 2 * k + 1)) false)
    (fun _ => 0) (fun _ => 0) 0 (lineElement 0) 3 rfl (fun _ _ => rfl)).1
    (by
      intro ip hip
      have hip2 : ip < 2 := hip
      interval_cases ip <;>
        norm_num [Finset.sum_range_succ, lineKernel, lineElement,
          ScalarMassElemSuppAlgDep.ctor, ScalarMassElemSuppAlgDep.elem_resize,
          ScalarMassElemSuppAlgDep.setup])
    0

end MassConservation

/-! ### Symmetry of `M43` -/

section EdgeKernelM43

variable {K : Type} [LinearOrderedField K]

/-- Claim C23: the tensor `M43` built in `execute` is symmetric for every `Q` and `D` returned
by the decomposition, with no orthogonality assumed: `M43[i][j] = M43[j][i]` for all
`i, j < ndim`; and it depends on `D` only through the diagonal entries `D[k][k]`, `k < ndim`:
two decompositions with the same `Q` and the same diagonal of `D` (and the same `pow`) give the
same `M43`. -/
theorem m43_symmetric (self : MomentumSSTTAMSDiffEdgeKernel K) (ext : EdgeCollaborators K)
    (junk : Uninit K) (edge nodeL nodeR : Entity) :
    (∀ i j, i < self.nDim_ → j < self.nDim_ →
      (self.locals ext junk edge nodeL nodeR).M43 i j
        = (self.locals ext junk edge nodeL nodeR).M43 j i) ∧
    (∀ ext2 : EdgeCollaborators K, ext2.pow = ext.pow →
      (self.locals ext2 junk edge nodeL nodeR).Q = (self.locals ext junk edge nodeL nodeR).Q →
      (∀ k, k < self.nDim_ →
        (self.locals ext2 junk edge nodeL nodeR).D k k
          = (self.locals ext junk edge nodeL nodeR).D k k) →
      ∀ i j, i < self.nDim_ → j < self.nDim_ →
        (self.locals ext2 junk edge nodeL nodeR).M43 i j
          = (self.locals ext junk edge nodeL nodeR).M43 i j) := by
  constructor
  · intro i j hi hj
    rw [locals_M43 self ext junk edge nodeL nodeR i j hi hj,
      locals_M43 self ext junk edge nodeL nodeR j i hj hi]
    apply Finset.sum_congr rfl
    intro k _
    ring
  · intro ext2 hpow hQ hD i j hi hj
    rw [locals_M43 self ext2 junk edge nodeL nodeR i j hi hj,
      locals_M43 self ext junk edge nodeL nodeR i j hi hj]
    apply Finset.sum_congr rfl
    intro k hk
    rw [hpow, hQ, hD k (Finset.mem_range.mp hk)]

/-- Claim C23 exercised on `edgeKernel2d`: changing the off-diagonal entries of the returned
`D` leaves `M43` unchanged. -/
theorem m43_symmetric_witness :
    ∀ i j, i < edgeKernel2d.nDim_ → j < edgeKernel2d.nDim_ →
      (edgeKernel2d.locals edgeCollabOffDiag zeroStack 0 0 1).M43 i j
        = (edgeKernel2d.locals edgeCollab zeroStack 0 0 1).M43 i j :=
  (m43_symmetric edgeKernel2d edgeCollab zeroStack 0 0 1).2 edgeCollabOffDiag rfl rfl
    (by
      intro k _
      show (if k = k then _ else (7 : ℚ)) = _
      rw [if_pos rfl]
      rfl)

end EdgeKernelM43

/-! ### The loop under an arbitrary comparison, and a NaN correction -/

section NewtonAnyComparison

variable {D : Type} [LT D] [DecidableRel (fun a b : D => a < b)] {V : Type}

/-- The flag `iter < maxIter` of the loop for any decidable comparison `<` on the values of the
squared norm (no order law is used, so NaN-like values are covered): after `i` iterations that
passed the test `> tol` and failed the test `> deltaLimit`, the flag is true exactly when some
iteration `k ≤ maxIter` fails the test `> tol`, every earlier one passing it and every one up
to `k` failing the test `> deltaLimit`. -/
theorem newton_iter_lt_iff_any (body : V → V) (add : V → V → V) (normsq : V → D)
    (maxIter : Int) (tol deltaLimit : D) (g0 : V) (n : Nat) :
    ∀ (i e : Nat), (maxIter - i).toNat ≤ n → (i = 0 ∨ (i : Int) < maxIter) →
      (∀ m, 1 ≤ m → m ≤ i → tol < normsq (correction body add g0 m) ∧
        ¬ deltaLimit < normsq (correction body add g0 m)) →
      ((newton_do_while body add normsq maxIter tol deltaLimit
          { iter := i, guess := guessSeq body add g0 i, evals := e }).iter < maxIter ↔
        ∃ k : Nat, 1 ≤ k ∧ (k : Int) ≤ maxIter ∧ ¬ tol < normsq (correction body add g0 k) ∧
          (∀ m, 1 ≤ m → m < k → tol < normsq (correction body add g0 m)) ∧
          (∀ m, 1 ≤ m → m ≤ k → ¬ deltaLimit < normsq (correction body add g0 m))) := by
  induction n with
  | zero =>
    intro i e hn hi hprev
    have hmax : maxIter ≤ i := by omega
    have hi0 : i = 0 := by omega
    subst hi0
    have hnone : ¬ ∃ k : Nat, 1 ≤ k ∧ (k : Int) ≤ maxIter ∧
        ¬ tol < normsq (correction body add g0 k) ∧
        (∀ m, 1 ≤ m → m < k → tol < normsq (correction body add g0 m)) ∧
        (∀ m, 1 ≤ m → m ≤ k → ¬ deltaLimit < normsq (correction body add g0 m)) := by
      rintro ⟨k, hk1, hk2, -⟩
      omega
    rw [newton_do_while]
    simp only [hnone, iff_false, not_lt]
    split_ifs with h1 h2 h3
    · exact le_refl _
    · simp only [Nat.cast_zero] at h3; omega
    · simp only [Nat.cast_zero]; omega
    · simp only [Nat.cast_zero]; omega
  | succ n ih =>
    intro i e hn hi hprev
    have hd : body (guessSeq body add g0 i) = correction body add g0 (i + 1) := rfl
    rw [newton_do_while]
    simp only [hd]
    by_cases h1 : normsq (correction body add g0 (i + 1)) > deltaLimit
    · -- divergence guard at iteration i + 1
      simp only [h1, if_true, lt_self_iff_false, false_iff]
      rintro ⟨k, hk1, -, hktol, -, hklim⟩
      by_cases hki : k ≤ i
      · exact hktol (hprev k hk1 hki).1
      · exact hklim (i + 1) (by omega) (by omega) h1
    · simp only [h1, if_false]
      by_cases h2 : normsq (correction body add g0 (i + 1)) > tol
      · simp only [h2, if_true]
        have hprev1 : ∀ m, 1 ≤ m → m ≤ i + 1 →
            tol < normsq (correction body add g0 m) ∧
              ¬ deltaLimit < normsq (correction body add g0 m) := by
          intro m hm1 hm2
          by_cases hmi : m ≤ i
          · exact hprev m hm1 hmi
          · have : m = i + 1 := by omega
            subst this
            exact ⟨h2, h1⟩
        by_cases h3 : (i : Int) + 1 < maxIter
        · simp only [h3, if_true]
          have key := ih (i + 1) (e + 1) (by push_cast; omega) (Or.inr (by push_cast; omega))
            hprev1
          rw [guessSeq_succ] at key
          simpa using key
        · simp only [h3, if_false, false_iff]
          rintro ⟨k, hk1, hkmax, hktol, -, -⟩
          exact hktol (hprev1 k hk1 (by omega)).1
      · simp only [h2, if_false]
        constructor
        · intro hlt
          refine ⟨i + 1, by omega, by push_cast; omega, h2, ?_, ?_⟩
          · intro m hm1 hm2
            exact (hprev m hm1 (by omega)).1
          · intro m hm1 hm2
            by_cases hmi : m ≤ i
            · exact (hprev m hm1 hmi).2
            · have : m = i + 1 := by omega
              subst this
              exact h1
        · rintro ⟨k, hk1, hkmax, -⟩
          rcases hi with hi | hi
          · subst hi; simp only [Nat.cast_zero]; omega
          · exact hi

/-- What the returned flag of the loop started from `iter = 0` says, for any decidable
comparison: the flag is true exactly when the loop left through a failed test
`|d_k|^2 > tol` at some `k ≤ maxIter`. A value for which every ordered comparison is false
fails that test, and the divergence test before it, without being `≤ tol`. -/
theorem newton_flag_iff_any (body : V → V) (add : V → V → V) (normsq : V → D)
    (maxIter : Int) (tol deltaLimit : D) (g0 : V) :
    (decide ((newton_do_while body add normsq maxIter tol deltaLimit
        { iter := 0, guess := g0, evals := 0 }).iter < maxIter) = true ↔
      ∃ k : Nat, 1 ≤ k ∧ (k : Int) ≤ maxIter ∧ ¬ tol < normsq (correction body add g0 k) ∧
        (∀ m, 1 ≤ m → m < k → tol < normsq (correction body add g0 m)) ∧
        (∀ m, 1 ≤ m → m ≤ k → ¬ deltaLimit < normsq (correction body add g0 m))) := by
  rw [decide_eq_true_iff]
  have key := newton_iter_lt_iff_any body add normsq maxIter tol deltaLimit g0
    (maxIter - ((0 : Nat) : Int)).toNat 0 0 (le_refl _) (Or.inl rfl)
    (by intro m h1 h2; omega)
  simpa [guessSeq] using key

/-- What the flag of both solvers says for every input, in any arithmetic with a decidable
comparison (NaN included): it is true exactly when some iteration `k` with `1 ≤ k ≤ maxIter`
fails the test `|d_k|^2 > tol`, every earlier iteration passing it and every iteration up to
`k` failing the test `|d_m|^2 > deltaLimit`. -/
theorem flag_iff_tolerance_test_fails {K : Type} [Zero K] [Add K] [Sub K] [Mul K] [LT K]
    [DecidableRel (fun a b : K => a < b)]
    (basis3 : LagrangeBasis K (K × K × K)) (solve33 : (Nat → K) → K × K × K → K × K × K)
    (coords3 point3 : Nat → K) (guess3 : K × K × K)
    (basis2 : LagrangeBasis K (K × K)) (solve22 : (Nat → K) → K × K → K × K)
    (coords2 point2 : Nat → K) (guess2 : K × K)
    (maxIter : Int) (tol deltaLimit : K) :
    ((isoparameteric_coordinates_for_point_3d basis3 solve33 coords3 point3 guess3
        maxIter tol deltaLimit).1 = true ↔
      ∃ k : Nat, 1 ≤ k ∧ (k : Int) ≤ maxIter ∧
        ¬ tol < vecnorm_sq3 (correction (delta_3d basis3 solve33 coords3 point3) add3 guess3 k) ∧
        (∀ m, 1 ≤ m → m < k →
          tol < vecnorm_sq3 (correction (delta_3d basis3 solve33 coords3 point3) add3 guess3 m)) ∧
        (∀ m, 1 ≤ m → m ≤ k →
          ¬ deltaLimit
            < vecnorm_sq3 (correction (delta_3d basis3 solve33 coords3 point3) add3 guess3 m))) ∧
    ((isoparameteric_coordinates_for_point_2d basis2 solve22 coords2 point2 guess2
        maxIter tol deltaLimit).1 = true ↔
      ∃ k : Nat, 1 ≤ k ∧ (k : Int) ≤ maxIter ∧
        ¬ tol < vecnorm_sq2 (correction (delta_2d basis2 solve22 coords2 point2) add2 guess2 k) ∧
        (∀ m, 1 ≤ m → m < k →
          tol < vecnorm_sq2 (correction (delta_2d basis2 solve22 coords2 point2) add2 guess2 m)) ∧
        (∀ m, 1 ≤ m → m ≤ k →
          ¬ deltaLimit
            < vecnorm_sq2 (correction (delta_2d basis2 solve22 coords2 point2) add2 guess2 m))) :=
  ⟨newton_flag_iff_any _ _ _ _ _ _ _, newton_flag_iff_any _ _ _ _ _ _ _⟩

end NewtonAnyComparison

section NaNCorrection

theorem DoubleNaN.num_add (x y : ℚ) : DoubleNaN.num x + DoubleNaN.num y = DoubleNaN.num (x + y) :=
  rfl

theorem DoubleNaN.num_sub (x y : ℚ) : DoubleNaN.num x - DoubleNaN.num y = DoubleNaN.num (x - y) :=
  rfl

theorem DoubleNaN.num_mul (x y : ℚ) : DoubleNaN.num x * DoubleNaN.num y = DoubleNaN.num (x * y) :=
  rfl

theorem DoubleNaN.num_neg (x : ℚ) : -DoubleNaN.num x = DoubleNaN.num (-x) := rfl

theorem DoubleNaN.zero_eq : (0 : DoubleNaN) = DoubleNaN.num 0 := rfl

theorem DoubleNaN.zero_div_zero : DoubleNaN.num 0 / DoubleNaN.num 0 = DoubleNaN.nan := rfl

theorem DoubleNaN.not_lt_nan (a : DoubleNaN) : ¬ a < DoubleNaN.nan := by
  intro h
  cases a <;> exact h

theorem DoubleNaN.not_nan_le (a : DoubleNaN) : ¬ DoubleNaN.nan ≤ a := fun h => h

/-- The correction computed on the collapsed tetrahedron (all nodes at the origin) is NaN in
every component: the assembled `jact` is zero and Cramer's rule divides 0 by 0. -/
theorem collapsed_delta_3d :
    delta_3d tet4BasisNaN cramer33 (fun _ => DoubleNaN.num 0) (fun _ => DoubleNaN.num 0)
        (DoubleNaN.num 0, DoubleNaN.num 0, DoubleNaN.num 0)
      = (DoubleNaN.nan, DoubleNaN.nan, DoubleNaN.nan) := by
  simp [delta_3d, jact_3d, ddot, forLoop, addAt, cramer33, det33, tet4BasisNaN,
    DoubleNaN.num_add, DoubleNaN.num_sub, DoubleNaN.num_mul, DoubleNaN.num_neg,
    DoubleNaN.zero_eq, DoubleNaN.zero_div_zero]

/-- The correction computed on the collapsed triangle (all nodes at the origin) is NaN in both
components. -/
theorem collapsed_delta_2d :
    delta_2d tri3BasisNaN cramer22 (fun _ => DoubleNaN.num 0) (fun _ => DoubleNaN.num 0)
        (DoubleNaN.num 0, DoubleNaN.num 0)
      = (DoubleNaN.nan, DoubleNaN.nan) := by
  simp [delta_2d, jact_2d, ddot, forLoop, addAt, cramer22, det22, tri3BasisNaN,
    DoubleNaN.num_add, DoubleNaN.num_sub, DoubleNaN.num_mul, DoubleNaN.num_neg,
    DoubleNaN.zero_eq, DoubleNaN.zero_div_zero]

/-- No iteration can be a tolerance exit in the sense of the claim when the first correction has
a NaN squared norm. -/
theorem no_tolerance_exit_of_nan {V : Type} (body : V → V) (add : V → V → V)
    (normsq : V → DoubleNaN) (g0 : V) (maxIter : Int) (tol deltaLimit : DoubleNaN)
    (hnan : normsq (body g0) = DoubleNaN.nan) :
    ¬ ∃ k : Nat, 1 ≤ k ∧ (k : Int) ≤ maxIter ∧ normsq (correction body add g0 k) ≤ tol ∧
        (∀ m, 1 ≤ m → m < k → tol < normsq (correction body add g0 m)) ∧
        (∀ m, 1 ≤ m → m ≤ k → normsq (correction body add g0 m) ≤ deltaLimit) := by
  rintro ⟨k, hk1, -, hle, hprev, -⟩
  have h1 : normsq (correction body add g0 1) = DoubleNaN.nan := hnan
  by_cases hk : k = 1
  · subst hk
    rw [h1] at hle
    exact DoubleNaN.not_nan_le _ hle
  · have hlt := hprev 1 (le_refl 1) (by omega)
    rw [h1] at hlt
    exact DoubleNaN.not_lt_nan _ hlt

/-- Claim C1, the code at a failing input: on a collapsed element (every node at the origin)
with Cramer's rule as the solve, in arithmetic with NaN, the first correction is NaN; both
tests `> deltaLimit` and `> tol` are false for it, so the loop ends after one iteration with
`iter = 0` and both solvers return true with NaN coordinates, although no iteration `k` has
`|d_k|^2 <= tol` with the earlier ones above `tol`: the flag is true without a tolerance
exit. -/
theorem nan_correction_reports_convergence :
    (isoparameteric_coordinates_for_point_3d tet4BasisNaN cramer33 (fun _ => DoubleNaN.num 0)
        (fun _ => DoubleNaN.num 0) (DoubleNaN.num 0, DoubleNaN.num 0, DoubleNaN.num 0)
        10 (DoubleNaN.num (1 / 100)) (DoubleNaN.num 1)
      = (true, (DoubleNaN.nan, DoubleNaN.nan, DoubleNaN.nan)) ∧
     ¬ ∃ k : Nat, 1 ≤ k ∧ (k : Int) ≤ 10 ∧
        vecnorm_sq3 (correction (delta_3d tet4BasisNaN cramer33 (fun _ => DoubleNaN.num 0)
          (fun _ => DoubleNaN.num 0)) add3
          (DoubleNaN.num 0, DoubleNaN.num 0, DoubleNaN.num 0) k) ≤ DoubleNaN.num (1 / 100) ∧
        (∀ m, 1 ≤ m → m < k → DoubleNaN.num (1 / 100) <
          vecnorm_sq3 (correction (delta_3d tet4BasisNaN cramer33 (fun _ => DoubleNaN.num 0)
            (fun _ => DoubleNaN.num 0)) add3
            (DoubleNaN.num 0, DoubleNaN.num 0, DoubleNaN.num 0) m)) ∧
        (∀ m, 1 ≤ m → m ≤ k →
          vecnorm_sq3 (correction (delta_3d tet4BasisNaN cramer33 (fun _ => DoubleNaN.num 0)
            (fun _ => DoubleNaN.num 0)) add3
            (DoubleNaN.num 0, DoubleNaN.num 0, DoubleNaN.num 0) m) ≤ DoubleNaN.num 1)) ∧
    (isoparameteric_coordinates_for_point_2d tri3BasisNaN cramer22 (fun _ => DoubleNaN.num 0)
        (fun _ => DoubleNaN.num 0) (DoubleNaN.num 0, DoubleNaN.num 0)
        10 (DoubleNaN.num (1 / 100)) (DoubleNaN.num 1)
      = (true, (DoubleNaN.nan, DoubleNaN.nan)) ∧
     ¬ ∃ k : Nat, 1 ≤ k ∧ (k : Int) ≤ 10 ∧
        vecnorm_sq2 (correction (delta_2d tri3BasisNaN cramer22 (fun _ => DoubleNaN.num 0)
          (fun _ => DoubleNaN.num 0)) add2
          (DoubleNaN.num 0, DoubleNaN.num 0) k) ≤ DoubleNaN.num (1 / 100) ∧
        (∀ m, 1 ≤ m → m < k → DoubleNaN.num (1 / 100) <
          vecnorm_sq2 (correction (delta_2d tri3BasisNaN cramer22 (fun _ => DoubleNaN.num 0)
            (fun _ => DoubleNaN.num 0)) add2
            (DoubleNaN.num 0, DoubleNaN.num 0) m)) ∧
        (∀ m, 1 ≤ m → m ≤ k →
          vecnorm_sq2 (correction (delta_2d tri3BasisNaN cramer22 (fun _ => DoubleNaN.num 0)
            (fun _ => DoubleNaN.num 0)) add2
            (DoubleNaN.num 0, DoubleNaN.num 0) m) ≤ DoubleNaN.num 1)) := by
  have hn3 : vecnorm_sq3 (DoubleNaN.nan, DoubleNaN.nan, DoubleNaN.nan) = DoubleNaN.nan := rfl
  have hn2 : vecnorm_sq2 (DoubleNaN.nan, DoubleNaN.nan) = DoubleNaN.nan := rfl
  refine ⟨⟨?_, ?_⟩, ⟨?_, ?_⟩⟩
  · unfold isoparameteric_coordinates_for_point_3d run_3d
    rw [newton_do_while]
    simp only [collapsed_delta_3d, hn3, gt_iff_lt, DoubleNaN.not_lt_nan, if_false]
    rfl
  · apply no_tolerance_exit_of_nan
    rw [collapsed_delta_3d]
    rfl
  · unfold isoparameteric_coordinates_for_point_2d run_2d
    rw [newton_do_while]
    simp only [collapsed_delta_2d, hn2, gt_iff_lt, DoubleNaN.not_lt_nan, if_false]
    rfl
  · apply no_tolerance_exit_of_nan
    rw [collapsed_delta_2d]
    rfl

end NaNCorrection

end Nalu
